import Mathlib

/-!
Quick-fix engine of the C++ editor (`src/plugins/cppeditor/cppquickfix.cpp`) and the
arguments of `VCSBaseEditorParameterWidget`
(`src/plugins/vcsbase/vcsbaseeditorparameterwidget.cpp`).

A shallow embedding of the tree locator `ASTPath`, of the `match` and `createChangeSet`
functions of the six quick-fix operations, of the collector `CPPQuickFixCollector` and of
the argument list of the parameter widget, followed by the properties proved about them.

Conventions of the embedding.
* A pointer to an AST node is the node value; a null pointer is `none`.
* Token indices and source offsets are `unsigned`; they are natural numbers here.
* Offsets of the live buffer are `int`; they are integers here, and the value of an `int`
  expression is taken through `toInt32`.
* What the parser library supplies (token table, line/column translation, the virtual
  `firstToken()`/`lastToken()` of every node) is a field of `Document`, and its pattern
  matcher is a parameter `ASTMatcher`, so every theorem holds for every such library.
* A call that dereferences a null pointer or indexes a list out of range has no result:
  the functions that can do so return an `Option`, and `none` is that failure.
-/

namespace CppQuickFix

/-! ## Tokens -/

/-- Token kinds the rules test for; every other kind is `T_OTHER`. -/
inductive Kind where
  | T_AMPER_AMPER
  | T_PIPE_PIPE
  | T_EXCLAIM
  | T_OTHER (code : Nat)
  deriving DecidableEq, Repr

/-- A token: its kind and its half-open byte range `[offset, offset + length)`. -/
structure Token where
  kind : Kind
  offset : Nat
  length : Nat
  deriving DecidableEq, Repr

/-- Method `Token::is`. -/
def Token.is (t : Token) (k : Kind) : Bool := decide (t.kind = k)

/-- Method `Token::begin`. -/
def Token.begin (t : Token) : Nat := t.offset

/-- Method `Token::end`. -/
def Token.end_ (t : Token) : Nat := t.offset + t.length

/-! ## Syntax tree -/

/-- The syntax nodes the rules discriminate, with the fields they read; every other node
kind is `Other`.  A child pointer is an `Option` (null is `none`), a child list is a
`List`. `CoreDeclarator` stands for the subclasses of `CoreDeclaratorAST`. -/
inductive AST where
  | BinaryExpression (left_expression : Option AST) (binary_op_token : Nat)
      (right_expression : Option AST)
  | UnaryExpression (unary_op_token : Nat) (expression : Option AST)
  | IfStatement (if_token lparen_token : Nat) (condition : Option AST) (rparen_token : Nat)
      (statement : Option AST) (else_token : Nat) (else_statement : Option AST)
  | WhileStatement (while_token lparen_token : Nat) (condition : Option AST)
      (rparen_token : Nat) (statement : Option AST)
  | CompoundStatement (lbrace_token : Nat) (statement_list : List AST) (rbrace_token : Nat)
  | SimpleDeclaration (qt_invokable_token : Nat) (decl_specifier_list : List AST)
      (declarator_list : List AST) (semicolon_token : Nat)
  | Declarator (ptr_operator_list : List AST) (core_declarator : Option AST)
      (postfix_declarator_list : List AST) (equals_token : Nat) (initializer : Option AST)
  | Condition (type_specifier_list : List AST) (declarator : Option AST)
  | CoreDeclarator (tokens : List Nat) (children : List AST)
  | EnumSpecifier (tokens : List Nat) (children : List AST)
  | ClassSpecifier (tokens : List Nat) (children : List AST)
  | Other (kind : Nat) (tokens : List Nat) (children : List AST)
  deriving Repr

/-- Method `asBinaryExpression`: the node itself when it is a binary expression. -/
def AST.asBinaryExpression : AST → Option AST
  | n@(.BinaryExpression ..) => some n
  | _ => none

/-- Method `asIfStatement`. -/
def AST.asIfStatement : AST → Option AST
  | n@(.IfStatement ..) => some n
  | _ => none

/-- Method `asWhileStatement`. -/
def AST.asWhileStatement : AST → Option AST
  | n@(.WhileStatement ..) => some n
  | _ => none

/-- Method `asCompoundStatement`. -/
def AST.asCompoundStatement : AST → Option AST
  | n@(.CompoundStatement ..) => some n
  | _ => none

/-- Method `asSimpleDeclaration`. -/
def AST.asSimpleDeclaration : AST → Option AST
  | n@(.SimpleDeclaration ..) => some n
  | _ => none

/-- Method `asCoreDeclarator`. -/
def AST.asCoreDeclarator : AST → Option AST
  | n@(.CoreDeclarator ..) => some n
  | _ => none

/-- Method `asEnumSpecifier`. -/
def AST.asEnumSpecifier : AST → Option AST
  | n@(.EnumSpecifier ..) => some n
  | _ => none

/-- Method `asClassSpecifier`. -/
def AST.asClassSpecifier : AST → Option AST
  | n@(.ClassSpecifier ..) => some n
  | _ => none

/-- The non-null children of a node, in the order of its fields (the order in which
`accept0` hands them to a visitor). -/
def AST.children : AST → List AST
  | .BinaryExpression l _ r => l.toList ++ r.toList
  | .UnaryExpression _ e => e.toList
  | .IfStatement _ _ c _ s _ es => c.toList ++ (s.toList ++ es.toList)
  | .WhileStatement _ _ c _ s => c.toList ++ s.toList
  | .CompoundStatement _ ss _ => ss
  | .SimpleDeclaration _ ds dl _ => ds ++ dl
  | .Declarator p c pf _ i => p ++ (c.toList ++ (pf ++ i.toList))
  | .Condition ts d => ts ++ d.toList
  | .CoreDeclarator _ c => c
  | .EnumSpecifier _ c => c
  | .ClassSpecifier _ c => c
  | .Other _ _ c => c

/-! ## Documents -/

/-- What a parsed document (`CPlusPlus::Document` and its `TranslationUnit`) supplies: the
root of the tree, the token table, the translation of a source offset to a 1-based
(line, column), the virtual `firstToken()`/`lastToken()` of nodes and of child lists, and the
revision number of the source it was parsed from.  The parser library is not part of the
sources studied, so all of these are parameters. -/
structure Document where
  revision : Nat
  ast : Option AST
  tokenAt : Nat → Token
  getPosition : Nat → Nat × Nat
  firstToken : AST → Nat
  lastToken : AST → Nat
  listFirstToken : List AST → Nat
  listLastToken : List AST → Nat

/-- Modelled from the spec: `getTokenStartPosition` of the visitor base class, the
(line, column) of the first byte of a token (spec 4.1 and 4.4, token to position
translation through the parser's line table). -/
def Document.getTokenStartPosition (doc : Document) (index : Nat) : Nat × Nat :=
  doc.getPosition (doc.tokenAt index).begin

/-- Modelled from the spec: `getTokenEndPosition` of the visitor base class, the
(line, column) just after the last byte of a token. -/
def Document.getTokenEndPosition (doc : Document) (index : Nat) : Nat × Nat :=
  doc.getPosition (doc.tokenAt index).end_

/-! ## Tree locator `ASTPath` -/

/-- `ASTPath::preVisit`, lines 73-95: whether the node is appended to `_nodes` (and its
children visited).  `lastToken - 1` cannot wrap: it is evaluated under
`lastToken > firstToken`. -/
def ASTPath.preVisit (doc : Document) (_line _column : Nat) (ast : AST) : Bool :=
  let firstToken := doc.firstToken ast
  let lastToken := doc.lastToken ast
  if firstToken > 0 && lastToken > firstToken then
    let (startLine, startColumn) := doc.getTokenStartPosition firstToken
    if _line > startLine || (_line == startLine && _column >= startColumn) then
      let (endLine, endColumn) := doc.getTokenEndPosition (lastToken - 1)
      if _line < endLine || (_line == endLine && _column < endColumn) then
        true
      else false
    else false
  else false

mutual
/-- Modelled from the spec: `AST::accept` for the visitor `ASTPath` (spec 4.1, depth-first
pre-order descent; children are visited only if the parent was included).  When `preVisit`
accepts the node, the node is appended and `accept0` of its class visits its children in
field order; the result is the list of nodes appended to `_nodes`. -/
def ASTPath.accept (doc : Document) (_line _column : Nat) : AST → List AST
  | .BinaryExpression l o r =>
      if ASTPath.preVisit doc _line _column (.BinaryExpression l o r) then
        .BinaryExpression l o r ::
          (ASTPath.acceptOpt doc _line _column l ++ ASTPath.acceptOpt doc _line _column r)
      else []
  | .UnaryExpression o e =>
      if ASTPath.preVisit doc _line _column (.UnaryExpression o e) then
        .UnaryExpression o e :: ASTPath.acceptOpt doc _line _column e
      else []
  | .IfStatement i l c r s e es =>
      if ASTPath.preVisit doc _line _column (.IfStatement i l c r s e es) then
        .IfStatement i l c r s e es ::
          (ASTPath.acceptOpt doc _line _column c ++
            (ASTPath.acceptOpt doc _line _column s ++ ASTPath.acceptOpt doc _line _column es))
      else []
  | .WhileStatement w l c r s =>
      if ASTPath.preVisit doc _line _column (.WhileStatement w l c r s) then
        .WhileStatement w l c r s ::
          (ASTPath.acceptOpt doc _line _column c ++ ASTPath.acceptOpt doc _line _column s)
      else []
  | .CompoundStatement l ss r =>
      if ASTPath.preVisit doc _line _column (.CompoundStatement l ss r) then
        .CompoundStatement l ss r :: ASTPath.acceptList doc _line _column ss
      else []
  | .SimpleDeclaration q ds dl s =>
      if ASTPath.preVisit doc _line _column (.SimpleDeclaration q ds dl s) then
        .SimpleDeclaration q ds dl s ::
          (ASTPath.acceptList doc _line _column ds ++ ASTPath.acceptList doc _line _column dl)
      else []
  | .Declarator p c pf e i =>
      if ASTPath.preVisit doc _line _column (.Declarator p c pf e i) then
        .Declarator p c pf e i ::
          (ASTPath.acceptList doc _line _column p ++
            (ASTPath.acceptOpt doc _line _column c ++
              (ASTPath.acceptList doc _line _column pf ++ ASTPath.acceptOpt doc _line _column i)))
      else []
  | .Condition ts d =>
      if ASTPath.preVisit doc _line _column (.Condition ts d) then
        .Condition ts d ::
          (ASTPath.acceptList doc _line _column ts ++ ASTPath.acceptOpt doc _line _column d)
      else []
  | .CoreDeclarator t c =>
      if ASTPath.preVisit doc _line _column (.CoreDeclarator t c) then
        .CoreDeclarator t c :: ASTPath.acceptList doc _line _column c
      else []
  | .EnumSpecifier t c =>
      if ASTPath.preVisit doc _line _column (.EnumSpecifier t c) then
        .EnumSpecifier t c :: ASTPath.acceptList doc _line _column c
      else []
  | .ClassSpecifier t c =>
      if ASTPath.preVisit doc _line _column (.ClassSpecifier t c) then
        .ClassSpecifier t c :: ASTPath.acceptList doc _line _column c
      else []
  | .Other k t c =>
      if ASTPath.preVisit doc _line _column (.Other k t c) then
        .Other k t c :: ASTPath.acceptList doc _line _column c
      else []
/-- Visit of a child pointer: nothing for a null pointer. -/
def ASTPath.acceptOpt (doc : Document) (_line _column : Nat) : Option AST → List AST
  | none => []
  | some a => ASTPath.accept doc _line _column a
/-- Visit of a child list, front to back. -/
def ASTPath.acceptList (doc : Document) (_line _column : Nat) : List AST → List AST
  | [] => []
  | a :: as => ASTPath.accept doc _line _column a ++ ASTPath.acceptList doc _line _column as
end

/-- The text cursor of the editor (`QTextCursor` with its `QTextDocument`): the block and
column of the cursor, the start of the selection, the position of the first character
of each block of the live buffer, and the text of that buffer. -/
structure TextCursor where
  blockNumber : Nat
  columnNumber : Nat
  selectionStart : Int
  selectionEnd : Int
  findBlockPosition : Int → Int
  documentText : String := ""

/-- `ASTPath::operator()`, lines 63-70: the chain of nodes around the cursor. -/
def ASTPath.run (doc : Document) (cursor : TextCursor) : List AST :=
  let _line := cursor.blockNumber + 1
  let _column := cursor.columnNumber + 1
  ASTPath.acceptOpt doc _line _column doc.ast

/-! ## Field access on typed nodes

A typed pointer such as `IfStatementAST *` is an `AST` value here, so a field is read by a
function on `AST`; on a node of another class, which the typed code never reaches, it
yields a zero token or a null child. -/

/-- Field `binary_op_token` of a binary expression. -/
def AST.binary_op_token : AST → Nat
  | .BinaryExpression _ o _ => o
  | _ => 0

/-- Field `left_expression` of a binary expression. -/
def AST.left_expression : AST → Option AST
  | .BinaryExpression l _ _ => l
  | _ => none

/-- Field `right_expression` of a binary expression. -/
def AST.right_expression : AST → Option AST
  | .BinaryExpression _ _ r => r
  | _ => none

/-- Field `unary_op_token` of a unary expression. -/
def AST.unary_op_token : AST → Nat
  | .UnaryExpression o _ => o
  | _ => 0

/-- Field `if_token` of an if-statement. -/
def AST.if_token : AST → Nat
  | .IfStatement i _ _ _ _ _ _ => i
  | _ => 0

/-- Field `condition` of an if-statement or a while-statement. -/
def AST.condition : AST → Option AST
  | .IfStatement _ _ c _ _ _ _ => c
  | .WhileStatement _ _ c _ _ => c
  | _ => none

/-- Field `statement` of an if-statement or a while-statement. -/
def AST.statement : AST → Option AST
  | .IfStatement _ _ _ _ s _ _ => s
  | .WhileStatement _ _ _ _ s => s
  | _ => none

/-- Field `declarator` of a condition. -/
def AST.declarator : AST → Option AST
  | .Condition _ d => d
  | _ => none

/-- Field `core_declarator` of a declarator. -/
def AST.core_declarator : AST → Option AST
  | .Declarator _ c _ _ _ => c
  | _ => none

/-- Field `equals_token` of a declarator. -/
def AST.equals_token : AST → Nat
  | .Declarator _ _ _ e _ => e
  | _ => 0

/-- Field `initializer` of a declarator. -/
def AST.initializer : AST → Option AST
  | .Declarator _ _ _ _ i => i
  | _ => none

/-- Field `semicolon_token` of a simple declaration. -/
def AST.semicolon_token : AST → Nat
  | .SimpleDeclaration _ _ _ s => s
  | _ => 0

/-- Field `decl_specifier_list` of a simple declaration (the null list is `[]`). -/
def AST.decl_specifier_list : AST → List AST
  | .SimpleDeclaration _ ds _ _ => ds
  | _ => []

/-- Field `declarator_list` of a simple declaration (the null list is `[]`). -/
def AST.declarator_list : AST → List AST
  | .SimpleDeclaration _ _ dl _ => dl
  | _ => []

/-! ## Base class `QuickFixOperation` -/

/-- The value of `n - 1` in `unsigned` arithmetic. -/
def pred32 (n : Nat) : Nat := (n + 4294967295) % 4294967296

/-- The value of an integer expression once stored in an `int`. -/
def toInt32 (x : Int) : Int := (x + 2147483648) % 4294967296 - 2147483648

/-- `QuickFixOperation::startOf(unsigned)`, lines 645-650: the offset in the live buffer
of the start of a token. -/
def QuickFixOperation.startOf (doc : Document) (tc : TextCursor) (index : Nat) : Int :=
  let (line, column) := doc.getPosition (doc.tokenAt index).begin
  toInt32 (tc.findBlockPosition (toInt32 ((line : Int) - 1)) + (column : Int) - 1)

/-- `QuickFixOperation::endOf(unsigned)`, lines 657-662. -/
def QuickFixOperation.endOf (doc : Document) (tc : TextCursor) (index : Nat) : Int :=
  let (line, column) := doc.getPosition (doc.tokenAt index).end_
  toInt32 (tc.findBlockPosition (toInt32 ((line : Int) - 1)) + (column : Int) - 1)

/-- `QuickFixOperation::startOf(const AST *)`, lines 652-655. -/
def QuickFixOperation.startOfAST (doc : Document) (tc : TextCursor) (ast : AST) : Int :=
  QuickFixOperation.startOf doc tc (doc.firstToken ast)

/-- `QuickFixOperation::endOf(const AST *)`, lines 664-667. -/
def QuickFixOperation.endOfAST (doc : Document) (tc : TextCursor) (ast : AST) : Int :=
  QuickFixOperation.endOf doc tc (pred32 (doc.lastToken ast))

/-- `QuickFixOperation::isCursorOn(unsigned)`, lines 669-681. -/
def QuickFixOperation.isCursorOn (doc : Document) (tc : TextCursor) (tokenIndex : Nat) : Bool :=
  let cursorBegin := tc.selectionStart
  let start := QuickFixOperation.startOf doc tc tokenIndex
  let end_ := QuickFixOperation.endOf doc tc tokenIndex
  if cursorBegin >= start && cursorBegin <= end_ then true else false

/-- `QuickFixOperation::isCursorOn(const AST *)`, lines 683-695. -/
def QuickFixOperation.isCursorOnAST (doc : Document) (tc : TextCursor) (ast : AST) : Bool :=
  let cursorBegin := tc.selectionStart
  let start := QuickFixOperation.startOfAST doc tc ast
  let end_ := QuickFixOperation.endOfAST doc tc ast
  if cursorBegin >= start && cursorBegin <= end_ then true else false

/-! ## Patterns and the matcher -/

/-- The pattern matcher of the parser library, `node->match(pattern, &matcher)`: whether
the node matches the pattern, and the pattern as the call leaves it (its wildcards bound).
The matcher is not part of the sources studied; it is a parameter. -/
abbrev ASTMatcher := AST → AST → Bool × AST

/-- Modelled from the spec: `ASTPatternBuilder::UnaryExpression()`, a synthetic unary
expression whose operand is a wildcard (spec 3, Pattern). -/
def mk.UnaryExpression : AST := .UnaryExpression 0 none

/-- Modelled from the spec: `ASTPatternBuilder::BinaryExpression(left, right)`. -/
def mk.BinaryExpression (left right : AST) : AST := .BinaryExpression (some left) 0 (some right)

/-- Modelled from the spec: `ASTPatternBuilder::Condition()`, a synthetic condition whose
specifiers and declarator are wildcards. -/
def mk.Condition : AST := .Condition [] none

/-- Modelled from the spec: `ASTPatternBuilder::IfStatement(condition)`, body and else
branch are wildcards. -/
def mk.IfStatement (condition : AST) : AST := .IfStatement 0 0 (some condition) 0 none 0 none

/-- Modelled from the spec: `ASTPatternBuilder::WhileStatement(condition)`. -/
def mk.WhileStatement (condition : AST) : AST := .WhileStatement 0 0 (some condition) 0 none

/-! ## Rule `RewriteLogicalAndOp` -/

/-- The fields of a `RewriteLogicalAndOp`. -/
structure RewriteLogicalAndOp where
  left : Option AST
  right : Option AST
  pattern : Option AST

/-- Lines 112-119 of `RewriteLogicalAndOp::match`: the loop from `index + 1 = k` downwards;
the result is the final `index` and `expression`. -/
def RewriteLogicalAndOp.findExpression (path : List AST) : Nat → Option (Int × Option AST)
  | 0 => some (-1, none)
  | k + 1 =>
    match path[k]? with
    | none => none
    | some node =>
      match node.asBinaryExpression with
      | some expression => some ((k : Int), some expression)
      | none => RewriteLogicalAndOp.findExpression path k

/-- `RewriteLogicalAndOp::match`, lines 110-139: the priority and the fields left behind. -/
def RewriteLogicalAndOp.match_ (doc : Document) (tc : TextCursor) (matcher : ASTMatcher)
    (self : RewriteLogicalAndOp) (path : List AST) : Option (Int × RewriteLogicalAndOp) :=
  match RewriteLogicalAndOp.findExpression path path.length with
  | none => none
  | some (_, none) => some (-1, self)
  | some (index, some expression) =>
    if ! QuickFixOperation.isCursorOn doc tc expression.binary_op_token then
      some (-1, self)
    else
      let left := mk.UnaryExpression
      let right := mk.UnaryExpression
      let pattern := mk.BinaryExpression left right
      let (matched, pattern) := matcher expression pattern
      let left := pattern.left_expression
      let right := pattern.right_expression
      let self : RewriteLogicalAndOp := { left := left, right := right, pattern := some pattern }
      if matched &&
          (doc.tokenAt pattern.binary_op_token).is Kind.T_AMPER_AMPER &&
          (doc.tokenAt ((left.map AST.unary_op_token).getD 0)).is Kind.T_EXCLAIM &&
          (doc.tokenAt ((right.map AST.unary_op_token).getD 0)).is Kind.T_EXCLAIM then
        some (index, self)
      else some (-1, self)

/-! ## Rule `SplitSimpleDeclarationOp` -/

/-- The field of a `SplitSimpleDeclarationOp`. -/
structure SplitSimpleDeclarationOp where
  declaration : Option AST

/-- `SplitSimpleDeclarationOp::checkDeclaration`, lines 170-195. -/
def SplitSimpleDeclarationOp.checkDeclaration (declaration : AST) : Bool :=
  if declaration.semicolon_token == 0 then false
  else if declaration.decl_specifier_list.isEmpty then false
  else if declaration.decl_specifier_list.any
      (fun specifier => specifier.asEnumSpecifier.isSome || specifier.asClassSpecifier.isSome)
    then false
  else if declaration.declarator_list.isEmpty then false
  else if declaration.declarator_list.tail.isEmpty then false
  else true

/-- The loop of `SplitSimpleDeclarationOp::match`, lines 202-228, from `index + 1 = k`
downwards with the current `core_declarator`; a `break` leads to the final `return -1`. -/
def SplitSimpleDeclarationOp.loop (doc : Document) (tc : TextCursor) (path : List AST)
    (self : SplitSimpleDeclarationOp) :
    Nat → Option AST → Option (Int × SplitSimpleDeclarationOp)
  | 0, _ => some (-1, self)
  | k + 1, core_declarator =>
    match path[k]? with
    | none => none
    | some node =>
      match node.asCoreDeclarator with
      | some coreDecl => SplitSimpleDeclarationOp.loop doc tc path self k (some coreDecl)
      | none =>
        match node.asSimpleDeclaration with
        | some simpleDecl =>
          if SplitSimpleDeclarationOp.checkDeclaration simpleDecl then
            let self : SplitSimpleDeclarationOp := { declaration := some simpleDecl }
            let cursorPosition := tc.selectionStart
            let startOfDeclSpecifier :=
              QuickFixOperation.startOf doc tc (doc.listFirstToken simpleDecl.decl_specifier_list)
            let endOfDeclSpecifier :=
              QuickFixOperation.endOf doc tc
                (pred32 (doc.listLastToken simpleDecl.decl_specifier_list))
            if cursorPosition >= startOfDeclSpecifier && cursorPosition <= endOfDeclSpecifier then
              some ((k : Int), self)
            else
              match core_declarator with
              | some core =>
                if QuickFixOperation.isCursorOnAST doc tc core then some ((k : Int), self)
                else some (-1, self)
              | none => some (-1, self)
          else some (-1, self)
        | none => SplitSimpleDeclarationOp.loop doc tc path self k core_declarator

/-- `SplitSimpleDeclarationOp::match`, lines 197-229. -/
def SplitSimpleDeclarationOp.match_ (doc : Document) (tc : TextCursor)
    (self : SplitSimpleDeclarationOp) (path : List AST) :
    Option (Int × SplitSimpleDeclarationOp) :=
  SplitSimpleDeclarationOp.loop doc tc path self path.length none

/-! ## Rule `AddBracesToIfOp` -/

/-- The field of an `AddBracesToIfOp`. -/
structure AddBracesToIfOp where
  _statement : Option AST

/-- The loop of `AddBracesToIfOp::match`, lines 287-294, from `index + 1 = k` downwards.
`isCursorOn(ifStatement->statement)` dereferences the body, so an if-statement without a
body has no result. -/
def AddBracesToIfOp.loop (doc : Document) (tc : TextCursor) (path : List AST)
    (self : AddBracesToIfOp) : Nat → Option (Int × AddBracesToIfOp)
  | 0 => some (-1, self)
  | k + 1 =>
    match path[k]? with
    | none => none
    | some node =>
      match node.asIfStatement with
      | none => AddBracesToIfOp.loop doc tc path self k
      | some ifStatement =>
        match ifStatement.statement with
        | none => none
        | some statement =>
          if QuickFixOperation.isCursorOnAST doc tc statement
              && ! statement.asCompoundStatement.isSome then
            some ((k : Int), { _statement := some statement })
          else AddBracesToIfOp.loop doc tc path self k

/-- `AddBracesToIfOp::match`, lines 274-300.  `path.at(path.size() - 1)` has no result on
the empty chain, and `ifStatement->statement->asCompoundStatement()` none when the body is
null. -/
def AddBracesToIfOp.match_ (doc : Document) (tc : TextCursor)
    (self : AddBracesToIfOp) (path : List AST) : Option (Int × AddBracesToIfOp) :=
  match path.getLast? with
  | none => none
  | some last =>
    match last.asIfStatement with
    | none => AddBracesToIfOp.loop doc tc path self path.length
    | some ifStatement =>
      if QuickFixOperation.isCursorOn doc tc ifStatement.if_token then
        match ifStatement.statement with
        | none => none
        | some statement =>
          if ! statement.asCompoundStatement.isSome then
            some ((path.length : Int) - 1, { _statement := some statement })
          else AddBracesToIfOp.loop doc tc path self path.length
      else AddBracesToIfOp.loop doc tc path self path.length

/-! ## Rule `MoveDeclarationOutOfIfOp` -/

/-- The fields of a `MoveDeclarationOutOfIfOp`. -/
structure MoveDeclarationOutOfIfOp where
  condition : Option AST
  pattern : Option AST
  core : Option AST

/-- The loop of `MoveDeclarationOutOfIfOp::match`, lines 339-351, from `index + 1 = k`
downwards; the pattern object is the one the matcher has been working on, `condition` is
its condition child. -/
def MoveDeclarationOutOfIfOp.loop (doc : Document) (tc : TextCursor) (matcher : ASTMatcher)
    (path : List AST) : Nat → AST → Option AST → Option (Int × MoveDeclarationOutOfIfOp)
  | 0, pattern, core =>
    some (-1, { condition := pattern.condition, pattern := some pattern, core := core })
  | k + 1, pattern, core =>
    match path[k]? with
    | none => none
    | some node =>
      match node.asIfStatement with
      | none => MoveDeclarationOutOfIfOp.loop doc tc matcher path k pattern core
      | some statement =>
        let (matched, pattern) := matcher statement pattern
        if matched then
          match pattern.condition.bind AST.declarator with
          | none => MoveDeclarationOutOfIfOp.loop doc tc matcher path k pattern core
          | some declarator =>
            let core := declarator.core_declarator
            match core with
            | none =>
              some (-1, { condition := pattern.condition, pattern := some pattern, core := core })
            | some coreNode =>
              if QuickFixOperation.isCursorOnAST doc tc coreNode then
                some ((k : Int),
                  { condition := pattern.condition, pattern := some pattern, core := core })
              else MoveDeclarationOutOfIfOp.loop doc tc matcher path k pattern core
        else MoveDeclarationOutOfIfOp.loop doc tc matcher path k pattern core

/-- `MoveDeclarationOutOfIfOp::match`, lines 333-354. -/
def MoveDeclarationOutOfIfOp.match_ (doc : Document) (tc : TextCursor) (matcher : ASTMatcher)
    (self : MoveDeclarationOutOfIfOp) (path : List AST) :
    Option (Int × MoveDeclarationOutOfIfOp) :=
  let condition := mk.Condition
  let pattern := mk.IfStatement condition
  MoveDeclarationOutOfIfOp.loop doc tc matcher path path.length pattern self.core

/-! ## Rule `MoveDeclarationOutOfWhileOp` -/

/-- The fields of a `MoveDeclarationOutOfWhileOp`. -/
structure MoveDeclarationOutOfWhileOp where
  condition : Option AST
  pattern : Option AST
  core : Option AST

/-- The loop of `MoveDeclarationOutOfWhileOp::match`, lines 403-422. -/
def MoveDeclarationOutOfWhileOp.loop (doc : Document) (tc : TextCursor) (matcher : ASTMatcher)
    (path : List AST) : Nat → AST → Option AST → Option (Int × MoveDeclarationOutOfWhileOp)
  | 0, pattern, core =>
    some (-1, { condition := pattern.condition, pattern := some pattern, core := core })
  | k + 1, pattern, core =>
    match path[k]? with
    | none => none
    | some node =>
      match node.asWhileStatement with
      | none => MoveDeclarationOutOfWhileOp.loop doc tc matcher path k pattern core
      | some statement =>
        let (matched, pattern) := matcher statement pattern
        if matched then
          match pattern.condition.bind AST.declarator with
          | none => MoveDeclarationOutOfWhileOp.loop doc tc matcher path k pattern core
          | some declarator =>
            let core := declarator.core_declarator
            match core with
            | none =>
              some (-1, { condition := pattern.condition, pattern := some pattern, core := core })
            | some coreNode =>
              if declarator.equals_token == 0 then
                some (-1, { condition := pattern.condition, pattern := some pattern, core := core })
              else if declarator.initializer.isNone then
                some (-1, { condition := pattern.condition, pattern := some pattern, core := core })
              else if QuickFixOperation.isCursorOnAST doc tc coreNode then
                some ((k : Int),
                  { condition := pattern.condition, pattern := some pattern, core := core })
              else MoveDeclarationOutOfWhileOp.loop doc tc matcher path k pattern core
        else MoveDeclarationOutOfWhileOp.loop doc tc matcher path k pattern core

/-- `MoveDeclarationOutOfWhileOp::match`, lines 397-425. -/
def MoveDeclarationOutOfWhileOp.match_ (doc : Document) (tc : TextCursor)
    (matcher : ASTMatcher) (self : MoveDeclarationOutOfWhileOp) (path : List AST) :
    Option (Int × MoveDeclarationOutOfWhileOp) :=
  let condition := mk.Condition
  let pattern := mk.WhileStatement condition
  MoveDeclarationOutOfWhileOp.loop doc tc matcher path path.length pattern self.core

/-! ## Rule `SplitIfStatementOp` -/

/-- The fields of a `SplitIfStatementOp`. -/
structure SplitIfStatementOp where
  condition : Option AST
  pattern : Option AST

/-- The first loop of `SplitIfStatementOp::match`, lines 493-500, from `index + 1 = k`
downwards; the result is the final `index` and `pattern`. -/
def SplitIfStatementOp.findIfStatement (path : List AST) : Nat → Option (Int × Option AST)
  | 0 => some (-1, none)
  | k + 1 =>
    match path[k]? with
    | none => none
    | some node =>
      match node.asIfStatement with
      | some stmt => some ((k : Int), some stmt)
      | none => SplitIfStatementOp.findIfStatement path k

/-- The second loop of `SplitIfStatementOp::match`, lines 505-518, upwards from `index`;
`rest` is the part of the chain from position `index` on, so its head is
`path.at(index)` and it is empty when `index` has reached `path.size()`. -/
def SplitIfStatementOp.loop (doc : Document) (tc : TextCursor) :
    List AST → Int → SplitIfStatementOp → Option (Int × SplitIfStatementOp)
  | [], _, self => some (-1, self)
  | node :: rest, index, self =>
    let condition := node.asBinaryExpression
    let self : SplitIfStatementOp := { self with condition := condition }
    match condition with
    | none => some (-1, self)
    | some cond =>
      let binaryToken := doc.tokenAt cond.binary_op_token
      if binaryToken.is Kind.T_AMPER_AMPER || binaryToken.is Kind.T_PIPE_PIPE then
        if QuickFixOperation.isCursorOn doc tc cond.binary_op_token then some (index, self)
        else SplitIfStatementOp.loop doc tc rest (index + 1) self
      else some (-1, self)

/-- `SplitIfStatementOp::match`, lines 489-521. -/
def SplitIfStatementOp.match_ (doc : Document) (tc : TextCursor)
    (self : SplitIfStatementOp) (path : List AST) : Option (Int × SplitIfStatementOp) :=
  match SplitIfStatementOp.findIfStatement path path.length with
  | none => none
  | some (_, none) => some (-1, { self with pattern := none })
  | some (index, some stmt) =>
    SplitIfStatementOp.loop doc tc (path.drop (index + 1).toNat) (index + 1)
      { self with pattern := some stmt }

/-! ## Edits -/

/-- One replacement of a change set: `length` characters from offset `pos` of the original
text give way to `replacement`; an insertion has length 0. -/
structure Replace where
  pos : Int
  length : Int
  replacement : String
  deriving DecidableEq, Repr

/-- One move of a change set: `length` characters from offset `pos` go to offset `to_`. -/
structure Move where
  pos : Int
  length : Int
  to_ : Int
  deriving DecidableEq, Repr

/-- A change set (`Utils::ChangeSet`): the replacements and the moves recorded so far, in
the order of recording, all in offsets of the original text. -/
structure ChangeSet where
  m_replaceList : List Replace
  m_moveList : List Move
  deriving DecidableEq, Repr

/-! ## Operation objects -/

/-- The dynamic class of an operation object together with the fields of that class. -/
inductive OperationFields where
  | rewriteLogicalAnd (op : RewriteLogicalAndOp)
  | splitIfStatement (op : SplitIfStatementOp)
  | moveDeclarationOutOfIf (op : MoveDeclarationOutOfIfOp)
  | moveDeclarationOutOfWhile (op : MoveDeclarationOutOfWhileOp)
  | splitSimpleDeclaration (op : SplitSimpleDeclarationOp)
  | addBracesToIf (op : AddBracesToIfOp)

/-- An operation object: the fields of its class and the base-class fields `_document`,
`_textCursor`, `_topLevelNode` and `_changeSet` (the snapshot and the editor pointer, which
no rule reads, are left out).  A new operation has no top-level node and an empty change
set. -/
structure QuickFixOperation where
  fields : OperationFields
  _document : Option Document
  _textCursor : Option TextCursor
  _topLevelNode : Option AST := none
  _changeSet : ChangeSet := { m_replaceList := [], m_moveList := [] }

/-- The virtual `description()` of the six classes. -/
def QuickFixOperation.description (op : QuickFixOperation) : String :=
  match op.fields with
  | .rewriteLogicalAnd _ => "Rewrite condition using ||"
  | .splitIfStatement _ => "Split if statement"
  | .moveDeclarationOutOfIf _ => "Move declaration out of condition"
  | .moveDeclarationOutOfWhile _ => "Move declaration out of condition"
  | .splitSimpleDeclaration _ => "Split declaration"
  | .addBracesToIf _ => "Add curly braces"

/-- The virtual `match(path)` of an operation object: the priority and the object as the
call leaves it.  Without a document or a text cursor there is no result. -/
def QuickFixOperation.match_ (matcher : ASTMatcher) (op : QuickFixOperation)
    (path : List AST) : Option (Int × QuickFixOperation) :=
  match op._document, op._textCursor with
  | some doc, some tc =>
    match op.fields with
    | .rewriteLogicalAnd f =>
      (RewriteLogicalAndOp.match_ doc tc matcher f path).map
        (fun r => (r.1, { op with fields := .rewriteLogicalAnd r.2 }))
    | .splitIfStatement f =>
      (SplitIfStatementOp.match_ doc tc f path).map
        (fun r => (r.1, { op with fields := .splitIfStatement r.2 }))
    | .moveDeclarationOutOfIf f =>
      (MoveDeclarationOutOfIfOp.match_ doc tc matcher f path).map
        (fun r => (r.1, { op with fields := .moveDeclarationOutOfIf r.2 }))
    | .moveDeclarationOutOfWhile f =>
      (MoveDeclarationOutOfWhileOp.match_ doc tc matcher f path).map
        (fun r => (r.1, { op with fields := .moveDeclarationOutOfWhile r.2 }))
    | .splitSimpleDeclaration f =>
      (SplitSimpleDeclarationOp.match_ doc tc f path).map
        (fun r => (r.1, { op with fields := .splitSimpleDeclaration r.2 }))
    | .addBracesToIf f =>
      (AddBracesToIfOp.match_ doc tc f path).map
        (fun r => (r.1, { op with fields := .addBracesToIf r.2 }))
  | _, _ => none

/-! ## Collector `CPPQuickFixCollector` -/

/-- A `QMap<int, QList<T>>`: the entries in ascending order of their keys. -/
abbrev QMap (α : Type) := List (Int × List α)

/-- The statement `map[key].append(x)`: the entry of `key` is created empty when absent. -/
def QMap.append {α : Type} : QMap α → Int → α → QMap α
  | [], key, x => [(key, [x])]
  | (k, v) :: rest, key, x =>
    if key < k then (key, [x]) :: (k, v) :: rest
    else if key = k then (k, v ++ [x]) :: rest
    else (k, v) :: QMap.append rest key x

/-- The value reached by `it.toBack(); it.previous()`: that of the greatest key, if any. -/
def QMap.back {α : Type} (m : QMap α) : Option (List α) :=
  m.getLast?.map Prod.snd

/-- The semantic information of the editor: the parsed document and the revision of the
buffer it was computed for. -/
structure SemanticInfo where
  revision : Nat
  doc : Option Document

/-- The state of the editor a request reads: its semantic information, the revision of
its buffer (`document()->revision()`), its text cursor and `position()`. -/
structure CPPEditor where
  semanticInfo : SemanticInfo
  revision : Nat
  textCursor : TextCursor
  position : Int

/-- The fields of the collector.  `_editor` tells whether the pointer `_editor` has been
set; the editor it points to is passed to every call, in its state at that time. -/
structure CPPQuickFixCollector where
  _editor : Bool
  _quickFixes : List QuickFixOperation

/-- The six operations created by `startCompletion`, lines 815-828, in the order in which
they are appended to `candidates`. -/
def CPPQuickFixCollector.candidates : List QuickFixOperation :=
  [ { fields := .rewriteLogicalAnd ⟨none, none, none⟩, _document := none, _textCursor := none },
    { fields := .splitIfStatement ⟨none, none⟩, _document := none, _textCursor := none },
    { fields := .moveDeclarationOutOfIf ⟨none, none, none⟩, _document := none,
      _textCursor := none },
    { fields := .moveDeclarationOutOfWhile ⟨none, none, none⟩, _document := none,
      _textCursor := none },
    { fields := .splitSimpleDeclaration ⟨none⟩, _document := none, _textCursor := none },
    { fields := .addBracesToIf ⟨none⟩, _document := none, _textCursor := none } ]

/-- Lines 833-836 of `startCompletion`: the setters called on a candidate before its
`match` (the snapshot and the editor pointer are not modelled). -/
def QuickFixOperation.prepare (op : QuickFixOperation) (doc : Document) (editor : CPPEditor) :
    QuickFixOperation :=
  { op with _document := some doc, _textCursor := some editor.textCursor }

/-- The `foreach` loop of `startCompletion`, lines 832-840, over the remaining candidates,
with the map `matchedOps` built so far. -/
def CPPQuickFixCollector.matchCandidates (matcher : ASTMatcher) (doc : Document)
    (editor : CPPEditor) (path : List AST) :
    List QuickFixOperation → QMap QuickFixOperation → Option (QMap QuickFixOperation)
  | [], matchedOps => some matchedOps
  | op :: rest, matchedOps =>
    match (op.prepare doc editor).match_ matcher path with
    | none => none
    | some (priority, op) =>
      CPPQuickFixCollector.matchCandidates matcher doc editor path rest
        (if priority ≠ -1 then matchedOps.append priority op else matchedOps)

/-- `CPPQuickFixCollector::startCompletion`, lines 793-855: the value returned and the
collector afterwards. -/
def CPPQuickFixCollector.startCompletion (matcher : ASTMatcher) (self : CPPQuickFixCollector)
    (editor : CPPEditor) : Option (Int × CPPQuickFixCollector) :=
  let self : CPPQuickFixCollector := { self with _editor := true }
  let info := editor.semanticInfo
  if info.revision ≠ editor.revision then
    some (-1, self)
  else
    match info.doc with
    | some doc =>
      let path := ASTPath.run doc editor.textCursor
      if path.isEmpty then some (-1, self)
      else
        match CPPQuickFixCollector.matchCandidates matcher doc editor path
            CPPQuickFixCollector.candidates [] with
        | none => none
        | some matchedOps =>
          let self : CPPQuickFixCollector :=
            match matchedOps.back with
            | some value => { self with _quickFixes := value }
            | none => self
          if ! self._quickFixes.isEmpty then some (editor.position, self)
          else some (-1, self)
    | none => some (-1, self)

/-- `CPPQuickFixCollector::cleanup`, lines 886-889. -/
def CPPQuickFixCollector.cleanup (self : CPPQuickFixCollector) : CPPQuickFixCollector :=
  { self with _quickFixes := [] }

/-! ## Occurrences of nodes, for stating what the locator returns -/

mutual
/-- Bottom-up fold of a tree: `f` receives a node and the results of its non-null
children, in field order. -/
def AST.foldTree {β : Type} (f : AST → List β → β) : AST → β
  | .BinaryExpression l o r =>
      f (.BinaryExpression l o r) (AST.foldOpt f l ++ AST.foldOpt f r)
  | .UnaryExpression o e => f (.UnaryExpression o e) (AST.foldOpt f e)
  | .IfStatement i l c r s e es =>
      f (.IfStatement i l c r s e es)
        (AST.foldOpt f c ++ (AST.foldOpt f s ++ AST.foldOpt f es))
  | .WhileStatement w l c r s =>
      f (.WhileStatement w l c r s) (AST.foldOpt f c ++ AST.foldOpt f s)
  | .CompoundStatement l ss r => f (.CompoundStatement l ss r) (AST.foldList f ss)
  | .SimpleDeclaration q ds dl s =>
      f (.SimpleDeclaration q ds dl s) (AST.foldList f ds ++ AST.foldList f dl)
  | .Declarator p c pf e i =>
      f (.Declarator p c pf e i)
        (AST.foldList f p ++ (AST.foldOpt f c ++ (AST.foldList f pf ++ AST.foldOpt f i)))
  | .Condition ts d => f (.Condition ts d) (AST.foldList f ts ++ AST.foldOpt f d)
  | .CoreDeclarator t c => f (.CoreDeclarator t c) (AST.foldList f c)
  | .EnumSpecifier t c => f (.EnumSpecifier t c) (AST.foldList f c)
  | .ClassSpecifier t c => f (.ClassSpecifier t c) (AST.foldList f c)
  | .Other k t c => f (.Other k t c) (AST.foldList f c)
/-- Fold of a child pointer. -/
def AST.foldOpt {β : Type} (f : AST → List β → β) : Option AST → List β
  | none => []
  | some a => [AST.foldTree f a]
/-- Fold of a child list. -/
def AST.foldList {β : Type} (f : AST → List β → β) : List AST → List β
  | [] => []
  | a :: as => AST.foldTree f a :: AST.foldList f as
end

/-- Every occurrence of a node in the tree, in pre-order, each given as the chain of nodes
from the root of the tree down to that occurrence (the last element is the node itself,
the elements before it are its ancestors, outermost first). -/
def AST.occurrences (tree : AST) : List (List AST) :=
  AST.foldTree (fun n sub => [n] :: sub.flatten.map (fun c => n :: c)) tree

/-- Occurrences in an optional tree (the root pointer of a document may be null). -/
def occurrencesOpt : Option AST → List (List AST)
  | none => []
  | some t => t.occurrences

/-- All nodes of a tree, in pre-order. -/
def AST.nodes (tree : AST) : List AST :=
  AST.foldTree (fun n sub => n :: sub.flatten) tree

/-- The inclusion test of the locator in the words of the specification: the node has a
first token other than token 0, its last token lies after the first, the position is
lexicographically at or after the start of the first token and strictly before the end of
the token `lastToken - 1`. -/
def spanContains (doc : Document) (line column : Nat) (n : AST) : Prop :=
  0 < doc.firstToken n ∧ doc.firstToken n < doc.lastToken n ∧
  ((doc.getTokenStartPosition (doc.firstToken n)).1 < line ∨
    ((doc.getTokenStartPosition (doc.firstToken n)).1 = line ∧
      (doc.getTokenStartPosition (doc.firstToken n)).2 ≤ column)) ∧
  (line < (doc.getTokenEndPosition (doc.lastToken n - 1)).1 ∨
    (line = (doc.getTokenEndPosition (doc.lastToken n - 1)).1 ∧
      column < (doc.getTokenEndPosition (doc.lastToken n - 1)).2))

instance (doc : Document) (line column : Nat) (n : AST) :
    Decidable (spanContains doc line column n) := by
  unfold spanContains; infer_instance

/-- Node `a` structurally contains node `b`: `b` occurs strictly below `a`. -/
def AST.isAncestorOf (a b : AST) : Prop :=
  b ∈ (a.children.map AST.nodes).flatten

/-- All nodes of an optional tree. -/
def nodesOpt : Option AST → List AST
  | none => []
  | some t => t.nodes

/-! ## Example documents

A concrete parser library for evaluating the definitions: the span of a node is the range
of the token indices that occur in it, and the whole text is on line 1. -/

/-- The token fields of a node itself. -/
def AST.ownTokens : AST → List Nat
  | .BinaryExpression _ o _ => [o]
  | .UnaryExpression o _ => [o]
  | .IfStatement i l _ r _ e _ => [i, l, r, e]
  | .WhileStatement w l _ r _ => [w, l, r]
  | .CompoundStatement l _ r => [l, r]
  | .SimpleDeclaration q _ _ s => [q, s]
  | .Declarator _ _ _ e _ => [e]
  | .Condition _ _ => []
  | .CoreDeclarator t _ => t
  | .EnumSpecifier t _ => t
  | .ClassSpecifier t _ => t
  | .Other _ t _ => t

/-- The non-zero token indices that occur in a node or below it. -/
def AST.allTokens (n : AST) : List Nat :=
  AST.foldTree (fun m sub => m.ownTokens.filter (fun t => decide (0 < t)) ++ sub.flatten) n

/-- Smallest index of a list of token indices, 0 for the empty list. -/
def minToken : List Nat → Nat
  | [] => 0
  | t :: ts => ts.foldl min t

/-- One past the largest index of a list of token indices, 0 for the empty list. -/
def endToken : List Nat → Nat
  | [] => 0
  | t :: ts => ts.foldl max t + 1

/-- The example document with the given revision, tree and token table (token 0 is the
unused first entry of the table); offsets translate to line 1 and column `offset + 1`. -/
def exampleDocument (revision : Nat) (ast : Option AST) (tokens : List Token) : Document where
  revision := revision
  ast := ast
  tokenAt := fun i => tokens.getD i ⟨Kind.T_OTHER 0, 0, 0⟩
  getPosition := fun offset => (1, offset + 1)
  firstToken := fun n => minToken n.allTokens
  lastToken := fun n => endToken n.allTokens
  listFirstToken := fun l => minToken (l.map AST.allTokens).flatten
  listLastToken := fun l => endToken (l.map AST.allTokens).flatten

/-- A cursor without selection at the given 0-based column of the first line of a
one-line buffer. -/
def exampleCursor (column : Nat) : TextCursor where
  blockNumber := 0
  columnNumber := column
  selectionStart := column
  selectionEnd := column
  findBlockPosition := fun _ => 0

/-- Tokens of the text `a * b;` (an identifier is kind 1, `*` kind 2, `;` kind 3). -/
def tokensMul : List Token :=
  [⟨Kind.T_OTHER 0, 0, 0⟩, ⟨Kind.T_OTHER 1, 0, 1⟩, ⟨Kind.T_OTHER 2, 2, 1⟩,
   ⟨Kind.T_OTHER 1, 4, 1⟩, ⟨Kind.T_OTHER 3, 5, 1⟩]

/-- The declaration reading of `a * b;`: type `a`, declarator `* b`. -/
def mulDeclaration : AST :=
  .SimpleDeclaration 0 [.Other 1 [1] []]
    [.Declarator [.Other 2 [2] []] (some (.CoreDeclarator [3] [])) [] 0 none] 4

/-- The expression reading of `a * b;`: an expression statement around `a * b`. -/
def mulExpression : AST :=
  .Other 3 [4] [.BinaryExpression (some (.Other 4 [1] [])) 2 (some (.Other 4 [3] []))]

/-- The statement `a * b;` kept with both of its readings, which cover the same tokens. -/
def mulStatement : AST := .Other 5 [] [mulDeclaration, mulExpression]

/-- The document of the text `a * b;`. -/
def mulDocument : Document := exampleDocument 1 (some mulStatement) tokensMul

/-- A one-token tree: the single name `a` of the text `a`. -/
def nameDocument : Document :=
  exampleDocument 1 (some (.Other 4 [1] [])) [⟨Kind.T_OTHER 0, 0, 0⟩, ⟨Kind.T_OTHER 1, 0, 1⟩]

mutual
/-- Binding of a pattern to a node: the pattern with its wildcards bound and its tokens
taken from the node, or `none` when the classes differ or a child fails to match. -/
def bindPattern : AST → AST → Option AST
  | .BinaryExpression l o r, .BinaryExpression pl _ pr =>
    match bindChild l pl, bindChild r pr with
    | some l1, some r1 => some (.BinaryExpression l1 o r1)
    | _, _ => none
  | .UnaryExpression o e, .UnaryExpression _ pe =>
    match bindChild e pe with
    | some e1 => some (.UnaryExpression o e1)
    | none => none
  | .IfStatement i l c r s e es, .IfStatement _ _ pc _ ps _ pes =>
    match bindChild c pc, bindChild s ps, bindChild es pes with
    | some c1, some s1, some es1 => some (.IfStatement i l c1 r s1 e es1)
    | _, _, _ => none
  | .WhileStatement w l c r s, .WhileStatement _ _ pc _ ps =>
    match bindChild c pc, bindChild s ps with
    | some c1, some s1 => some (.WhileStatement w l c1 r s1)
    | _, _ => none
  | .CompoundStatement l ss r, .CompoundStatement _ pss _ =>
    match bindList ss pss with
    | some ss1 => some (.CompoundStatement l ss1 r)
    | none => none
  | .SimpleDeclaration q ds dl sc, .SimpleDeclaration _ pds pdl _ =>
    match bindList ds pds, bindList dl pdl with
    | some ds1, some dl1 => some (.SimpleDeclaration q ds1 dl1 sc)
    | _, _ => none
  | .Declarator p c pf e i, .Declarator pp pc ppf _ pi =>
    match bindList p pp, bindChild c pc, bindList pf ppf, bindChild i pi with
    | some p1, some c1, some pf1, some i1 => some (.Declarator p1 c1 pf1 e i1)
    | _, _, _, _ => none
  | .Condition ts d, .Condition pts pd =>
    match bindList ts pts, bindChild d pd with
    | some ts1, some d1 => some (.Condition ts1 d1)
    | _, _ => none
  | .CoreDeclarator t c, .CoreDeclarator _ pc =>
    match bindList c pc with
    | some c1 => some (.CoreDeclarator t c1)
    | none => none
  | .EnumSpecifier t c, .EnumSpecifier _ pc =>
    match bindList c pc with
    | some c1 => some (.EnumSpecifier t c1)
    | none => none
  | .ClassSpecifier t c, .ClassSpecifier _ pc =>
    match bindList c pc with
    | some c1 => some (.ClassSpecifier t c1)
    | none => none
  | .Other k t c, .Other pk _ pc =>
    if k = pk then
      match bindList c pc with
      | some c1 => some (.Other k t c1)
      | none => none
    else none
  | _, _ => none
termination_by structural node => node
/-- Binding of a child slot: a null slot of the pattern is a wildcard and takes the child
of the node, whatever it is. -/
def bindChild : Option AST → Option AST → Option (Option AST)
  | a, none => some a
  | none, some _ => none
  | some a, some p =>
    match bindPattern a p with
    | some p1 => some (some p1)
    | none => none
termination_by structural child => child
/-- Binding of a child list: a null list of the pattern is a wildcard; otherwise the lists
are matched element by element and must have the same length. -/
def bindList : List AST → List AST → Option (List AST)
  | l, [] => some l
  | [], _ :: _ => none
  | a :: as, p :: ps =>
    match bindPattern a p, bindElements as ps with
    | some p1, some ps1 => some (p1 :: ps1)
    | _, _ => none
termination_by structural l => l
/-- Element by element matching of the rest of two lists. -/
def bindElements : List AST → List AST → Option (List AST)
  | [], [] => some []
  | a :: as, p :: ps =>
    match bindPattern a p, bindElements as ps with
    | some p1, some ps1 => some (p1 :: ps1)
    | _, _ => none
  | _, _ => none
termination_by structural l => l
end

/-- Modelled from the spec: the structural matcher of spec 4.2.  Two nodes match iff they
are of the same class and every child slot matches recursively; a wildcard matches any
node and records it; on failure the pattern keeps no binding. -/
def structuralMatcher : ASTMatcher := fun node pattern =>
  match bindPattern node pattern with
  | some bound => (true, bound)
  | none => (false, pattern)

/-- Tokens of the text `if (!a && !b) { x(); }` (kinds: 1 identifier, 3 `;`, 4 `if`,
5 `(`, 6 `)`, 7 `{`, 8 `}`). -/
def tokensIfAnd : List Token :=
  [⟨Kind.T_OTHER 0, 0, 0⟩, ⟨Kind.T_OTHER 4, 0, 2⟩, ⟨Kind.T_OTHER 5, 3, 1⟩,
   ⟨Kind.T_EXCLAIM, 4, 1⟩, ⟨Kind.T_OTHER 1, 5, 1⟩, ⟨Kind.T_AMPER_AMPER, 7, 2⟩,
   ⟨Kind.T_EXCLAIM, 10, 1⟩, ⟨Kind.T_OTHER 1, 11, 1⟩, ⟨Kind.T_OTHER 6, 12, 1⟩,
   ⟨Kind.T_OTHER 7, 14, 1⟩, ⟨Kind.T_OTHER 1, 16, 1⟩, ⟨Kind.T_OTHER 5, 17, 1⟩,
   ⟨Kind.T_OTHER 6, 18, 1⟩, ⟨Kind.T_OTHER 3, 19, 1⟩, ⟨Kind.T_OTHER 8, 21, 1⟩]

/-- The condition `!a && !b`. -/
def ifAndCondition : AST :=
  .BinaryExpression (some (.UnaryExpression 3 (some (.Other 4 [4] [])))) 5
    (some (.UnaryExpression 6 (some (.Other 4 [7] []))))

/-- The tree of `if (!a && !b) { x(); }`. -/
def ifAndStatement : AST :=
  .IfStatement 1 2 (some ifAndCondition) 8
    (some (.CompoundStatement 9 [.Other 3 [13] [.Other 6 [11, 12] [.Other 4 [10] []]]] 14))
    0 none

/-- The document of `if (!a && !b) { x(); }`, revision 1. -/
def ifAndDocument : Document := exampleDocument 1 (some ifAndStatement) tokensIfAnd

/-- An editor showing `if (!a && !b) { x(); }` with the cursor before `&&`, its semantic
information up to date. -/
def ifAndEditor : CPPEditor where
  semanticInfo := { revision := 1, doc := some ifAndDocument }
  revision := 1
  textCursor := { exampleCursor 7 with documentText := "if (!a && !b) \x7b x(); \x7d" }
  position := 7

/-- The tree of the incomplete text `if (x)`: an if-statement without a body. -/
def noBodyStatement : AST := .IfStatement 1 2 (some (.Other 4 [3] [])) 4 none 0 none

/-- The document of the incomplete text `if (x)`. -/
def noBodyDocument : Document :=
  exampleDocument 1 (some noBodyStatement)
    [⟨Kind.T_OTHER 0, 0, 0⟩, ⟨Kind.T_OTHER 4, 0, 2⟩, ⟨Kind.T_OTHER 5, 3, 1⟩,
     ⟨Kind.T_OTHER 1, 4, 1⟩, ⟨Kind.T_OTHER 6, 5, 1⟩]

/-- The document of the one-name text `a`, parsed at revision 2. -/
def nameDocument2 : Document :=
  exampleDocument 2 (some (.Other 4 [1] [])) [⟨Kind.T_OTHER 0, 0, 0⟩, ⟨Kind.T_OTHER 1, 0, 1⟩]

/-- An editor showing the one-name text `a` at revision 2 with the cursor on the name,
its semantic information up to date. -/
def nameEditor : CPPEditor where
  semanticInfo := { revision := 2, doc := some nameDocument2 }
  revision := 2
  textCursor := exampleCursor 0
  position := 0

/-- The editor of `if (!a && !b) { x(); }` after an edit of the buffer that the semantic
information has not caught up with. -/
def staleEditor : CPPEditor := { ifAndEditor with revision := 2 }

/-- A collector on which no request has run. -/
def freshCollector : CPPQuickFixCollector := { _editor := false, _quickFixes := [] }

/-- The collector after a request on `if (!a && !b) { x(); }` with the cursor before `&&`,
not cleaned up: it retains the fixes offered by that request. -/
def retainingCollector : CPPQuickFixCollector :=
  ((freshCollector.startCompletion structuralMatcher ifAndEditor).map Prod.snd).getD
    freshCollector

/-- The operation rewrite-logical-and as `startCompletion` prepares it on
`if (!a && !b) { x(); }`. -/
def ifAndRewriteOp : QuickFixOperation :=
  QuickFixOperation.prepare
    { fields := .rewriteLogicalAnd ⟨none, none, none⟩, _document := none, _textCursor := none }
    ifAndDocument ifAndEditor

/-- What the first `match` of `ifAndRewriteOp` returns with the cursor before `&&`. -/
def ifAndRewriteResult : Int × QuickFixOperation :=
  (ifAndRewriteOp.match_ structuralMatcher
    (ASTPath.run ifAndDocument ifAndEditor.textCursor)).getD (-1, ifAndRewriteOp)

/-- What each registered operation returns on `if (!a && !b) { x(); }` with the cursor
before `&&`, in registration order. -/
def ifAndResults : List (Int × QuickFixOperation) :=
  CPPQuickFixCollector.candidates.filterMap (fun op =>
    (op.prepare ifAndDocument ifAndEditor).match_ structuralMatcher
      (ASTPath.run ifAndDocument ifAndEditor.textCursor))

/-- The nodes selected from a list of occurrences: those occurrences all of whose
elements (the node and its ancestors) satisfy `p`, each reduced to its node. -/
def selectOccurrences (p : AST → Bool) (occ : List (List AST)) : List AST :=
  (occ.filter (fun c => c.all p)).filterMap List.getLast?

/-- The map `matchedOps` after `map[r.1].append(r.2)` for every element of a list, front to
back. -/
def QMap.build {α : Type} (m : QMap α) (ps : List (Int × α)) : QMap α :=
  ps.foldl (fun acc r => acc.append r.1 r.2) m

/-- No registered operation matches the chain: each `match` returns the sentinel -1. -/
def noOperationMatches (matcher : ASTMatcher) (doc : Document) (editor : CPPEditor)
    (path : List AST) : Prop :=
  ∀ op ∈ CPPQuickFixCollector.candidates,
    ((op.prepare doc editor).match_ matcher path).map Prod.fst = some (-1)

/-- The anchor class of each rule: whether the node is of the class the rule keys on. -/
def OperationFields.isAnchor : OperationFields → AST → Bool
  | .rewriteLogicalAnd _, n => n.asBinaryExpression.isSome
  | .splitIfStatement _, n => n.asBinaryExpression.isSome
  | .moveDeclarationOutOfIf _, n => n.asIfStatement.isSome
  | .moveDeclarationOutOfWhile _, n => n.asWhileStatement.isSome
  | .splitSimpleDeclaration _, n => n.asSimpleDeclaration.isSome
  | .addBracesToIf _, n => n.asIfStatement.isSome

/-- A tag for the dynamic class of an operation object. -/
def OperationFields.cls : OperationFields → Nat
  | .rewriteLogicalAnd _ => 0
  | .splitIfStatement _ => 1
  | .moveDeclarationOutOfIf _ => 2
  | .moveDeclarationOutOfWhile _ => 3
  | .splitSimpleDeclaration _ => 4
  | .addBracesToIf _ => 5

/-- A priority as the specification describes it: the sentinel -1, or the index of a node
of the chain that is of the anchor class of the rule. -/
def validPriority (fields : OperationFields) (path : List AST) (r : Int) : Prop :=
  r = -1 ∨ (0 ≤ r ∧ r < path.length ∧ ∃ n, path[r.toNat]? = some n ∧ fields.isAnchor n = true)

/-! ## Change sets and the editing functions of `QuickFixOperation` -/

/-- Field `lparen_token` of an if-statement or a while-statement. -/
def AST.lparen_token : AST → Nat
  | .IfStatement _ l _ _ _ _ _ => l
  | .WhileStatement _ l _ _ _ => l
  | _ => 0

/-- Modelled from the spec: `ChangeSet::replace(pos, length, replacement)` records one
replace edit (spec 3 and 4.4: a change set is an ordered collection of edits). -/
def ChangeSet.replace (cs : ChangeSet) (pos length : Int) (replacement : String) : ChangeSet :=
  { cs with m_replaceList := cs.m_replaceList ++ [⟨pos, length, replacement⟩] }

/-- Modelled from the spec: `ChangeSet::move(pos, length, to)` records one move edit. -/
def ChangeSet.move (cs : ChangeSet) (pos length to_ : Int) : ChangeSet :=
  { cs with m_moveList := cs.m_moveList ++ [⟨pos, length, to_⟩] }

/-- Insertion of an edit into a list sorted by start offset, after the edits that start
at the same offset. -/
def ChangeSet.insertSorted (e : Replace) : List Replace → List Replace
  | [] => [e]
  | x :: xs => if e.pos < x.pos then e :: x :: xs else x :: ChangeSet.insertSorted e xs

/-- The edits sorted by start offset; edits with the same start keep the order in which
they were recorded. -/
def ChangeSet.sortEdits (l : List Replace) : List Replace :=
  l.foldl (fun acc e => ChangeSet.insertSorted e acc) []

/-- One pass over the sorted edits from offset `cursor` of the original text: the span up
to the next edit is copied, the edit substituted.  An edit that starts before `cursor`
overlaps its predecessor; there is then no result, nor for a range outside the text. -/
def ChangeSet.materialize (text : List Char) : Nat → List Replace → Option (List Char)
  | cursor, [] => some (text.drop cursor)
  | cursor, e :: es =>
    if e.pos < cursor ∨ e.length < 0 ∨ (text.length : Int) < e.pos + e.length then none
    else
      match ChangeSet.materialize text (e.pos + e.length).toNat es with
      | none => none
      | some rest =>
        some ((text.drop cursor).take (e.pos.toNat - cursor) ++ e.replacement.data ++ rest)

/-- Modelled from the spec: the simultaneous application of a change set to a text (spec
4.4 and 9: all edits are addressed in the original text and none shifts another; sort the
edits by start offset, verify that they do not overlap, build the new text in one pass).
A move deletes its source range and inserts the original text of that range at its
destination. -/
def ChangeSet.apply (cs : ChangeSet) (text : String) : Option String :=
  let moves := cs.m_moveList.flatMap (fun m =>
    [(⟨m.pos, m.length, ""⟩ : Replace),
     ⟨m.to_, 0, String.mk ((text.data.drop m.pos.toNat).take m.length.toNat)⟩])
  (ChangeSet.materialize text.data 0 (ChangeSet.sortEdits (cs.m_replaceList ++ moves))).map
    String.mk

/-- Library function `QTextCursor::insertText` on the inserted text: a paragraph
separator U+2029 starts a new block as a line feed does, and the text of the buffer shows
either as a line break (character 10). -/
def QTextCursor.insertedText (text : String) : String :=
  String.mk (text.data.map fun c => if c = Char.ofNat 8233 then Char.ofNat 10 else c)

/-- Modelled from the spec: `ChangeSet::write(QTextCursor *)`, the application of the
change set to the text of the buffer: the simultaneous application of spec 4.4, every
replacement text being inserted with `QTextCursor::insertText`. -/
def ChangeSet.write (cs : ChangeSet) (text : String) : Option String :=
  ChangeSet.apply
    { cs with
      m_replaceList := cs.m_replaceList.map fun e =>
        { e with replacement := QTextCursor.insertedText e.replacement } }
    text

/-- The fields `_topLevelNode` and `_changeSet` of the base class `QuickFixOperation`. -/
structure EditState where
  _topLevelNode : Option AST
  _changeSet : ChangeSet

/-- The base-class fields of a newly created operation: no top-level node, an empty change
set. -/
def EditState.initial : EditState :=
  { _topLevelNode := none, _changeSet := { m_replaceList := [], m_moveList := [] } }

/-- `QuickFixOperation::setTopLevelNode`, lines 606-607. -/
def QuickFixOperation.setTopLevelNode (self : EditState) (topLevelNode : Option AST) :
    EditState :=
  { self with _topLevelNode := topLevelNode }

/-- `QuickFixOperation::move(int, int, int)`, lines 713-717; the length `end-start` is an
`int`. -/
def QuickFixOperation.move (self : EditState) (start end_ to_ : Int) : EditState :=
  if end_ > start then
    { self with _changeSet := self._changeSet.move start (toInt32 (end_ - start)) to_ }
  else self

/-- `QuickFixOperation::replace(int, int, const QString &)`, lines 729-733; the length
`end-start` is an `int`. -/
def QuickFixOperation.replace (self : EditState) (start end_ : Int) (replacement : String) :
    EditState :=
  if end_ >= start then
    { self with
      _changeSet := self._changeSet.replace start (toInt32 (end_ - start)) replacement }
  else self

/-- `QuickFixOperation::replace(unsigned, const QString &)`, lines 735-738. -/
def QuickFixOperation.replaceToken (doc : Document) (tc : TextCursor) (self : EditState)
    (tokenIndex : Nat) (replacement : String) : EditState :=
  QuickFixOperation.replace self (QuickFixOperation.startOf doc tc tokenIndex)
    (QuickFixOperation.endOf doc tc tokenIndex) replacement

/-- `QuickFixOperation::replace(const AST *, const QString &)`, lines 740-743. -/
def QuickFixOperation.replaceAST (doc : Document) (tc : TextCursor) (self : EditState)
    (ast : AST) (replacement : String) : EditState :=
  QuickFixOperation.replace self (QuickFixOperation.startOfAST doc tc ast)
    (QuickFixOperation.endOfAST doc tc ast) replacement

/-- `QuickFixOperation::insert`, lines 745-748. -/
def QuickFixOperation.insert (self : EditState) (at_ : Int) (text : String) : EditState :=
  QuickFixOperation.replace self at_ at_ text

/-- Library function `QTextCursor::selectedText()` on the characters of the selection: a
line break of the buffer (character 10) is returned as the paragraph separator U+2029
(character 8233). -/
def QTextCursor.selectedText (selection : List Char) : String :=
  String.mk (selection.map fun c => if c = Char.ofNat 10 then Char.ofNat 8233 else c)

/-- `QuickFixOperation::textOf(int, int)`, lines 750-756: the `selectedText()` of the live
buffer between the two offsets. -/
def QuickFixOperation.textOf (tc : TextCursor) (firstOffset lastOffset : Int) : String :=
  let first := (min firstOffset lastOffset).toNat
  let last := (max firstOffset lastOffset).toNat
  QTextCursor.selectedText ((tc.documentText.data.drop first).take (last - first))

/-- `QuickFixOperation::textOf(AST *)`, lines 758-761. -/
def QuickFixOperation.textOfAST (doc : Document) (tc : TextCursor) (ast : AST) : String :=
  QuickFixOperation.textOf tc (QuickFixOperation.startOfAST doc tc ast)
    (QuickFixOperation.endOfAST doc tc ast)

/-- `RewriteLogicalAndOp::createChangeSet`, lines 141-148.  The fields are dereferenced,
so there is no result when one of them is null. -/
def RewriteLogicalAndOp.createChangeSet (doc : Document) (tc : TextCursor)
    (self : RewriteLogicalAndOp) (base : EditState) : Option EditState :=
  match self.pattern, self.left, self.right with
  | some pattern, some left, some right =>
    let base := QuickFixOperation.setTopLevelNode base (some pattern)
    let base := QuickFixOperation.replaceToken doc tc base pattern.binary_op_token "||"
    let base := QuickFixOperation.replaceToken doc tc base left.unary_op_token "!("
    let base := QuickFixOperation.replaceToken doc tc base right.unary_op_token ""
    some (QuickFixOperation.insert base (QuickFixOperation.endOfAST doc tc pattern) ")")
  | _, _, _ => none

/-- The loop of `SplitSimpleDeclarationOp::createChangeSet`, lines 241-249, over the
declarators after the first: the text appended to `text`. -/
def SplitSimpleDeclarationOp.declarationsText (doc : Document) (tc : TextCursor)
    (declSpecifiers : String) : List AST → String
  | [] => ""
  | declarator :: rest =>
    "\n" ++ declSpecifiers ++ " " ++ QuickFixOperation.textOfAST doc tc declarator ++ ";"
      ++ SplitSimpleDeclarationOp.declarationsText doc tc declSpecifiers rest

/-- `SplitSimpleDeclarationOp::createChangeSet`, lines 231-252.  There is no result when
the declaration, its specifier list or its declarator list is null. -/
def SplitSimpleDeclarationOp.createChangeSet (doc : Document) (tc : TextCursor)
    (self : SplitSimpleDeclarationOp) (base : EditState) : Option EditState :=
  match self.declaration with
  | none => none
  | some declaration =>
    let base := QuickFixOperation.setTopLevelNode base (some declaration)
    let specifiers := declaration.decl_specifier_list
    if specifiers.isEmpty then none
    else
      let declSpecifiers := QuickFixOperation.textOf tc
        (QuickFixOperation.startOf doc tc (doc.listFirstToken specifiers))
        (QuickFixOperation.endOf doc tc (pred32 (doc.listLastToken specifiers)))
      match declaration.declarator_list with
      | [] => none
      | declarator :: rest =>
        let base := QuickFixOperation.replace base (QuickFixOperation.endOfAST doc tc declarator)
          (QuickFixOperation.startOf doc tc declaration.semicolon_token) ""
        let text := SplitSimpleDeclarationOp.declarationsText doc tc declSpecifiers rest
        some (QuickFixOperation.insert base
          (QuickFixOperation.endOf doc tc declaration.semicolon_token) text)

/-- `AddBracesToIfOp::createChangeSet`, lines 302-307.  There is no result when
`_statement` is null. -/
def AddBracesToIfOp.createChangeSet (doc : Document) (tc : TextCursor)
    (self : AddBracesToIfOp) (base : EditState) : Option EditState :=
  match self._statement with
  | none => none
  | some _statement =>
    let base := QuickFixOperation.setTopLevelNode base (some _statement)
    let base := QuickFixOperation.insert base
      (QuickFixOperation.endOf doc tc (pred32 (doc.firstToken _statement))) " \x7b"
    some (QuickFixOperation.insert base
      (QuickFixOperation.endOf doc tc (pred32 (doc.lastToken _statement))) "\n\x7d")

/-- `MoveDeclarationOutOfIfOp::createChangeSet`, lines 356-366.  There is no result when
`core`, `condition` or `pattern` is null. -/
def MoveDeclarationOutOfIfOp.createChangeSet (doc : Document) (tc : TextCursor)
    (self : MoveDeclarationOutOfIfOp) (base : EditState) : Option EditState :=
  let base := QuickFixOperation.setTopLevelNode base self.pattern
  match self.core, self.condition, self.pattern with
  | some core, some condition, some pattern =>
    let name := QuickFixOperation.textOfAST doc tc core
    let declaration := QuickFixOperation.textOfAST doc tc condition ++ ";\n"
    let base := QuickFixOperation.insert base (QuickFixOperation.startOfAST doc tc pattern)
      declaration
    let base := QuickFixOperation.insert base
      (QuickFixOperation.endOf doc tc pattern.lparen_token) name
    some (QuickFixOperation.replaceAST doc tc base condition name)
  | _, _, _ => none

/-! ## Words of the specification about the rules -/

/-- Rule rewrite-logical-and in the words of the specification: the cursor is on the
operator token of the binary expression, that token is `&&`, and both operands are unary
expressions whose operator token is `!`. -/
def RewriteLogicalAndOp.applies (doc : Document) (tc : TextCursor) (e : AST) : Prop :=
  QuickFixOperation.isCursorOn doc tc e.binary_op_token = true ∧
  (doc.tokenAt e.binary_op_token).kind = Kind.T_AMPER_AMPER ∧
  ∃ lo le ro re, e.left_expression = some (.UnaryExpression lo le) ∧
    e.right_expression = some (.UnaryExpression ro re) ∧
    (doc.tokenAt lo).kind = Kind.T_EXCLAIM ∧ (doc.tokenAt ro).kind = Kind.T_EXCLAIM

/-- The cursor is on a specifier of the declaration: the start of the selection lies
between the start of the first specifier token and the end of the last one. -/
def cursorOnSpecifiers (doc : Document) (tc : TextCursor) (declaration : AST) : Prop :=
  QuickFixOperation.startOf doc tc (doc.listFirstToken declaration.decl_specifier_list)
      ≤ tc.selectionStart ∧
    tc.selectionStart ≤ QuickFixOperation.endOf doc tc
      (pred32 (doc.listLastToken declaration.decl_specifier_list))

/-! ## More example documents -/

/-- A cursor without selection at the given offset of the first line of a one-line buffer
with the given text. -/
def exampleCursorIn (text : String) (column : Nat) : TextCursor :=
  { exampleCursor column with documentText := text }

/-- The text `if (!a && !b) { x(); }`. -/
def ifAndText : String := "if (!a && !b) \x7b x(); \x7d"

/-- The text `int a, b;`. -/
def declText : String := "int a, b;"

/-- The tree of `int a, b;`: one specifier, two declarators. -/
def declStatement : AST :=
  .SimpleDeclaration 0 [.Other 1 [1] []]
    [.Declarator [] (some (.CoreDeclarator [2] [])) [] 0 none,
     .Declarator [] (some (.CoreDeclarator [4] [])) [] 0 none] 5

/-- The document of `int a, b;` (kinds: 1 identifier, 3 `;`, 9 `int`, 10 `,`). -/
def declDocument : Document :=
  exampleDocument 1 (some declStatement)
    [⟨Kind.T_OTHER 0, 0, 0⟩, ⟨Kind.T_OTHER 9, 0, 3⟩, ⟨Kind.T_OTHER 1, 4, 1⟩,
     ⟨Kind.T_OTHER 10, 5, 1⟩, ⟨Kind.T_OTHER 1, 7, 1⟩, ⟨Kind.T_OTHER 3, 8, 1⟩]

/-- The two-line text of `if (x)` followed by the indented body `foo();`. -/
def ifFooText : String := "if (x)\n  foo();"

/-- The body `foo();` of the two-line example. -/
def ifFooBody : AST := .Other 3 [8] [.Other 6 [6, 7] [.Other 4 [5] []]]

/-- The tree of the two-line example: an if-statement whose body is not a block. -/
def ifFooStatement : AST :=
  .IfStatement 1 2 (some (.Other 4 [3] [])) 4 (some ifFooBody) 0 none

/-- The document of the two-line example: the second line starts at offset 7. -/
def ifFooDocument : Document :=
  { exampleDocument 1 (some ifFooStatement)
      [⟨Kind.T_OTHER 0, 0, 0⟩, ⟨Kind.T_OTHER 4, 0, 2⟩, ⟨Kind.T_OTHER 5, 3, 1⟩,
       ⟨Kind.T_OTHER 1, 4, 1⟩, ⟨Kind.T_OTHER 6, 5, 1⟩, ⟨Kind.T_OTHER 1, 9, 3⟩,
       ⟨Kind.T_OTHER 5, 12, 1⟩, ⟨Kind.T_OTHER 6, 13, 1⟩, ⟨Kind.T_OTHER 3, 14, 1⟩] with
    getPosition := fun offset => if offset < 7 then (1, offset + 1) else (2, offset - 7 + 1) }

/-- A cursor without selection in the two-line example, at the given block and column. -/
def ifFooCursor (block column : Nat) : TextCursor where
  blockNumber := block
  columnNumber := column
  selectionStart := (if block = 0 then 0 else 7) + column
  selectionEnd := (if block = 0 then 0 else 7) + column
  findBlockPosition := fun b => if b = 0 then 0 else 7
  documentText := ifFooText

/-- The text `if (Type name = foo()) { use(name); }`. -/
def moveIfText : String := "if (Type name = foo()) \x7b use(name); \x7d"

/-- The condition `Type name = foo()`. -/
def moveIfCondition : AST :=
  .Condition [.Other 1 [3] []]
    (some (.Declarator [] (some (.CoreDeclarator [4] [])) [] 5
      (some (.Other 6 [7, 8] [.Other 4 [6] []]))))

/-- The tree of `if (Type name = foo()) { use(name); }`. -/
def moveIfStatement : AST :=
  .IfStatement 1 2 (some moveIfCondition) 9
    (some (.CompoundStatement 10
      [.Other 3 [15] [.Other 6 [12, 14] [.Other 4 [11] [], .Other 4 [13] []]]] 16))
    0 none

/-- The document of `if (Type name = foo()) { use(name); }` (kind 11 is `=`). -/
def moveIfDocument : Document :=
  exampleDocument 1 (some moveIfStatement)
    [⟨Kind.T_OTHER 0, 0, 0⟩, ⟨Kind.T_OTHER 4, 0, 2⟩, ⟨Kind.T_OTHER 5, 3, 1⟩,
     ⟨Kind.T_OTHER 1, 4, 4⟩, ⟨Kind.T_OTHER 1, 9, 4⟩, ⟨Kind.T_OTHER 11, 14, 1⟩,
     ⟨Kind.T_OTHER 1, 16, 3⟩, ⟨Kind.T_OTHER 5, 19, 1⟩, ⟨Kind.T_OTHER 6, 20, 1⟩,
     ⟨Kind.T_OTHER 6, 21, 1⟩, ⟨Kind.T_OTHER 7, 23, 1⟩, ⟨Kind.T_OTHER 1, 25, 3⟩,
     ⟨Kind.T_OTHER 5, 28, 1⟩, ⟨Kind.T_OTHER 1, 29, 4⟩, ⟨Kind.T_OTHER 6, 33, 1⟩,
     ⟨Kind.T_OTHER 3, 34, 1⟩, ⟨Kind.T_OTHER 8, 36, 1⟩]

/-- The tree of `if (Type name) { }`: a condition that declares a name without an
initializer. -/
def noInitStatement : AST :=
  .IfStatement 1 2
    (some (.Condition [.Other 1 [3] []]
      (some (.Declarator [] (some (.CoreDeclarator [4] [])) [] 0 none))))
    5 (some (.CompoundStatement 6 [] 7)) 0 none

/-- The document of `if (Type name) { }`. -/
def noInitDocument : Document :=
  exampleDocument 1 (some noInitStatement)
    [⟨Kind.T_OTHER 0, 0, 0⟩, ⟨Kind.T_OTHER 4, 0, 2⟩, ⟨Kind.T_OTHER 5, 3, 1⟩,
     ⟨Kind.T_OTHER 1, 4, 4⟩, ⟨Kind.T_OTHER 1, 9, 4⟩, ⟨Kind.T_OTHER 6, 13, 1⟩,
     ⟨Kind.T_OTHER 7, 15, 1⟩, ⟨Kind.T_OTHER 8, 17, 1⟩]

/-- The same tree with a while-statement in place of the if-statement. -/
def noInitWhileStatement : AST :=
  .WhileStatement 1 2
    (some (.Condition [.Other 1 [3] []]
      (some (.Declarator [] (some (.CoreDeclarator [4] [])) [] 0 none))))
    5 (some (.CompoundStatement 6 [] 7))

/-- The document of `while (Type name) { }` (same token offsets apart from the keyword,
which is not looked at). -/
def noInitWhileDocument : Document := { noInitDocument with ast := some noInitWhileStatement }

/-- The result of `RewriteLogicalAndOp::match` on `if (!a && !b) { x(); }` with the cursor
before `&&`. -/
def ifAndMatched : Int × RewriteLogicalAndOp :=
  (RewriteLogicalAndOp.match_ ifAndDocument (exampleCursorIn ifAndText 7) structuralMatcher
    ⟨none, none, none⟩ (ASTPath.run ifAndDocument (exampleCursorIn ifAndText 7))).getD
    (-1, ⟨none, none, none⟩)

/-- The text `while (Type name = foo()) { use(name); }`. -/
def moveWhileText : String := "while (Type name = foo()) \x7b use(name); \x7d"

/-- The tree of `while (Type name = foo()) { use(name); }`. -/
def moveWhileStatement : AST :=
  .WhileStatement 1 2 (some moveIfCondition) 9
    (some (.CompoundStatement 10
      [.Other 3 [15] [.Other 6 [12, 14] [.Other 4 [11] [], .Other 4 [13] []]]] 16))

/-- The document of `while (Type name = foo()) { use(name); }` (kind 12 is `while`). -/
def moveWhileDocument : Document :=
  exampleDocument 1 (some moveWhileStatement)
    [⟨Kind.T_OTHER 0, 0, 0⟩, ⟨Kind.T_OTHER 12, 0, 5⟩, ⟨Kind.T_OTHER 5, 6, 1⟩,
     ⟨Kind.T_OTHER 1, 7, 4⟩, ⟨Kind.T_OTHER 1, 12, 4⟩, ⟨Kind.T_OTHER 11, 17, 1⟩,
     ⟨Kind.T_OTHER 1, 19, 3⟩, ⟨Kind.T_OTHER 5, 22, 1⟩, ⟨Kind.T_OTHER 6, 23, 1⟩,
     ⟨Kind.T_OTHER 6, 24, 1⟩, ⟨Kind.T_OTHER 7, 26, 1⟩, ⟨Kind.T_OTHER 1, 28, 3⟩,
     ⟨Kind.T_OTHER 5, 31, 1⟩, ⟨Kind.T_OTHER 1, 32, 4⟩, ⟨Kind.T_OTHER 6, 36, 1⟩,
     ⟨Kind.T_OTHER 3, 37, 1⟩, ⟨Kind.T_OTHER 8, 39, 1⟩]

/-- The result of `MoveDeclarationOutOfIfOp::match` on
`if (Type name = foo()) { use(name); }` with the cursor before `name`. -/
def moveIfMatched : Int × MoveDeclarationOutOfIfOp :=
  (MoveDeclarationOutOfIfOp.match_ moveIfDocument (exampleCursorIn moveIfText 9)
    structuralMatcher ⟨none, none, none⟩
    (ASTPath.run moveIfDocument (exampleCursorIn moveIfText 9))).getD
    (-1, ⟨none, none, none⟩)

/-- The result of `MoveDeclarationOutOfWhileOp::match` on
`while (Type name = foo()) { use(name); }` with the cursor before `name`. -/
def moveWhileMatched : Int × MoveDeclarationOutOfWhileOp :=
  (MoveDeclarationOutOfWhileOp.match_ moveWhileDocument (exampleCursorIn moveWhileText 12)
    structuralMatcher ⟨none, none, none⟩
    (ASTPath.run moveWhileDocument (exampleCursorIn moveWhileText 12))).getD
    (-1, ⟨none, none, none⟩)

/-- The text `if ( Type name = foo()) { use(name); }`, with a blank after the opening
parenthesis. -/
def moveIfSpacedText : String := "if ( Type name = foo()) \x7b use(name); \x7d"

/-- The document of `if ( Type name = foo()) { use(name); }`: the tree of `moveIfStatement`,
every token after the opening parenthesis one offset further. -/
def moveIfSpacedDocument : Document :=
  exampleDocument 1 (some moveIfStatement)
    [⟨Kind.T_OTHER 0, 0, 0⟩, ⟨Kind.T_OTHER 4, 0, 2⟩, ⟨Kind.T_OTHER 5, 3, 1⟩,
     ⟨Kind.T_OTHER 1, 5, 4⟩, ⟨Kind.T_OTHER 1, 10, 4⟩, ⟨Kind.T_OTHER 11, 15, 1⟩,
     ⟨Kind.T_OTHER 1, 17, 3⟩, ⟨Kind.T_OTHER 5, 20, 1⟩, ⟨Kind.T_OTHER 6, 21, 1⟩,
     ⟨Kind.T_OTHER 6, 22, 1⟩, ⟨Kind.T_OTHER 7, 24, 1⟩, ⟨Kind.T_OTHER 1, 26, 3⟩,
     ⟨Kind.T_OTHER 5, 29, 1⟩, ⟨Kind.T_OTHER 1, 30, 4⟩, ⟨Kind.T_OTHER 6, 34, 1⟩,
     ⟨Kind.T_OTHER 3, 35, 1⟩, ⟨Kind.T_OTHER 8, 37, 1⟩]

/-- The result of `MoveDeclarationOutOfIfOp::match` on
`if ( Type name = foo()) { use(name); }` with the cursor before `name`. -/
def moveIfSpacedMatched : Int × MoveDeclarationOutOfIfOp :=
  (MoveDeclarationOutOfIfOp.match_ moveIfSpacedDocument (exampleCursorIn moveIfSpacedText 10)
    structuralMatcher ⟨none, none, none⟩
    (ASTPath.run moveIfSpacedDocument (exampleCursorIn moveIfSpacedText 10))).getD
    (-1, ⟨none, none, none⟩)

/-- The text `while ( Type name = foo()) { use(name); }`, with a blank after the opening
parenthesis. -/
def moveWhileSpacedText : String := "while ( Type name = foo()) \x7b use(name); \x7d"

/-- The document of `while ( Type name = foo()) { use(name); }`: the tree of
`moveWhileStatement`, every token after the opening parenthesis one offset further. -/
def moveWhileSpacedDocument : Document :=
  exampleDocument 1 (some moveWhileStatement)
    [⟨Kind.T_OTHER 0, 0, 0⟩, ⟨Kind.T_OTHER 12, 0, 5⟩, ⟨Kind.T_OTHER 5, 6, 1⟩,
     ⟨Kind.T_OTHER 1, 8, 4⟩, ⟨Kind.T_OTHER 1, 13, 4⟩, ⟨Kind.T_OTHER 11, 18, 1⟩,
     ⟨Kind.T_OTHER 1, 20, 3⟩, ⟨Kind.T_OTHER 5, 23, 1⟩, ⟨Kind.T_OTHER 6, 24, 1⟩,
     ⟨Kind.T_OTHER 6, 25, 1⟩, ⟨Kind.T_OTHER 7, 27, 1⟩, ⟨Kind.T_OTHER 1, 29, 3⟩,
     ⟨Kind.T_OTHER 5, 32, 1⟩, ⟨Kind.T_OTHER 1, 33, 4⟩, ⟨Kind.T_OTHER 6, 37, 1⟩,
     ⟨Kind.T_OTHER 3, 38, 1⟩, ⟨Kind.T_OTHER 8, 40, 1⟩]

/-- The result of `MoveDeclarationOutOfWhileOp::match` on
`while ( Type name = foo()) { use(name); }` with the cursor before `name`. -/
def moveWhileSpacedMatched : Int × MoveDeclarationOutOfWhileOp :=
  (MoveDeclarationOutOfWhileOp.match_ moveWhileSpacedDocument
    (exampleCursorIn moveWhileSpacedText 13) structuralMatcher ⟨none, none, none⟩
    (ASTPath.run moveWhileSpacedDocument (exampleCursorIn moveWhileSpacedText 13))).getD
    (-1, ⟨none, none, none⟩)

/-! ## Change sets of the remaining rules -/

/-- Field `rparen_token` of an if-statement or a while-statement. -/
def AST.rparen_token : AST → Nat
  | .IfStatement _ _ _ r _ _ _ => r
  | .WhileStatement _ _ _ r _ => r
  | _ => 0

/-- `MoveDeclarationOutOfWhileOp::createChangeSet`, lines 427-445.  There is no result when
`core`, `condition`, `pattern`, the declarator of the condition or its initializer is
null. -/
def MoveDeclarationOutOfWhileOp.createChangeSet (doc : Document) (tc : TextCursor)
    (self : MoveDeclarationOutOfWhileOp) (base : EditState) : Option EditState :=
  let base := QuickFixOperation.setTopLevelNode base self.pattern
  match self.core, self.condition, self.pattern with
  | some core, some condition, some pattern =>
    match condition.declarator with
    | none => none
    | some declarator =>
      match declarator.initializer with
      | none => none
      | some initializerNode =>
        let name := QuickFixOperation.textOfAST doc tc core
        let initializer := QuickFixOperation.textOfAST doc tc initializerNode
        let declaration := QuickFixOperation.textOf tc
          (QuickFixOperation.startOfAST doc tc condition)
          (QuickFixOperation.endOf doc tc (pred32 declarator.equals_token)) ++ ";\n"
        let newCondition := "(" ++ name ++ " = " ++ initializer ++ ") != 0"
        let base := QuickFixOperation.insert base (QuickFixOperation.startOfAST doc tc pattern)
          declaration
        let base := QuickFixOperation.insert base
          (QuickFixOperation.endOf doc tc pattern.lparen_token) name
        some (QuickFixOperation.replaceAST doc tc base condition newCondition)
  | _, _, _ => none

/-- `SplitIfStatementOp::splitAndCondition`, lines 533-553.  There is no result when
`pattern`, `condition`, an operand of the condition or the body of the if-statement is
null. -/
def SplitIfStatementOp.splitAndCondition (doc : Document) (tc : TextCursor)
    (self : SplitIfStatementOp) (base : EditState) : Option EditState :=
  let base := QuickFixOperation.setTopLevelNode base self.pattern
  match self.pattern, self.condition with
  | some pattern, some condition =>
    let ifTrueStatement := pattern.statement
    match condition.right_expression, condition.left_expression, ifTrueStatement with
    | some right_expression, some left_expression, some ifTrueStatement =>
      let rightCondition := QuickFixOperation.textOf tc
        (QuickFixOperation.startOfAST doc tc right_expression)
        (QuickFixOperation.endOf doc tc (pred32 pattern.rparen_token))
      let base := QuickFixOperation.replace base
        (QuickFixOperation.endOfAST doc tc left_expression)
        (QuickFixOperation.startOf doc tc pattern.rparen_token) ""
      let nestedIfStatement := " \x7b\nif (" ++ rightCondition ++ ")"
      let base := QuickFixOperation.insert base
        (QuickFixOperation.endOf doc tc pattern.rparen_token) nestedIfStatement
      some (QuickFixOperation.insert base (QuickFixOperation.endOfAST doc tc ifTrueStatement)
        "\n\x7d")
    | _, _, _ => none
  | _, _ => none

/-- `SplitIfStatementOp::splitOrCondition`, lines 555-586.  There is no result when
`pattern`, `condition`, an operand of the condition or the body of the if-statement is
null. -/
def SplitIfStatementOp.splitOrCondition (doc : Document) (tc : TextCursor)
    (self : SplitIfStatementOp) (base : EditState) : Option EditState :=
  let base := QuickFixOperation.setTopLevelNode base self.pattern
  match self.pattern, self.condition with
  | some pattern, some condition =>
    match pattern.statement, condition.right_expression, condition.left_expression with
    | some ifTrueStatement, some right_expression, some left_expression =>
      let compoundStatement := ifTrueStatement.asCompoundStatement
      let rightCondition := QuickFixOperation.textOf tc
        (QuickFixOperation.startOfAST doc tc right_expression)
        (QuickFixOperation.endOf doc tc (pred32 pattern.rparen_token))
      let base := QuickFixOperation.replace base
        (QuickFixOperation.endOfAST doc tc left_expression)
        (QuickFixOperation.startOf doc tc pattern.rparen_token) ""
      let body := QuickFixOperation.textOf tc
        (QuickFixOperation.endOf doc tc pattern.rparen_token)
        (QuickFixOperation.endOfAST doc tc ifTrueStatement)
      let elseIfStatement := (if compoundStatement.isSome then " " else "\n")
        ++ "else if (" ++ rightCondition ++ ")" ++ body
      some (QuickFixOperation.insert base (QuickFixOperation.endOfAST doc tc pattern)
        elseIfStatement)
    | _, _, _ => none
  | _, _ => none

/-- `SplitIfStatementOp::createChangeSet`, lines 523-531.  There is no result when
`condition` is null. -/
def SplitIfStatementOp.createChangeSet (doc : Document) (tc : TextCursor)
    (self : SplitIfStatementOp) (base : EditState) : Option EditState :=
  match self.condition with
  | none => none
  | some condition =>
    let binaryToken := doc.tokenAt condition.binary_op_token
    if binaryToken.is Kind.T_AMPER_AMPER then
      SplitIfStatementOp.splitAndCondition doc tc self base
    else
      SplitIfStatementOp.splitOrCondition doc tc self base

/-! ## Examples for split-if-statement -/

/-- The text `if (a && b) { y(); }`. -/
def splitAndText : String := "if (a && b) \x7b y(); \x7d"

/-- The condition `a && b`. -/
def splitAndCondition : AST :=
  .BinaryExpression (some (.Other 4 [3] [])) 4 (some (.Other 4 [5] []))

/-- The tree of `if (a && b) { y(); }`. -/
def splitAndStatement : AST :=
  .IfStatement 1 2 (some splitAndCondition) 6
    (some (.CompoundStatement 7 [.Other 3 [11] [.Other 6 [9, 10] [.Other 4 [8] []]]] 12))
    0 none

/-- The document of `if (a && b) { y(); }`. -/
def splitAndDocument : Document :=
  exampleDocument 1 (some splitAndStatement)
    [⟨Kind.T_OTHER 0, 0, 0⟩, ⟨Kind.T_OTHER 4, 0, 2⟩, ⟨Kind.T_OTHER 5, 3, 1⟩,
     ⟨Kind.T_OTHER 1, 4, 1⟩, ⟨Kind.T_AMPER_AMPER, 6, 2⟩, ⟨Kind.T_OTHER 1, 9, 1⟩,
     ⟨Kind.T_OTHER 6, 10, 1⟩, ⟨Kind.T_OTHER 7, 12, 1⟩, ⟨Kind.T_OTHER 1, 14, 1⟩,
     ⟨Kind.T_OTHER 5, 15, 1⟩, ⟨Kind.T_OTHER 6, 16, 1⟩, ⟨Kind.T_OTHER 3, 17, 1⟩,
     ⟨Kind.T_OTHER 8, 19, 1⟩]

/-- The result of `SplitIfStatementOp::match` on `if (a && b) { y(); }` with the cursor
before `&&`. -/
def splitAndMatched : Int × SplitIfStatementOp :=
  (SplitIfStatementOp.match_ splitAndDocument (exampleCursorIn splitAndText 6) ⟨none, none⟩
    (ASTPath.run splitAndDocument (exampleCursorIn splitAndText 6))).getD (-1, ⟨none, none⟩)

/-- The two-line text of `if (something || something_else)` followed by the body ` x;`. -/
def splitOrText : String := "if (something || something_else)\n x;"

/-- The condition `something || something_else`. -/
def splitOrCondition : AST :=
  .BinaryExpression (some (.Other 4 [3] [])) 4 (some (.Other 4 [5] []))

/-- The body `x;` of the two-line example. -/
def splitOrBody : AST := .Other 3 [8] [.Other 4 [7] []]

/-- The tree of the two-line example: an if-statement whose body is not a block. -/
def splitOrStatement : AST :=
  .IfStatement 1 2 (some splitOrCondition) 6 (some splitOrBody) 0 none

/-- The document of the two-line example: the second line starts at offset 33. -/
def splitOrDocument : Document :=
  { exampleDocument 1 (some splitOrStatement)
      [⟨Kind.T_OTHER 0, 0, 0⟩, ⟨Kind.T_OTHER 4, 0, 2⟩, ⟨Kind.T_OTHER 5, 3, 1⟩,
       ⟨Kind.T_OTHER 1, 4, 9⟩, ⟨Kind.T_PIPE_PIPE, 14, 2⟩, ⟨Kind.T_OTHER 1, 17, 14⟩,
       ⟨Kind.T_OTHER 6, 31, 1⟩, ⟨Kind.T_OTHER 1, 34, 1⟩, ⟨Kind.T_OTHER 3, 35, 1⟩] with
    getPosition := fun offset => if offset < 33 then (1, offset + 1) else (2, offset - 33 + 1) }

/-- A cursor without selection on the first line of the two-line example, at the given
column. -/
def splitOrCursor (column : Nat) : TextCursor where
  blockNumber := 0
  columnNumber := column
  selectionStart := column
  selectionEnd := column
  findBlockPosition := fun b => if b = 0 then 0 else 33
  documentText := splitOrText

/-- The result of `SplitIfStatementOp::match` on the two-line example with the cursor
before `||`. -/
def splitOrMatched : Int × SplitIfStatementOp :=
  (SplitIfStatementOp.match_ splitOrDocument (splitOrCursor 14) ⟨none, none⟩
    (ASTPath.run splitOrDocument (splitOrCursor 14))).getD (-1, ⟨none, none⟩)

/-- Rule split-if-statement in the words of the specification, for the if-statement at
index `j` of the chain and an index `i`: `j < i`, every node at the positions `j+1..i` is a
binary expression whose operator token is `&&` or `||`, the cursor is on the operator
token of the node at `i`, and on the operator token of no node at `j+1..i-1`. -/
def SplitIfStatementOp.anchors (doc : Document) (tc : TextCursor) (path : List AST)
    (j i : Nat) : Prop :=
  j < i ∧
  (∀ k : Nat, j < k → k ≤ i → ∃ e : AST, path[k]? = some e ∧
    e.asBinaryExpression.isSome = true ∧
    ((doc.tokenAt e.binary_op_token).kind = Kind.T_AMPER_AMPER ∨
      (doc.tokenAt e.binary_op_token).kind = Kind.T_PIPE_PIPE)) ∧
  (∃ e : AST, path[i]? = some e ∧
    QuickFixOperation.isCursorOn doc tc e.binary_op_token = true) ∧
  (∀ (k : Nat) (e : AST), j < k → k < i → path[k]? = some e →
    QuickFixOperation.isCursorOn doc tc e.binary_op_token = false)

/-- An editor showing the incomplete text `if (x)` with the cursor on `x`, its semantic
information up to date. -/
def noBodyNameEditor : CPPEditor where
  semanticInfo := { revision := 1, doc := some noBodyDocument }
  revision := 1
  textCursor := exampleCursor 4
  position := 4

/-- A `TextEditor::CompletionItem`: the fields that `completions` sets, the text and the
data (an `int` in a `QVariant`). -/
structure CompletionItem where
  text : String
  data : Int
  deriving DecidableEq, Repr

/-- The loop of `CPPQuickFixCollector::completions`, lines 859-866, from the index `i` on;
the first argument is the part of `_quickFixes` from position `i` on. -/
def CPPQuickFixCollector.completionsLoop :
    List QuickFixOperation → Int → List CompletionItem → List CompletionItem
  | [], _, quickFixItems => quickFixItems
  | op :: rest, i, quickFixItems =>
    CPPQuickFixCollector.completionsLoop rest (i + 1)
      (quickFixItems ++ [{ text := op.description, data := i }])

/-- `CPPQuickFixCollector::completions`, lines 857-867: the list `quickFixItems`
afterwards. -/
def CPPQuickFixCollector.completions (self : CPPQuickFixCollector)
    (quickFixItems : List CompletionItem) : List CompletionItem :=
  CPPQuickFixCollector.completionsLoop self._quickFixes 0 quickFixItems

/-! ## `VCSBaseEditorParameterWidget` (vcsbaseeditorparameterwidget.cpp) -/

/-- The scan of `QString::replace(before, after)` over the remaining characters: at an
occurrence of `before` the text `after` is emitted and the scan goes on behind the
occurrence, otherwise one character is copied.  The first argument bounds the number of
steps. -/
def QString.replaceChars (before after : List Char) : Nat → List Char → List Char
  | 0, s => s
  | _ + 1, [] => []
  | fuel + 1, c :: cs =>
    if before.isPrefixOf (c :: cs) then
      after ++ QString.replaceChars before after fuel ((c :: cs).drop before.length)
    else c :: QString.replaceChars before after fuel cs

/-- Library function `QString::replace(const QString &before, const QString &after)` for a
non-empty `before` (the source passes two literals): every occurrence of `before`, found
from left to right, gives way to `after`; the inserted text is not scanned again. -/
def QString.replace (s before after : String) : String :=
  if before.data.isEmpty then s
  else String.mk (QString.replaceChars before.data after.data s.data.length s.data)

/-- A `VCSBaseEditorParameterWidget::ComboBoxItem`; `value` is the string that
`QVariant::toString()` gives for the value of the item. -/
structure ComboBoxItem where
  displayText : String
  value : String
  deriving DecidableEq, Repr

/-- The widgets a mapping can point to, with the state `argumentsForOption` reads: a tool
button and whether it is checked, a combo box with its items and current index, or a
widget of another class. -/
inductive QWidget where
  | QToolButton (checked : Bool)
  | QComboBox (items : List ComboBoxItem) (currentIndex : Int)
  | Other
  deriving DecidableEq, Repr

/-- Library function `QComboBox::itemData(index).toString()`: the value of the item, the
empty string for an index outside the items. -/
def QWidget.itemData (items : List ComboBoxItem) (index : Int) : String :=
  if index < 0 then "" else ((items[index.toNat]?).map ComboBoxItem.value).getD ""

/-- A `VCSBaseEditorParameterWidget::OptionMapping`; a null widget pointer is `none`. -/
structure OptionMapping where
  optionName : String
  widget : Option QWidget
  deriving DecidableEq, Repr

/-- The fields of `VCSBaseEditorParameterWidgetPrivate` that the arguments depend on (the
layout is left out). -/
structure VCSBaseEditorParameterWidget where
  m_baseArguments : List String
  m_optionMappings : List OptionMapping
  m_comboBoxOptionTemplate : List String
  deriving DecidableEq, Repr

/-- The constructor, lines 57-58 and 77-84: no arguments, no mappings, the template
`%1=%2`. -/
def VCSBaseEditorParameterWidget.new : VCSBaseEditorParameterWidget :=
  { m_baseArguments := [], m_optionMappings := [], m_comboBoxOptionTemplate := ["%1=%2"] }

/-- `VCSBaseEditorParameterWidget::baseArguments`, lines 90-93. -/
def VCSBaseEditorParameterWidget.baseArguments (self : VCSBaseEditorParameterWidget) :
    List String :=
  self.m_baseArguments

/-- `VCSBaseEditorParameterWidget::setBaseArguments`, lines 95-98. -/
def VCSBaseEditorParameterWidget.setBaseArguments (self : VCSBaseEditorParameterWidget)
    (b : List String) : VCSBaseEditorParameterWidget :=
  { self with m_baseArguments := b }

/-- `VCSBaseEditorParameterWidget::optionMappings`, lines 208-211. -/
def VCSBaseEditorParameterWidget.optionMappings (self : VCSBaseEditorParameterWidget) :
    List OptionMapping :=
  self.m_optionMappings

/-- `VCSBaseEditorParameterWidget::comboBoxOptionTemplate`, lines 159-162. -/
def VCSBaseEditorParameterWidget.comboBoxOptionTemplate
    (self : VCSBaseEditorParameterWidget) : List String :=
  self.m_comboBoxOptionTemplate

/-- `VCSBaseEditorParameterWidget::setComboBoxOptionTemplate`, lines 164-167. -/
def VCSBaseEditorParameterWidget.setComboBoxOptionTemplate
    (self : VCSBaseEditorParameterWidget) (optTemplate : List String) :
    VCSBaseEditorParameterWidget :=
  { self with m_comboBoxOptionTemplate := optTemplate }

/-- `VCSBaseEditorParameterWidget::addToggleButton`, lines 109-121: the widget afterwards
and the new button, which is checkable and not checked. -/
def VCSBaseEditorParameterWidget.addToggleButton (self : VCSBaseEditorParameterWidget)
    (option _label _toolTip : String) : VCSBaseEditorParameterWidget × QWidget :=
  let tb := QWidget.QToolButton false
  ({ self with m_optionMappings := self.m_optionMappings ++ [⟨option, some tb⟩] }, tb)

/-- `VCSBaseEditorParameterWidget::addComboBox`, lines 133-143: the widget afterwards and
the new combo box; its current index is that of the first item, -1 without items. -/
def VCSBaseEditorParameterWidget.addComboBox (self : VCSBaseEditorParameterWidget)
    (option : String) (items : List ComboBoxItem) : VCSBaseEditorParameterWidget × QWidget :=
  let cb := QWidget.QComboBox items (if items.isEmpty then -1 else 0)
  ({ self with m_optionMappings := self.m_optionMappings ++ [⟨option, some cb⟩] }, cb)

/-- The loop of `argumentsForOption`, lines 223-228, over the remaining templates. -/
def VCSBaseEditorParameterWidget.expandTemplates (optionName value : String) :
    List String → List String → List String
  | [], args => args
  | t :: rest, args =>
    let a := t
    let a := QString.replace a "%\x7boption\x7d" optionName
    let a := QString.replace a "%\x7bvalue\x7d" value
    VCSBaseEditorParameterWidget.expandTemplates optionName value rest (args ++ [a])

/-- `VCSBaseEditorParameterWidget::argumentsForOption`, lines 213-233. -/
def VCSBaseEditorParameterWidget.argumentsForOption (self : VCSBaseEditorParameterWidget)
    (mapping : OptionMapping) : List String :=
  match mapping.widget with
  | some (.QToolButton true) => [mapping.optionName]
  | some (.QComboBox items currentIndex) =>
    let value := QWidget.itemData items currentIndex
    VCSBaseEditorParameterWidget.expandTemplates mapping.optionName value
      self.m_comboBoxOptionTemplate []
  | _ => []

/-- `VCSBaseEditorParameterWidget::arguments`, lines 100-107. -/
def VCSBaseEditorParameterWidget.arguments (self : VCSBaseEditorParameterWidget) :
    List String :=
  self.optionMappings.foldl (fun args mapping => args ++ self.argumentsForOption mapping)
    self.baseArguments

/-- A widget with the base argument `diff`, a checked and an unchecked toggle button and a
combo box whose current value is `a.out`, with the template `%{option}=%{value}`. -/
def exampleParameterWidget : VCSBaseEditorParameterWidget :=
  { m_baseArguments := ["diff"],
    m_optionMappings := [⟨"-w", some (.QToolButton true)⟩, ⟨"-B", some (.QToolButton false)⟩,
      ⟨"--file", some (.QComboBox [⟨"Other", "b.out"⟩, ⟨"File", "a.out"⟩] 1)⟩],
    m_comboBoxOptionTemplate := ["%\x7boption\x7d=%\x7bvalue\x7d"] }

/-! ## An if-statement with mixed operators -/

/-- The text `if (a || b && c) { y(); }`. -/
def mixedText : String := "if (a || b && c) \x7b y(); \x7d"

/-- The nested expression `b && c`. -/
def mixedInner : AST :=
  .BinaryExpression (some (.Other 4 [5] [])) 6 (some (.Other 4 [7] []))

/-- The condition `a || b && c`, which the parser groups as `a || (b && c)`. -/
def mixedCondition : AST :=
  .BinaryExpression (some (.Other 4 [3] [])) 4 (some mixedInner)

/-- The tree of `if (a || b && c) { y(); }`. -/
def mixedStatement : AST :=
  .IfStatement 1 2 (some mixedCondition) 8
    (some (.CompoundStatement 9 [.Other 3 [13] [.Other 6 [11, 12] [.Other 4 [10] []]]] 14))
    0 none

/-- The document of `if (a || b && c) { y(); }`. -/
def mixedDocument : Document :=
  exampleDocument 1 (some mixedStatement)
    [⟨Kind.T_OTHER 0, 0, 0⟩, ⟨Kind.T_OTHER 4, 0, 2⟩, ⟨Kind.T_OTHER 5, 3, 1⟩,
     ⟨Kind.T_OTHER 1, 4, 1⟩, ⟨Kind.T_PIPE_PIPE, 6, 2⟩, ⟨Kind.T_OTHER 1, 9, 1⟩,
     ⟨Kind.T_AMPER_AMPER, 11, 2⟩, ⟨Kind.T_OTHER 1, 14, 1⟩, ⟨Kind.T_OTHER 6, 15, 1⟩,
     ⟨Kind.T_OTHER 7, 17, 1⟩, ⟨Kind.T_OTHER 1, 19, 1⟩, ⟨Kind.T_OTHER 5, 20, 1⟩,
     ⟨Kind.T_OTHER 6, 21, 1⟩, ⟨Kind.T_OTHER 3, 22, 1⟩, ⟨Kind.T_OTHER 8, 24, 1⟩]

/-- The result of `SplitIfStatementOp::match` on `if (a || b && c) { y(); }` with the
cursor before `&&`. -/
def mixedMatched : Int × SplitIfStatementOp :=
  (SplitIfStatementOp.match_ mixedDocument (exampleCursorIn mixedText 11) ⟨none, none⟩
    (ASTPath.run mixedDocument (exampleCursorIn mixedText 11))).getD (-1, ⟨none, none⟩)

/-- An editor showing the one-name text `a` with the cursor behind the name, where the
locator finds no node; its semantic information is up to date. -/
def outsideEditor : CPPEditor where
  semanticInfo := { revision := 1, doc := some nameDocument }
  revision := 1
  textCursor := exampleCursor 1
  position := 1

/-! ## Performing an operation -/

/-- The virtual `createChangeSet()` of an operation object: the object with the top-level
node and the change set as the call leaves them.  Without a document or a text cursor,
and where the function of the class dereferences a null field, there is no result. -/
def QuickFixOperation.createChangeSet (op : QuickFixOperation) : Option QuickFixOperation :=
  match op._document, op._textCursor with
  | some doc, some tc =>
    let base : EditState := { _topLevelNode := op._topLevelNode, _changeSet := op._changeSet }
    let result : Option EditState :=
      match op.fields with
      | .rewriteLogicalAnd f => RewriteLogicalAndOp.createChangeSet doc tc f base
      | .splitIfStatement f => SplitIfStatementOp.createChangeSet doc tc f base
      | .moveDeclarationOutOfIf f => MoveDeclarationOutOfIfOp.createChangeSet doc tc f base
      | .moveDeclarationOutOfWhile f => MoveDeclarationOutOfWhileOp.createChangeSet doc tc f base
      | .splitSimpleDeclaration f => SplitSimpleDeclarationOp.createChangeSet doc tc f base
      | .addBracesToIf f => AddBracesToIfOp.createChangeSet doc tc f base
    result.map (fun e => { op with _topLevelNode := e._topLevelNode, _changeSet := e._changeSet })
  | _, _ => none

/-- `QuickFixOperation::applyChangeSet`, lines 763-778: the change set is written to the
buffer of the text cursor; the result is the object with the text of the buffer after the
edit.  `createRange(_topLevelNode)` translates tokens through the document, so with a
top-level node and no document there is no result.  The re-indentation of that range is
done by the editor (`indentInsertedText`, not under src/) and is left out, as is the
position of the cursor after the edit. -/
def QuickFixOperation.applyChangeSet (op : QuickFixOperation) : Option QuickFixOperation :=
  match op._textCursor with
  | none => none
  | some tc =>
    if op._topLevelNode.isSome && op._document.isNone then none
    else
      (op._changeSet.write tc.documentText).map
        (fun text => { op with _textCursor := some { tc with documentText := text } })

/-- `CPPQuickFixCollector::perform`, lines 879-884: the operation after
`setTextCursor(_editor->textCursor())`, `createChangeSet()` and `applyChangeSet()`.  There
is no result when `_editor` is not set or one of the two calls has none. -/
def CPPQuickFixCollector.perform (self : CPPQuickFixCollector) (editor : CPPEditor)
    (op : QuickFixOperation) : Option QuickFixOperation :=
  if self._editor then
    let op : QuickFixOperation := { op with _textCursor := some editor.textCursor }
    match op.createChangeSet with
    | none => none
    | some op => op.applyChangeSet
  else none

/-- `CPPQuickFixCollector::complete`, lines 869-877, for an item whose data is `index`:
the operations performed, none or one.  `_quickFixes.at(index)` has no result for a
negative index. -/
def CPPQuickFixCollector.complete (self : CPPQuickFixCollector) (editor : CPPEditor)
    (index : Int) : Option (List QuickFixOperation) :=
  if index < self._quickFixes.length then
    if index < 0 then none
    else
      match self._quickFixes[index.toNat]? with
      | none => none
      | some quickFix => (self.perform editor quickFix).map (fun op => [op])
  else some []

/-! ## The collector as a state machine -/

/-- The editor and the collector attached to it. -/
structure Session where
  editor : CPPEditor
  collector : CPPQuickFixCollector

/-- The events of a session: a completion request, an edit of the buffer (its revision
increases; the semantic information is not recomputed), the completion of an item, and
the cleanup. -/
inductive Event where
  | startCompletion
  | bufferEdit
  | complete (index : Int)
  | cleanup

/-- One event: the session afterwards and the operations the event applied to the buffer,
each with the revision the buffer had when it was applied.  The text an applied operation
leaves in the buffer is carried by the operation (its text cursor); the session after
`complete` keeps the editor and the retained fixes as they were before it. -/
def Session.step (matcher : ASTMatcher) (s : Session) :
    Event → Option (Session × List (QuickFixOperation × Nat))
  | .startCompletion =>
    (s.collector.startCompletion matcher s.editor).map
      (fun r => ({ s with collector := r.2 }, []))
  | .bufferEdit =>
    some ({ s with editor := { s.editor with revision := s.editor.revision + 1 } }, [])
  | .complete index =>
    (s.collector.complete s.editor index).map
      (fun ops => (s, ops.map (fun op => (op, s.editor.revision))))
  | .cleanup => some ({ s with collector := s.collector.cleanup }, [])

/-- A sequence of events: the final session and everything applied on the way. -/
def Session.run (matcher : ASTMatcher) :
    Session → List Event → Option (Session × List (QuickFixOperation × Nat))
  | s, [] => some (s, [])
  | s, e :: es =>
    match s.step matcher e with
    | none => none
    | some (s1, applied) =>
      (Session.run matcher s1 es).map (fun r => (r.1, applied ++ r.2))

/-- The session and the applied operations after a request on `if (!a && !b) { x(); }`
that is followed at once by the completion of the first offered item. -/
def ifAndCompletion : Session × List (QuickFixOperation × Nat) :=
  (Session.run structuralMatcher { editor := ifAndEditor, collector := freshCollector }
    [.startCompletion, .complete 0]).getD
    ({ editor := ifAndEditor, collector := freshCollector }, [])

/-- The operation that completion applied, with the revision of the buffer at that
time. -/
def ifAndApplied : QuickFixOperation × Nat :=
  ifAndCompletion.2.headD
    ({ fields := .addBracesToIf ⟨none⟩, _document := none, _textCursor := none }, 0)

/-! ## Basic facts about trees -/

theorem toInt32_zero : toInt32 0 = 0 := by decide

theorem AST.foldList_eq_map {β : Type} (f : AST → List β → β) (l : List AST) :
    AST.foldList f l = l.map (AST.foldTree f) := by
  induction l with
  | nil => simp [AST.foldList]
  | cons a as ih => simp [AST.foldList, ih]

theorem AST.foldOpt_eq_map {β : Type} (f : AST → List β → β) (o : Option AST) :
    AST.foldOpt f o = o.toList.map (AST.foldTree f) := by
  cases o <;> simp [AST.foldOpt]

theorem AST.foldTree_eq {β : Type} (f : AST → List β → β) (n : AST) :
    AST.foldTree f n = f n (n.children.map (AST.foldTree f)) := by
  cases n <;>
    simp [AST.foldTree, AST.children, AST.foldList_eq_map, AST.foldOpt_eq_map]

theorem ASTPath.acceptList_eq_bind (doc : Document) (line column : Nat) (l : List AST) :
    ASTPath.acceptList doc line column l = (l.map (ASTPath.accept doc line column)).flatten := by
  induction l with
  | nil => simp [ASTPath.acceptList]
  | cons a as ih => simp [ASTPath.acceptList, ih]

theorem ASTPath.acceptOpt_eq_bind (doc : Document) (line column : Nat) (o : Option AST) :
    ASTPath.acceptOpt doc line column o
      = (o.toList.map (ASTPath.accept doc line column)).flatten := by
  cases o <;> simp [ASTPath.acceptOpt]

theorem ASTPath.accept_eq (doc : Document) (line column : Nat) (n : AST) :
    ASTPath.accept doc line column n
      = if ASTPath.preVisit doc line column n then
          n :: (n.children.map (ASTPath.accept doc line column)).flatten
        else [] := by
  cases n <;>
    simp [ASTPath.accept, AST.children, ASTPath.acceptList_eq_bind, ASTPath.acceptOpt_eq_bind]

mutual
theorem AST.induction_aux (P : AST → Prop) (h : ∀ n, (∀ c ∈ n.children, P c) → P n) :
    ∀ n, P n
  | .BinaryExpression l o r => h _ (by
      intro c hc
      simp only [AST.children, List.mem_append] at hc
      rcases hc with hc | hc
      · exact AST.induction_opt P h l c hc
      · exact AST.induction_opt P h r c hc)
  | .UnaryExpression o e => h _ (by
      intro c hc
      simp only [AST.children] at hc
      exact AST.induction_opt P h e c hc)
  | .IfStatement i l c r s e es => h _ (by
      intro x hc
      simp only [AST.children, List.mem_append] at hc
      rcases hc with hc | hc | hc
      · exact AST.induction_opt P h c x hc
      · exact AST.induction_opt P h s x hc
      · exact AST.induction_opt P h es x hc)
  | .WhileStatement w l c r s => h _ (by
      intro x hc
      simp only [AST.children, List.mem_append] at hc
      rcases hc with hc | hc
      · exact AST.induction_opt P h c x hc
      · exact AST.induction_opt P h s x hc)
  | .CompoundStatement l ss r => h _ (by
      intro x hc
      simp only [AST.children] at hc
      exact AST.induction_list P h ss x hc)
  | .SimpleDeclaration q ds dl s => h _ (by
      intro x hc
      simp only [AST.children, List.mem_append] at hc
      rcases hc with hc | hc
      · exact AST.induction_list P h ds x hc
      · exact AST.induction_list P h dl x hc)
  | .Declarator p c pf e i => h _ (by
      intro x hc
      simp only [AST.children, List.mem_append] at hc
      rcases hc with hc | hc | hc | hc
      · exact AST.induction_list P h p x hc
      · exact AST.induction_opt P h c x hc
      · exact AST.induction_list P h pf x hc
      · exact AST.induction_opt P h i x hc)
  | .Condition ts d => h _ (by
      intro x hc
      simp only [AST.children, List.mem_append] at hc
      rcases hc with hc | hc
      · exact AST.induction_list P h ts x hc
      · exact AST.induction_opt P h d x hc)
  | .CoreDeclarator t c => h _ (by
      intro x hc
      simp only [AST.children] at hc
      exact AST.induction_list P h c x hc)
  | .EnumSpecifier t c => h _ (by
      intro x hc
      simp only [AST.children] at hc
      exact AST.induction_list P h c x hc)
  | .ClassSpecifier t c => h _ (by
      intro x hc
      simp only [AST.children] at hc
      exact AST.induction_list P h c x hc)
  | .Other k t c => h _ (by
      intro x hc
      simp only [AST.children] at hc
      exact AST.induction_list P h c x hc)
theorem AST.induction_opt (P : AST → Prop) (h : ∀ n, (∀ c ∈ n.children, P c) → P n) :
    ∀ (o : Option AST), ∀ c ∈ o.toList, P c
  | none => by intro c hc; simp at hc
  | some a => by
      intro c hc
      simp only [Option.toList, List.mem_singleton] at hc
      rw [hc]
      exact AST.induction_aux P h a
theorem AST.induction_list (P : AST → Prop) (h : ∀ n, (∀ c ∈ n.children, P c) → P n) :
    ∀ (l : List AST), ∀ c ∈ l, P c
  | [] => by intro c hc; simp at hc
  | a :: as => by
      intro c hc
      rcases List.mem_cons.1 hc with hc | hc
      · rw [hc]; exact AST.induction_aux P h a
      · exact AST.induction_list P h as c hc
end

theorem AST.occurrences_eq (n : AST) :
    n.occurrences = [n] :: (n.children.map AST.occurrences).flatten.map (fun c => n :: c) := by
  unfold AST.occurrences
  rw [AST.foldTree_eq]

theorem AST.nodes_eq (n : AST) :
    n.nodes = n :: (n.children.map AST.nodes).flatten := by
  unfold AST.nodes
  rw [AST.foldTree_eq]

theorem AST.occurrences_ne_nil (n : AST) : ∀ c ∈ n.occurrences, c ≠ [] := by
  intro c hc
  rw [AST.occurrences_eq] at hc
  rcases List.mem_cons.1 hc with h | h
  · simp [h]
  · obtain ⟨d, -, rfl⟩ := List.mem_map.1 h
    simp

theorem ASTPath.preVisit_iff (doc : Document) (line column : Nat) (n : AST) :
    ASTPath.preVisit doc line column n = true ↔ spanContains doc line column n := by
  unfold ASTPath.preVisit spanContains
  simp only [gt_iff_lt, ge_iff_le, Bool.and_eq_true, Bool.or_eq_true, decide_eq_true_eq,
    beq_iff_eq]
  constructor
  · intro h
    split at h
    · rename_i h1
      split at h
      · rename_i h2
        split at h
        · rename_i h3
          refine ⟨h1.1, h1.2, ?_, ?_⟩
          · rcases h2 with h2 | ⟨h2, h2b⟩
            · exact Or.inl h2
            · exact Or.inr ⟨h2.symm, h2b⟩
          · exact h3
        · exact absurd h (by simp)
      · exact absurd h (by simp)
    · exact absurd h (by simp)
  · rintro ⟨h1, h2, h3, h4⟩
    rw [if_pos ⟨h1, h2⟩]
    have h3b : (doc.getTokenStartPosition (doc.firstToken n)).1 < line ∨
        (line = (doc.getTokenStartPosition (doc.firstToken n)).1 ∧
          (doc.getTokenStartPosition (doc.firstToken n)).2 ≤ column) := by
      rcases h3 with h3 | ⟨h3, h3b⟩
      · exact Or.inl h3
      · exact Or.inr ⟨h3.symm, h3b⟩
    rw [if_pos h3b, if_pos h4]

theorem selectOccurrences_append (p : AST → Bool) (a b : List (List AST)) :
    selectOccurrences p (a ++ b) = selectOccurrences p a ++ selectOccurrences p b := by
  simp [selectOccurrences, List.filter_append, List.filterMap_append]

theorem selectOccurrences_flatten (p : AST → Bool) (L : List (List (List AST))) :
    selectOccurrences p L.flatten = (L.map (selectOccurrences p)).flatten := by
  induction L with
  | nil => simp [selectOccurrences]
  | cons a as ih => simp [selectOccurrences_append, ih]

theorem selectOccurrences_cons_map (p : AST → Bool) (n : AST) (X : List (List AST))
    (hX : ∀ c ∈ X, c ≠ []) :
    selectOccurrences p (X.map (fun c => n :: c))
      = if p n then selectOccurrences p X else [] := by
  induction X with
  | nil => simp [selectOccurrences]
  | cons c cs ih =>
    have hc : c ≠ [] := hX c (List.mem_cons_self _ _)
    have ih2 := ih (fun d hd => hX d (List.mem_cons_of_mem _ hd))
    obtain ⟨x, xs, rfl⟩ := List.exists_cons_of_ne_nil hc
    by_cases hp : p n = true
    · simp only [hp, if_true] at ih2 ⊢
      by_cases hq : (x :: xs).all p = true
      · have hq2 : (n :: x :: xs).all p = true := by
          simp only [List.all_cons, Bool.and_eq_true] at hq ⊢
          exact ⟨hp, hq⟩
        simp only [selectOccurrences, List.map_cons, List.filter_cons, hq2, hq, if_true,
          List.filterMap_cons, List.getLast?_cons_cons] at ih2 ⊢
        rw [ih2]
      · have hq2 : ¬ (n :: x :: xs).all p = true := by
          simp only [List.all_cons, Bool.and_eq_true] at hq ⊢
          exact fun h => hq h.2
        simp only [selectOccurrences, List.map_cons, List.filter_cons, hq2, hq, if_false]
          at ih2 ⊢
        exact ih2
    · have hq2 : ¬ (n :: x :: xs).all p = true := by
        simp only [List.all_cons, Bool.and_eq_true]
        exact fun h => hp h.1
      simp only [hp, if_false] at ih2 ⊢
      simp only [selectOccurrences, List.map_cons, List.filter_cons, hq2, if_false] at ih2 ⊢
      exact ih2

theorem ASTPath.accept_eq_select (doc : Document) (line column : Nat) (n : AST) :
    ASTPath.accept doc line column n
      = selectOccurrences (ASTPath.preVisit doc line column) n.occurrences := by
  induction n using AST.induction_aux with
  | h n ih =>
    rw [ASTPath.accept_eq, AST.occurrences_eq]
    have hne : ∀ c ∈ (n.children.map AST.occurrences).flatten, c ≠ [] := by
      intro c hc
      obtain ⟨l, hl, hcl⟩ := List.mem_flatten.1 hc
      obtain ⟨m, -, rfl⟩ := List.mem_map.1 hl
      exact AST.occurrences_ne_nil m c hcl
    have hkids : (n.children.map (ASTPath.accept doc line column)).flatten
        = selectOccurrences (ASTPath.preVisit doc line column)
            (n.children.map AST.occurrences).flatten := by
      rw [selectOccurrences_flatten, List.map_map]
      congr 1
      apply List.map_congr_left
      intro c hc
      exact ih c hc
    have hcons : ∀ X : List (List AST),
        selectOccurrences (ASTPath.preVisit doc line column) ([n] :: X)
          = if ASTPath.preVisit doc line column n then
              n :: selectOccurrences (ASTPath.preVisit doc line column) X
            else selectOccurrences (ASTPath.preVisit doc line column) X := by
      intro X
      by_cases hp : ASTPath.preVisit doc line column n = true
      · simp [selectOccurrences, List.filter_cons, hp]
      · simp [selectOccurrences, List.filter_cons, hp]
    rw [hcons, selectOccurrences_cons_map _ _ _ hne, hkids]
    by_cases hp : ASTPath.preVisit doc line column n = true
    · simp [hp]
    · simp [hp]

theorem ASTPath.mem_accept_preVisit (doc : Document) (line column : Nat) (n m : AST)
    (hm : m ∈ ASTPath.accept doc line column n) : ASTPath.preVisit doc line column m = true := by
  rw [ASTPath.accept_eq_select] at hm
  unfold selectOccurrences at hm
  obtain ⟨c, hc, hlast⟩ := List.mem_filterMap.1 hm
  have hall := (List.mem_filter.1 hc).2
  have hmem : m ∈ c := List.mem_of_getLast?_eq_some hlast
  exact (List.all_eq_true.1 hall) m hmem

theorem ASTPath.run_eq_acceptOpt (doc : Document) (cursor : TextCursor) :
    ASTPath.run doc cursor
      = ASTPath.acceptOpt doc (cursor.blockNumber + 1) (cursor.columnNumber + 1) doc.ast := rfl

theorem ASTPath.accept_of_not_preVisit (doc : Document) (line column : Nat) (n : AST)
    (h : ASTPath.preVisit doc line column n = false) : ASTPath.accept doc line column n = [] := by
  rw [ASTPath.accept_eq, h]; simp

theorem ASTPath.accept_head (doc : Document) (line column : Nat) (n : AST) :
    ASTPath.accept doc line column n = [] ∨
      ∃ rest, ASTPath.accept doc line column n = n :: rest := by
  rw [ASTPath.accept_eq]
  by_cases hp : ASTPath.preVisit doc line column n = true
  · right; exact ⟨(n.children.map (ASTPath.accept doc line column)).flatten, by simp [hp]⟩
  · left; simp [hp]

theorem ASTPath.flatten_accept_of_exclusive (doc : Document) (line column : Nat)
    (L : List AST) (hL : (L.filter (ASTPath.preVisit doc line column)).length ≤ 1) :
    (L.map (ASTPath.accept doc line column)).flatten = [] ∨
      ∃ c ∈ L, (L.map (ASTPath.accept doc line column)).flatten
        = ASTPath.accept doc line column c := by
  induction L with
  | nil => left; rfl
  | cons a as ih =>
    by_cases hp : ASTPath.preVisit doc line column a = true
    · right
      refine ⟨a, List.mem_cons_self _ _, ?_⟩
      have hnil : as.filter (ASTPath.preVisit doc line column) = [] := by
        rw [List.filter_cons_of_pos hp] at hL
        simp only [List.length_cons] at hL
        exact List.length_eq_zero.1 (by omega)
      have hall : (as.map (ASTPath.accept doc line column)).flatten = [] := by
        rw [List.flatten_eq_nil_iff]
        intro l hl
        obtain ⟨m, hm, rfl⟩ := List.mem_map.1 hl
        apply ASTPath.accept_of_not_preVisit
        have := (List.filter_eq_nil_iff.1 hnil) m hm
        simpa using this
      simp [hall]
    · have hp2 : ASTPath.preVisit doc line column a = false := by simpa using hp
      rw [List.filter_cons_of_neg hp] at hL
      have hrw : ((a :: as).map (ASTPath.accept doc line column)).flatten
          = (as.map (ASTPath.accept doc line column)).flatten := by
        simp [ASTPath.accept_of_not_preVisit doc line column a hp2]
      rw [hrw]
      rcases ih hL with h | ⟨c, hc, h⟩
      · left; exact h
      · right; exact ⟨c, List.mem_cons_of_mem _ hc, h⟩

theorem AST.mem_nodes_self (n : AST) : n ∈ n.nodes := by
  rw [AST.nodes_eq]; exact List.mem_cons_self _ _

theorem AST.mem_nodes_of_child (n c m : AST) (hc : c ∈ n.children) (hm : m ∈ c.nodes) :
    m ∈ n.nodes := by
  rw [AST.nodes_eq]
  apply List.mem_cons_of_mem
  exact List.mem_flatten.2 ⟨c.nodes, List.mem_map.2 ⟨c, hc, rfl⟩, hm⟩

theorem ASTPath.accept_chain_of_exclusive (doc : Document) (line column : Nat) (n : AST)
    (hex : ∀ m ∈ n.nodes, (m.children.filter (ASTPath.preVisit doc line column)).length ≤ 1) :
    List.Chain' (fun a b => b ∈ a.children) (ASTPath.accept doc line column n) := by
  induction n using AST.induction_aux with
  | h n ih =>
    rw [ASTPath.accept_eq]
    by_cases hp : ASTPath.preVisit doc line column n = true
    · simp only [hp, if_true]
      rcases ASTPath.flatten_accept_of_exclusive doc line column n.children
          (hex n (AST.mem_nodes_self n)) with h | ⟨c, hc, h⟩
      · rw [h]; exact List.chain'_singleton n
      · rw [h]
        have ihc := ih c hc (fun m hm => hex m (AST.mem_nodes_of_child n c m hc hm))
        rcases ASTPath.accept_head doc line column c with h0 | ⟨rest, h1⟩
        · rw [h0]; exact List.chain'_singleton n
        · rw [h1] at ihc ⊢
          exact List.Chain'.cons hc ihc
    · simp [hp]

/-! ## Facts about the map of matched operations -/

theorem QMap.append_ne_nil {α : Type} (m : QMap α) (k : Int) (x : α) : m.append k x ≠ [] := by
  cases m with
  | nil => simp [QMap.append]
  | cons e rest =>
    obtain ⟨k1, v⟩ := e
    unfold QMap.append
    split_ifs <;> simp

theorem QMap.key_of_mem_append {α : Type} (m : QMap α) (k : Int) (x : α) :
    ∀ e ∈ m.append k x, e.1 = k ∨ ∃ e1 ∈ m, e1.1 = e.1 := by
  induction m with
  | nil =>
    intro e he
    simp only [QMap.append, List.mem_singleton] at he
    left; rw [he]
  | cons e0 rest ih =>
    obtain ⟨k0, v0⟩ := e0
    intro e he
    unfold QMap.append at he
    split_ifs at he with h1 h2
    · rcases List.mem_cons.1 he with h | h
      · left; rw [h]
      · right; exact ⟨e, h, rfl⟩
    · rcases List.mem_cons.1 he with h | h
      · left; rw [h]; exact h2.symm
      · right; exact ⟨e, List.mem_cons_of_mem _ h, rfl⟩
    · rcases List.mem_cons.1 he with h | h
      · right; exact ⟨(k0, v0), List.mem_cons_self _ _, by rw [h]⟩
      · rcases ih e h with h3 | ⟨e1, he1, h3⟩
        · left; exact h3
        · right; exact ⟨e1, List.mem_cons_of_mem _ he1, h3⟩

theorem QMap.sorted_append {α : Type} (m : QMap α) (k : Int) (x : α)
    (hs : m.Pairwise (fun a b => a.1 < b.1)) :
    (m.append k x).Pairwise (fun a b => a.1 < b.1) := by
  induction m with
  | nil => simp [QMap.append]
  | cons e0 rest ih =>
    obtain ⟨k0, v0⟩ := e0
    have hs0 := List.pairwise_cons.1 hs
    unfold QMap.append
    split_ifs with h1 h2
    · refine List.pairwise_cons.2 ⟨?_, hs⟩
      intro e he
      rcases List.mem_cons.1 he with h | h
      · rw [h]; exact h1
      · exact lt_trans h1 (hs0.1 e h)
    · exact List.pairwise_cons.2 ⟨hs0.1, hs0.2⟩
    · refine List.pairwise_cons.2 ⟨?_, ih hs0.2⟩
      intro e he
      rcases QMap.key_of_mem_append rest k x e he with h | ⟨e1, he1, h⟩
      · rw [h]
        have : k0 ≤ k := not_lt.1 h1
        exact lt_of_le_of_ne this (fun hk => h2 hk.symm)
      · rw [← h]; exact hs0.1 e1 he1

theorem QMap.getLast_append {α : Type} (m : QMap α) (k : Int) (x : α)
    (hs : m.Pairwise (fun a b => a.1 < b.1)) (kmax : Int) (vmax : List α)
    (hlast : m.getLast? = some (kmax, vmax)) :
    (m.append k x).getLast?
      = some (if kmax < k then (k, [x]) else if k = kmax then (kmax, vmax ++ [x])
          else (kmax, vmax)) := by
  induction m with
  | nil => simp at hlast
  | cons e0 rest ih =>
    obtain ⟨k0, v0⟩ := e0
    have hs0 := List.pairwise_cons.1 hs
    cases rest with
    | nil =>
      simp only [List.getLast?_singleton, Option.some.injEq, Prod.mk.injEq] at hlast
      obtain ⟨rfl, rfl⟩ := hlast
      unfold QMap.append
      split_ifs with h1 h2 h3 h4 h5 h6 <;>
        first
          | (exfalso; omega)
          | simp [QMap.append]
    | cons e1 rest1 =>
      rw [List.getLast?_cons_cons] at hlast
      have hmem : (kmax, vmax) ∈ e1 :: rest1 := List.mem_of_getLast?_eq_some hlast
      have hlt : k0 < kmax := hs0.1 _ hmem
      unfold QMap.append
      split_ifs with h1 h2 h3 h4 h5 h6 <;>
        first
          | (exfalso; omega)
          | (simp only [List.getLast?_cons_cons]; exact hlast)
          | (obtain ⟨b, l1, hbl⟩ := List.exists_cons_of_ne_nil
                (QMap.append_ne_nil (e1 :: rest1) k x)
             rw [hbl, List.getLast?_cons_cons, ← hbl, ih hs0.2 hlast]
             simp [*])

theorem QMap.build_concat {α : Type} (m : QMap α) (ps : List (Int × α)) (r : Int × α) :
    QMap.build m (ps ++ [r]) = (QMap.build m ps).append r.1 r.2 := by
  simp [QMap.build, List.foldl_append]

theorem QMap.build_spec {α : Type} (ps : List (Int × α)) :
    (QMap.build [] ps).Pairwise (fun a b => a.1 < b.1) ∧
    (ps = [] → QMap.build [] ps = []) ∧
    (ps ≠ [] → ∃ kmax, (∀ r ∈ ps, r.1 ≤ kmax) ∧ (∃ r ∈ ps, r.1 = kmax) ∧
      (QMap.build [] ps).getLast?
        = some (kmax, (ps.filter (fun r => decide (r.1 = kmax))).map Prod.snd)) := by
  induction ps using List.reverseRecOn with
  | nil => simp [QMap.build]
  | append_singleton ps r ih =>
    obtain ⟨hs, hnil, hne⟩ := ih
    rw [QMap.build_concat]
    refine ⟨QMap.sorted_append _ _ _ hs, fun h => absurd h (by simp), fun _ => ?_⟩
    by_cases hps : ps = []
    · subst hps
      refine ⟨r.1, ?_, ⟨r, by simp, rfl⟩, ?_⟩
      · intro q hq
        simp only [List.nil_append, List.mem_singleton] at hq
        rw [hq]
      · simp [QMap.build, QMap.append]
    · obtain ⟨kmax, hle, ⟨q, hq, hqk⟩, hlast⟩ := hne hps
      rw [QMap.getLast_append _ _ _ hs kmax _ hlast]
      by_cases h1 : kmax < r.1
      · refine ⟨r.1, ?_, ⟨r, by simp, rfl⟩, ?_⟩
        · intro q1 hq1
          rcases List.mem_append.1 hq1 with h | h
          · exact le_trans (hle q1 h) (le_of_lt h1)
          · simp only [List.mem_singleton] at h; rw [h]
        · have hfil : ps.filter (fun q1 => decide (q1.1 = r.1)) = [] := by
            rw [List.filter_eq_nil_iff]
            intro q1 hq1
            have := hle q1 hq1
            simp only [decide_eq_true_eq]
            omega
          simp [h1, List.filter_append, hfil]
      · by_cases h2 : r.1 = kmax
        · refine ⟨kmax, ?_, ⟨q, List.mem_append_left _ hq, hqk⟩, ?_⟩
          · intro q1 hq1
            rcases List.mem_append.1 hq1 with h | h
            · exact hle q1 h
            · simp only [List.mem_singleton] at h; rw [h, h2]
          · simp [h1, h2, List.filter_append]
        · refine ⟨kmax, ?_, ⟨q, List.mem_append_left _ hq, hqk⟩, ?_⟩
          · intro q1 hq1
            rcases List.mem_append.1 hq1 with h | h
            · exact hle q1 h
            · simp only [List.mem_singleton] at h; rw [h]; omega
          · simp [h1, h2, List.filter_append]

/-- The bucket of the greatest key of a map built from a list of pairs: the elements of
the list whose key is greatest, in the order of the list. -/
theorem QMap.back_build {α : Type} (ps : List (Int × α)) :
    (QMap.build [] ps).back
      = if ps.isEmpty then none
        else some ((ps.filter (fun r => decide (∀ q ∈ ps, q.1 ≤ r.1))).map Prod.snd) := by
  obtain ⟨-, hnil, hne⟩ := QMap.build_spec ps
  by_cases hps : ps = []
  · rw [hnil hps]; simp [hps, QMap.back]
  · obtain ⟨kmax, hle, ⟨q, hq, hqk⟩, hlast⟩ := hne hps
    have hemp : ps.isEmpty = false := by
      cases ps with
      | nil => exact absurd rfl hps
      | cons a l => rfl
    simp only [QMap.back, hlast, Option.map_some', hemp, Bool.false_eq_true, if_false,
      Option.some.injEq]
    congr 1
    apply List.filter_congr
    intro r hr
    rw [Bool.eq_iff_iff]
    simp only [decide_eq_true_eq]
    constructor
    · intro h q1 hq1; rw [h]; exact hle q1 hq1
    · intro h
      have h1 := hle r hr
      have h2 := h q hq
      omega

theorem List.forall₂_filterMap_of_isSome {α β : Type} (f : α → Option β) (l : List α)
    (h : ∀ a ∈ l, (f a).isSome = true) :
    List.Forall₂ (fun a b => f a = some b) l (l.filterMap f) := by
  induction l with
  | nil => exact List.Forall₂.nil
  | cons a as ih =>
    have ha := h a (List.mem_cons_self _ _)
    obtain ⟨b, hb⟩ := Option.isSome_iff_exists.1 ha
    rw [List.filterMap_cons, hb]
    exact List.Forall₂.cons hb (ih (fun x hx => h x (List.mem_cons_of_mem _ hx)))

theorem QMap.filter_greatest_of_matched {α : Type} (ps qs : List (Int × α))
    (hqs : qs = ps.filter (fun r => decide (r.1 ≠ -1))) :
    qs.filter (fun r => decide (∀ q ∈ qs, q.1 ≤ r.1))
      = ps.filter (fun r => decide (r.1 ≠ -1 ∧ ∀ q ∈ ps, q.1 ≠ -1 → q.1 ≤ r.1)) := by
  subst hqs
  rw [List.filter_filter]
  apply List.filter_congr
  intro r _
  rw [Bool.eq_iff_iff]
  simp only [List.mem_filter, decide_eq_true_eq, Bool.and_eq_true, and_imp]
  constructor
  · rintro ⟨h1, h2⟩; exact ⟨h2, h1⟩
  · rintro ⟨h1, h2⟩; exact ⟨h2, h1⟩

/-! ## Facts about the collector -/

theorem CPPQuickFixCollector.matchCandidates_eq (matcher : ASTMatcher) (doc : Document)
    (editor : CPPEditor) (path : List AST) (ops : List QuickFixOperation)
    (results : List (Int × QuickFixOperation))
    (hres : List.Forall₂
      (fun op r => (op.prepare doc editor).match_ matcher path = some r) ops results)
    (m : QMap QuickFixOperation) :
    CPPQuickFixCollector.matchCandidates matcher doc editor path ops m
      = some (QMap.build m (results.filter (fun r => decide (r.1 ≠ -1)))) := by
  induction hres generalizing m with
  | nil => simp [CPPQuickFixCollector.matchCandidates, QMap.build]
  | @cons op r ops1 results1 h _ ih =>
    unfold CPPQuickFixCollector.matchCandidates
    simp only [h]
    rw [ih]
    by_cases hr : r.1 = -1
    · simp [hr, QMap.build]
    · simp [hr, QMap.build]

theorem CPPQuickFixCollector.matchCandidates_none (matcher : ASTMatcher) (doc : Document)
    (editor : CPPEditor) (path : List AST) (ops : List QuickFixOperation)
    (hno : ∀ op ∈ ops, ((op.prepare doc editor).match_ matcher path).map Prod.fst = some (-1))
    (m : QMap QuickFixOperation) :
    CPPQuickFixCollector.matchCandidates matcher doc editor path ops m = some m := by
  induction ops generalizing m with
  | nil => simp [CPPQuickFixCollector.matchCandidates]
  | cons op rest ih =>
    have h := hno op (List.mem_cons_self _ _)
    unfold CPPQuickFixCollector.matchCandidates
    cases hm : (op.prepare doc editor).match_ matcher path with
    | none => rw [hm] at h; simp at h
    | some r =>
      rw [hm] at h
      simp only [Option.map_some', Option.some.injEq] at h
      simp only [h, ne_eq, not_true_eq_false, if_false]
      exact ih (fun o ho => hno o (List.mem_cons_of_mem _ ho)) m

theorem QuickFixOperation.match_document (matcher : ASTMatcher) (op : QuickFixOperation)
    (path : List AST) (r : Int × QuickFixOperation) (h : op.match_ matcher path = some r) :
    r.2._document = op._document := by
  unfold QuickFixOperation.match_ at h
  split at h
  · split at h <;>
    · simp only [Option.map_eq_some'] at h
      obtain ⟨a, -, rfl⟩ := h
      rfl
  · simp at h

theorem QMap.mem_append {α : Type} (m : QMap α) (k : Int) (x : α) :
    ∀ e ∈ m.append k x, ∀ y ∈ e.2, y = x ∨ ∃ e1 ∈ m, y ∈ e1.2 := by
  induction m with
  | nil =>
    intro e he y hy
    simp only [QMap.append, List.mem_singleton] at he
    rw [he] at hy
    simp only [List.mem_singleton] at hy
    left; exact hy
  | cons e0 rest ih =>
    obtain ⟨k0, v0⟩ := e0
    intro e he y hy
    unfold QMap.append at he
    split_ifs at he with h1 h2
    · rcases List.mem_cons.1 he with h | h
      · rw [h] at hy
        simp only [List.mem_singleton] at hy
        left; exact hy
      · right; exact ⟨e, h, hy⟩
    · rcases List.mem_cons.1 he with h | h
      · rw [h] at hy
        rcases List.mem_append.1 hy with h3 | h3
        · right; exact ⟨(k0, v0), List.mem_cons_self _ _, h3⟩
        · simp only [List.mem_singleton] at h3
          left; exact h3
      · right; exact ⟨e, List.mem_cons_of_mem _ h, hy⟩
    · rcases List.mem_cons.1 he with h | h
      · right; exact ⟨(k0, v0), List.mem_cons_self _ _, by rw [h] at hy; exact hy⟩
      · rcases ih e h y hy with h3 | ⟨e1, he1, h3⟩
        · left; exact h3
        · right; exact ⟨e1, List.mem_cons_of_mem _ he1, h3⟩

theorem CPPQuickFixCollector.matchCandidates_document (matcher : ASTMatcher) (doc : Document)
    (editor : CPPEditor) (path : List AST) (ops : List QuickFixOperation)
    (m m1 : QMap QuickFixOperation)
    (hm : ∀ e ∈ m, ∀ y ∈ e.2, y._document = some doc)
    (h : CPPQuickFixCollector.matchCandidates matcher doc editor path ops m = some m1) :
    ∀ e ∈ m1, ∀ y ∈ e.2, y._document = some doc := by
  induction ops generalizing m with
  | nil =>
    simp only [CPPQuickFixCollector.matchCandidates, Option.some.injEq] at h
    rw [← h]; exact hm
  | cons op rest ih =>
    unfold CPPQuickFixCollector.matchCandidates at h
    cases hmt : (op.prepare doc editor).match_ matcher path with
    | none => rw [hmt] at h; simp at h
    | some r =>
      rw [hmt] at h
      simp only at h
      have hdoc := QuickFixOperation.match_document matcher _ path r hmt
      simp only [QuickFixOperation.prepare] at hdoc
      refine ih _ ?_ h
      split_ifs
      · intro e he y hy
        rcases QMap.mem_append m r.1 r.2 e he y hy with h3 | ⟨e1, he1, h3⟩
        · rw [h3]; exact hdoc
        · exact hm e1 he1 y h3
      · exact hm

/-! ## Facts about the rules -/

theorem validPriority_of_index (fields : OperationFields) (path : List AST) (j : Nat) (n : AST)
    (hn : path[j]? = some n) (ha : fields.isAnchor n = true) :
    validPriority fields path (j : Int) := by
  right
  have hlt : j < path.length := by
    rcases List.getElem?_eq_some.1 hn with ⟨h, -⟩
    exact h
  refine ⟨Int.natCast_nonneg j, by exact_mod_cast hlt, n, ?_, ha⟩
  simpa using hn

theorem RewriteLogicalAndOp.findExpression_valid (path : List AST) :
    ∀ k idx e, RewriteLogicalAndOp.findExpression path k = some (idx, some e) →
      ∃ j : Nat, idx = (j : Int) ∧
        ∃ n, path[j]? = some n ∧ n.asBinaryExpression.isSome = true := by
  intro k
  induction k with
  | zero => intro idx e h; simp [RewriteLogicalAndOp.findExpression] at h
  | succ k ih =>
    intro idx e h
    unfold RewriteLogicalAndOp.findExpression at h
    split at h
    · simp at h
    · rename_i node hnode
      split at h
      · rename_i expression hexpr
        simp only [Option.some.injEq, Prod.mk.injEq] at h
        obtain ⟨rfl, rfl⟩ := h
        exact ⟨k, rfl, node, hnode, by simp [hexpr]⟩
      · exact ih idx e h

theorem RewriteLogicalAndOp.rewrite_match_valid (doc : Document) (tc : TextCursor)
    (matcher : ASTMatcher) (self self1 : RewriteLogicalAndOp) (path : List AST) (r : Int)
    (h : RewriteLogicalAndOp.match_ doc tc matcher self path = some (r, self1)) :
    validPriority (.rewriteLogicalAnd self) path r := by
  unfold RewriteLogicalAndOp.match_ at h
  split at h
  · simp at h
  · simp only [Option.some.injEq, Prod.mk.injEq] at h
    left; exact h.1.symm
  · rename_i index expression hfind
    obtain ⟨j, rfl, n, hn, ha⟩ := RewriteLogicalAndOp.findExpression_valid path _ _ _ hfind
    split at h
    · simp only [Option.some.injEq, Prod.mk.injEq] at h
      left; exact h.1.symm
    · simp only at h
      split at h
      · simp only [Option.some.injEq, Prod.mk.injEq] at h
        rw [← h.1]
        exact validPriority_of_index _ path j n hn ha
      · simp only [Option.some.injEq, Prod.mk.injEq] at h
        left; exact h.1.symm

theorem RewriteLogicalAndOp.rewrite_match_fields (doc : Document) (tc : TextCursor)
    (matcher : ASTMatcher) (self self1 : RewriteLogicalAndOp) (path : List AST) :
    (RewriteLogicalAndOp.match_ doc tc matcher self path).map Prod.fst
      = (RewriteLogicalAndOp.match_ doc tc matcher self1 path).map Prod.fst := by
  unfold RewriteLogicalAndOp.match_
  split
  · rfl
  · rfl
  · split
    · rfl
    · simp only

theorem SplitIfStatementOp.findIfStatement_valid (path : List AST) :
    ∀ k idx e, SplitIfStatementOp.findIfStatement path k = some (idx, some e) →
      ∃ j : Nat, idx = (j : Int) := by
  intro k
  induction k with
  | zero => intro idx e h; simp [SplitIfStatementOp.findIfStatement] at h
  | succ k ih =>
    intro idx e h
    unfold SplitIfStatementOp.findIfStatement at h
    split at h
    · simp at h
    · split at h
      · simp only [Option.some.injEq, Prod.mk.injEq] at h
        exact ⟨k, h.1.symm⟩
      · exact ih idx e h

theorem SplitIfStatementOp.splitIf_loop_valid (doc : Document) (tc : TextCursor) :
    ∀ (rest : List AST) (index : Int) (self self1 : SplitIfStatementOp) (r : Int),
      SplitIfStatementOp.loop doc tc rest index self = some (r, self1) →
      r = -1 ∨ ∃ i : Nat, r = index + i ∧
        ∃ n, rest[i]? = some n ∧ n.asBinaryExpression.isSome = true := by
  intro rest
  induction rest with
  | nil =>
    intro index self self1 r h
    simp only [SplitIfStatementOp.loop, Option.some.injEq, Prod.mk.injEq] at h
    left; exact h.1.symm
  | cons node rest ih =>
    intro index self self1 r h
    unfold SplitIfStatementOp.loop at h
    simp only at h
    split at h
    · simp only [Option.some.injEq, Prod.mk.injEq] at h
      left; exact h.1.symm
    · rename_i cond hcond
      split at h
      · split at h
        · simp only [Option.some.injEq, Prod.mk.injEq] at h
          right
          exact ⟨0, by simp [h.1], node, by simp, by simp [hcond]⟩
        · rcases ih _ _ _ _ h with h1 | ⟨i, hi, n, hn, ha⟩
          · left; exact h1
          · right
            refine ⟨i + 1, ?_, n, by simpa using hn, ha⟩
            rw [hi]; push_cast; ring
      · simp only [Option.some.injEq, Prod.mk.injEq] at h
        left; exact h.1.symm

theorem SplitIfStatementOp.splitIf_loop_fields (doc : Document) (tc : TextCursor) :
    ∀ (rest : List AST) (index : Int) (self self1 : SplitIfStatementOp),
      (SplitIfStatementOp.loop doc tc rest index self).map Prod.fst
        = (SplitIfStatementOp.loop doc tc rest index self1).map Prod.fst := by
  intro rest
  induction rest with
  | nil => intro index self self1; rfl
  | cons node rest ih =>
    intro index self self1
    unfold SplitIfStatementOp.loop
    simp only
    split
    · rfl
    · split
      · split
        · rfl
        · exact ih _ _ _
      · rfl

theorem SplitIfStatementOp.splitIf_match_valid (doc : Document) (tc : TextCursor)
    (self self1 : SplitIfStatementOp) (path : List AST) (r : Int)
    (h : SplitIfStatementOp.match_ doc tc self path = some (r, self1)) :
    validPriority (.splitIfStatement self) path r := by
  unfold SplitIfStatementOp.match_ at h
  split at h
  · simp at h
  · simp only [Option.some.injEq, Prod.mk.injEq] at h
    left; exact h.1.symm
  · rename_i index stmt hfind
    obtain ⟨j, rfl⟩ := SplitIfStatementOp.findIfStatement_valid path _ _ _ hfind
    rcases SplitIfStatementOp.splitIf_loop_valid doc tc _ _ _ _ _ h with h1 | ⟨i, hi, n, hn, ha⟩
    · left; exact h1
    · have hidx : ((j : Int) + 1).toNat = j + 1 := by omega
      rw [hidx, List.getElem?_drop] at hn
      have hr : r = ((j + 1 + i : Nat) : Int) := by rw [hi]; push_cast; ring
      rw [hr]
      exact validPriority_of_index _ path _ n hn ha

theorem SplitIfStatementOp.splitIf_match_fields (doc : Document) (tc : TextCursor)
    (self self1 : SplitIfStatementOp) (path : List AST) :
    (SplitIfStatementOp.match_ doc tc self path).map Prod.fst
      = (SplitIfStatementOp.match_ doc tc self1 path).map Prod.fst := by
  unfold SplitIfStatementOp.match_
  split
  · rfl
  · rfl
  · exact SplitIfStatementOp.splitIf_loop_fields doc tc _ _ _ _

theorem SplitSimpleDeclarationOp.splitDecl_loop_valid (doc : Document) (tc : TextCursor)
    (path : List AST) (self : SplitSimpleDeclarationOp) :
    ∀ (k : Nat) (core : Option AST) (r : Int) (self1 : SplitSimpleDeclarationOp),
      SplitSimpleDeclarationOp.loop doc tc path self k core = some (r, self1) →
      r = -1 ∨ ∃ j : Nat, r = (j : Int) ∧
        ∃ n, path[j]? = some n ∧ n.asSimpleDeclaration.isSome = true := by
  intro k
  induction k with
  | zero =>
    intro core r self1 h
    simp only [SplitSimpleDeclarationOp.loop, Option.some.injEq, Prod.mk.injEq] at h
    left; exact h.1.symm
  | succ k ih =>
    intro core r self1 h
    unfold SplitSimpleDeclarationOp.loop at h
    split at h
    · simp at h
    · rename_i node hnode
      split at h
      · exact ih _ _ _ h
      · split at h
        · rename_i simpleDecl hdecl
          split at h
          · simp only at h
            split at h
            · simp only [Option.some.injEq, Prod.mk.injEq] at h
              right
              exact ⟨k, h.1.symm, node, hnode, by simp [hdecl]⟩
            · split at h
              · split at h
                · simp only [Option.some.injEq, Prod.mk.injEq] at h
                  right
                  exact ⟨k, h.1.symm, node, hnode, by simp [hdecl]⟩
                · simp only [Option.some.injEq, Prod.mk.injEq] at h
                  left; exact h.1.symm
              · simp only [Option.some.injEq, Prod.mk.injEq] at h
                left; exact h.1.symm
          · simp only [Option.some.injEq, Prod.mk.injEq] at h
            left; exact h.1.symm
        · exact ih _ _ _ h

theorem SplitSimpleDeclarationOp.splitDecl_loop_fields (doc : Document) (tc : TextCursor)
    (path : List AST) (self self1 : SplitSimpleDeclarationOp) :
    ∀ (k : Nat) (core : Option AST),
      (SplitSimpleDeclarationOp.loop doc tc path self k core).map Prod.fst
        = (SplitSimpleDeclarationOp.loop doc tc path self1 k core).map Prod.fst := by
  intro k
  induction k with
  | zero => intro core; rfl
  | succ k ih =>
    intro core
    unfold SplitSimpleDeclarationOp.loop
    split
    · rfl
    · split
      · exact ih _
      · split
        · split
          · rfl
          · rfl
        · exact ih _

theorem SplitSimpleDeclarationOp.splitDecl_match_valid (doc : Document) (tc : TextCursor)
    (self self1 : SplitSimpleDeclarationOp) (path : List AST) (r : Int)
    (h : SplitSimpleDeclarationOp.match_ doc tc self path = some (r, self1)) :
    validPriority (.splitSimpleDeclaration self) path r := by
  unfold SplitSimpleDeclarationOp.match_ at h
  rcases SplitSimpleDeclarationOp.splitDecl_loop_valid doc tc path self _ _ _ _ h with
    h1 | ⟨j, rfl, n, hn, ha⟩
  · left; exact h1
  · exact validPriority_of_index _ path j n hn ha

theorem SplitSimpleDeclarationOp.splitDecl_match_fields (doc : Document) (tc : TextCursor)
    (self self1 : SplitSimpleDeclarationOp) (path : List AST) :
    (SplitSimpleDeclarationOp.match_ doc tc self path).map Prod.fst
      = (SplitSimpleDeclarationOp.match_ doc tc self1 path).map Prod.fst :=
  SplitSimpleDeclarationOp.splitDecl_loop_fields doc tc path self self1 _ _

theorem AddBracesToIfOp.addBraces_loop_valid (doc : Document) (tc : TextCursor)
    (path : List AST) (self : AddBracesToIfOp) :
    ∀ (k : Nat) (r : Int) (self1 : AddBracesToIfOp),
      AddBracesToIfOp.loop doc tc path self k = some (r, self1) →
      r = -1 ∨ ∃ j : Nat, r = (j : Int) ∧
        ∃ n, path[j]? = some n ∧ n.asIfStatement.isSome = true := by
  intro k
  induction k with
  | zero =>
    intro r self1 h
    simp only [AddBracesToIfOp.loop, Option.some.injEq, Prod.mk.injEq] at h
    left; exact h.1.symm
  | succ k ih =>
    intro r self1 h
    unfold AddBracesToIfOp.loop at h
    split at h
    · simp at h
    · rename_i node hnode
      split at h
      · exact ih _ _ h
      · rename_i ifStatement hif
        split at h
        · simp at h
        · split at h
          · simp only [Option.some.injEq, Prod.mk.injEq] at h
            right
            exact ⟨k, h.1.symm, node, hnode, by simp [hif]⟩
          · exact ih _ _ h

theorem AddBracesToIfOp.addBraces_loop_fields (doc : Document) (tc : TextCursor)
    (path : List AST) (self self1 : AddBracesToIfOp) :
    ∀ (k : Nat),
      (AddBracesToIfOp.loop doc tc path self k).map Prod.fst
        = (AddBracesToIfOp.loop doc tc path self1 k).map Prod.fst := by
  intro k
  induction k with
  | zero => rfl
  | succ k ih =>
    unfold AddBracesToIfOp.loop
    split
    · rfl
    · split
      · exact ih
      · split
        · rfl
        · split
          · rfl
          · exact ih

theorem AddBracesToIfOp.addBraces_match_valid (doc : Document) (tc : TextCursor)
    (self self1 : AddBracesToIfOp) (path : List AST) (r : Int)
    (h : AddBracesToIfOp.match_ doc tc self path = some (r, self1)) :
    validPriority (.addBracesToIf self) path r := by
  have hloop : ∀ (r : Int) (self1 : AddBracesToIfOp),
      AddBracesToIfOp.loop doc tc path self path.length = some (r, self1) →
      validPriority (.addBracesToIf self) path r := by
    intro r self1 h
    rcases AddBracesToIfOp.addBraces_loop_valid doc tc path self _ _ _ h with h1 | ⟨j, rfl, n, hn, ha⟩
    · left; exact h1
    · exact validPriority_of_index _ path j n hn ha
  unfold AddBracesToIfOp.match_ at h
  split at h
  · simp at h
  · rename_i last hlast
    split at h
    · exact hloop _ _ h
    · rename_i ifStatement hif
      split at h
      · split at h
        · simp at h
        · split at h
          · simp only [Option.some.injEq, Prod.mk.injEq] at h
            have hne : path ≠ [] := by
              intro hp; rw [hp] at hlast; simp at hlast
            have hpos : 0 < path.length := List.length_pos.2 hne
            have hget : path[path.length - 1]? = some last := by
              rw [← List.getLast?_eq_getElem?]; exact hlast
            have hr : r = ((path.length - 1 : Nat) : Int) := by
              rw [← h.1]; omega
            rw [hr]
            exact validPriority_of_index _ path _ last hget (by simp [OperationFields.isAnchor, hif])
          · exact hloop _ _ h
      · exact hloop _ _ h

theorem AddBracesToIfOp.addBraces_match_fields (doc : Document) (tc : TextCursor)
    (self self1 : AddBracesToIfOp) (path : List AST) :
    (AddBracesToIfOp.match_ doc tc self path).map Prod.fst
      = (AddBracesToIfOp.match_ doc tc self1 path).map Prod.fst := by
  unfold AddBracesToIfOp.match_
  split
  · rfl
  · split
    · exact AddBracesToIfOp.addBraces_loop_fields doc tc path self self1 _
    · split
      · split
        · rfl
        · split
          · rfl
          · exact AddBracesToIfOp.addBraces_loop_fields doc tc path self self1 _
      · exact AddBracesToIfOp.addBraces_loop_fields doc tc path self self1 _

theorem MoveDeclarationOutOfIfOp.moveIf_loop_valid (doc : Document) (tc : TextCursor)
    (matcher : ASTMatcher) (path : List AST) :
    ∀ (k : Nat) (pattern : AST) (core : Option AST) (r : Int)
      (self1 : MoveDeclarationOutOfIfOp),
      MoveDeclarationOutOfIfOp.loop doc tc matcher path k pattern core = some (r, self1) →
      r = -1 ∨ ∃ j : Nat, r = (j : Int) ∧
        ∃ n, path[j]? = some n ∧ n.asIfStatement.isSome = true := by
  intro k
  induction k with
  | zero =>
    intro pattern core r self1 h
    simp only [MoveDeclarationOutOfIfOp.loop, Option.some.injEq, Prod.mk.injEq] at h
    left; exact h.1.symm
  | succ k ih =>
    intro pattern core r self1 h
    unfold MoveDeclarationOutOfIfOp.loop at h
    split at h
    · simp at h
    · rename_i node hnode
      split at h
      · exact ih _ _ _ _ h
      · rename_i statement hif
        simp only at h
        split at h
        · split at h
          · exact ih _ _ _ _ h
          · split at h
            · simp only [Option.some.injEq, Prod.mk.injEq] at h
              left; exact h.1.symm
            · split at h
              · simp only [Option.some.injEq, Prod.mk.injEq] at h
                right
                exact ⟨k, h.1.symm, node, hnode, by simp [hif]⟩
              · exact ih _ _ _ _ h
        · exact ih _ _ _ _ h

theorem MoveDeclarationOutOfIfOp.moveIf_loop_fields (doc : Document) (tc : TextCursor)
    (matcher : ASTMatcher) (path : List AST) :
    ∀ (k : Nat) (pattern : AST) (core core1 : Option AST),
      (MoveDeclarationOutOfIfOp.loop doc tc matcher path k pattern core).map Prod.fst
        = (MoveDeclarationOutOfIfOp.loop doc tc matcher path k pattern core1).map Prod.fst := by
  intro k
  induction k with
  | zero => intro pattern core core1; rfl
  | succ k ih =>
    intro pattern core core1
    unfold MoveDeclarationOutOfIfOp.loop
    split
    · rfl
    · split
      · exact ih _ _ _
      · simp only
        split
        · split
          · exact ih _ _ _
          · split
            · rfl
            · split
              · rfl
              · exact ih _ _ _
        · exact ih _ _ _

theorem MoveDeclarationOutOfIfOp.moveIf_match_valid (doc : Document) (tc : TextCursor)
    (matcher : ASTMatcher) (self self1 : MoveDeclarationOutOfIfOp) (path : List AST) (r : Int)
    (h : MoveDeclarationOutOfIfOp.match_ doc tc matcher self path = some (r, self1)) :
    validPriority (.moveDeclarationOutOfIf self) path r := by
  unfold MoveDeclarationOutOfIfOp.match_ at h
  rcases MoveDeclarationOutOfIfOp.moveIf_loop_valid doc tc matcher path _ _ _ _ _ h with
    h1 | ⟨j, rfl, n, hn, ha⟩
  · left; exact h1
  · exact validPriority_of_index _ path j n hn ha

theorem MoveDeclarationOutOfIfOp.moveIf_match_fields (doc : Document) (tc : TextCursor)
    (matcher : ASTMatcher) (self self1 : MoveDeclarationOutOfIfOp) (path : List AST) :
    (MoveDeclarationOutOfIfOp.match_ doc tc matcher self path).map Prod.fst
      = (MoveDeclarationOutOfIfOp.match_ doc tc matcher self1 path).map Prod.fst :=
  MoveDeclarationOutOfIfOp.moveIf_loop_fields doc tc matcher path _ _ _ _

theorem MoveDeclarationOutOfWhileOp.moveWhile_loop_valid (doc : Document) (tc : TextCursor)
    (matcher : ASTMatcher) (path : List AST) :
    ∀ (k : Nat) (pattern : AST) (core : Option AST) (r : Int)
      (self1 : MoveDeclarationOutOfWhileOp),
      MoveDeclarationOutOfWhileOp.loop doc tc matcher path k pattern core = some (r, self1) →
      r = -1 ∨ ∃ j : Nat, r = (j : Int) ∧
        ∃ n, path[j]? = some n ∧ n.asWhileStatement.isSome = true := by
  intro k
  induction k with
  | zero =>
    intro pattern core r self1 h
    simp only [MoveDeclarationOutOfWhileOp.loop, Option.some.injEq, Prod.mk.injEq] at h
    left; exact h.1.symm
  | succ k ih =>
    intro pattern core r self1 h
    unfold MoveDeclarationOutOfWhileOp.loop at h
    split at h
    · simp at h
    · rename_i node hnode
      split at h
      · exact ih _ _ _ _ h
      · rename_i statement hif
        simp only at h
        split at h
        · split at h
          · exact ih _ _ _ _ h
          · split at h
            · simp only [Option.some.injEq, Prod.mk.injEq] at h
              left; exact h.1.symm
            · split at h
              · simp only [Option.some.injEq, Prod.mk.injEq] at h
                left; exact h.1.symm
              · split at h
                · simp only [Option.some.injEq, Prod.mk.injEq] at h
                  left; exact h.1.symm
                · split at h
                  · simp only [Option.some.injEq, Prod.mk.injEq] at h
                    right
                    exact ⟨k, h.1.symm, node, hnode, by simp [hif]⟩
                  · exact ih _ _ _ _ h
        · exact ih _ _ _ _ h

theorem MoveDeclarationOutOfWhileOp.moveWhile_loop_fields (doc : Document) (tc : TextCursor)
    (matcher : ASTMatcher) (path : List AST) :
    ∀ (k : Nat) (pattern : AST) (core core1 : Option AST),
      (MoveDeclarationOutOfWhileOp.loop doc tc matcher path k pattern core).map Prod.fst
        = (MoveDeclarationOutOfWhileOp.loop doc tc matcher path k pattern core1).map Prod.fst := by
  intro k
  induction k with
  | zero => intro pattern core core1; rfl
  | succ k ih =>
    intro pattern core core1
    unfold MoveDeclarationOutOfWhileOp.loop
    split
    · rfl
    · split
      · exact ih _ _ _
      · simp only
        split
        · split
          · exact ih _ _ _
          · split
            · rfl
            · split
              · rfl
              · split
                · rfl
                · split
                  · rfl
                  · exact ih _ _ _
        · exact ih _ _ _

theorem MoveDeclarationOutOfWhileOp.moveWhile_match_valid (doc : Document) (tc : TextCursor)
    (matcher : ASTMatcher) (self self1 : MoveDeclarationOutOfWhileOp) (path : List AST)
    (r : Int)
    (h : MoveDeclarationOutOfWhileOp.match_ doc tc matcher self path = some (r, self1)) :
    validPriority (.moveDeclarationOutOfWhile self) path r := by
  unfold MoveDeclarationOutOfWhileOp.match_ at h
  rcases MoveDeclarationOutOfWhileOp.moveWhile_loop_valid doc tc matcher path _ _ _ _ _ h with
    h1 | ⟨j, rfl, n, hn, ha⟩
  · left; exact h1
  · exact validPriority_of_index _ path j n hn ha

theorem MoveDeclarationOutOfWhileOp.moveWhile_match_fields (doc : Document) (tc : TextCursor)
    (matcher : ASTMatcher) (self self1 : MoveDeclarationOutOfWhileOp) (path : List AST) :
    (MoveDeclarationOutOfWhileOp.match_ doc tc matcher self path).map Prod.fst
      = (MoveDeclarationOutOfWhileOp.match_ doc tc matcher self1 path).map Prod.fst :=
  MoveDeclarationOutOfWhileOp.moveWhile_loop_fields doc tc matcher path _ _ _ _

theorem QuickFixOperation.operation_match_valid (matcher : ASTMatcher) (op op1 : QuickFixOperation)
    (path : List AST) (r : Int) (h : op.match_ matcher path = some (r, op1)) :
    validPriority op.fields path r := by
  unfold QuickFixOperation.match_ at h
  split at h
  · rename_i doc tc _ _
    split at h <;> rename_i f hf <;> rw [hf] <;>
      simp only [Option.map_eq_some', Prod.mk.injEq] at h <;>
      obtain ⟨a, ha, rfl, -⟩ := h
    · exact RewriteLogicalAndOp.rewrite_match_valid doc tc matcher f a.2 path a.1 ha
    · exact SplitIfStatementOp.splitIf_match_valid doc tc f a.2 path a.1 ha
    · exact MoveDeclarationOutOfIfOp.moveIf_match_valid doc tc matcher f a.2 path a.1 ha
    · exact MoveDeclarationOutOfWhileOp.moveWhile_match_valid doc tc matcher f a.2 path a.1 ha
    · exact SplitSimpleDeclarationOp.splitDecl_match_valid doc tc f a.2 path a.1 ha
    · exact AddBracesToIfOp.addBraces_match_valid doc tc f a.2 path a.1 ha
  · simp at h

theorem QuickFixOperation.operation_match_fields (matcher : ASTMatcher) (op op2 : QuickFixOperation)
    (path : List AST) (hcls : op.fields.cls = op2.fields.cls)
    (hdoc : op._document = op2._document) (htc : op._textCursor = op2._textCursor) :
    (op.match_ matcher path).map Prod.fst = (op2.match_ matcher path).map Prod.fst := by
  obtain ⟨f, d, t⟩ := op
  obtain ⟨f2, d2, t2⟩ := op2
  simp only at hcls hdoc htc
  subst hdoc htc
  unfold QuickFixOperation.match_
  cases d with
  | none => rfl
  | some doc =>
    cases t with
    | none => rfl
    | some tc =>
      cases f <;> cases f2 <;> simp only [OperationFields.cls] at hcls <;>
        first
          | exact absurd hcls (by decide)
          | (simp only [Option.map_map]
             first
               | exact RewriteLogicalAndOp.rewrite_match_fields doc tc matcher _ _ path
               | exact SplitIfStatementOp.splitIf_match_fields doc tc _ _ path
               | exact MoveDeclarationOutOfIfOp.moveIf_match_fields doc tc matcher _ _ path
               | exact MoveDeclarationOutOfWhileOp.moveWhile_match_fields doc tc matcher _ _ path
               | exact SplitSimpleDeclarationOp.splitDecl_match_fields doc tc _ _ path
               | exact AddBracesToIfOp.addBraces_match_fields doc tc _ _ path)

theorem QuickFixOperation.match_shape (matcher : ASTMatcher) (op op1 : QuickFixOperation)
    (path : List AST) (r : Int) (h : op.match_ matcher path = some (r, op1)) :
    op1.fields.cls = op.fields.cls ∧ op1._document = op._document ∧
      op1._textCursor = op._textCursor := by
  unfold QuickFixOperation.match_ at h
  split at h
  · split at h <;> rename_i f hf <;> rw [hf] <;>
      simp only [Option.map_eq_some', Prod.mk.injEq] at h <;>
      obtain ⟨a, -, -, rfl⟩ := h <;>
      exact ⟨rfl, rfl, rfl⟩
  · simp at h

theorem CPPQuickFixCollector.startCompletion_documents (matcher : ASTMatcher)
    (c c1 : CPPQuickFixCollector) (editor : CPPEditor) (ret : Int)
    (hclean : c._quickFixes = [])
    (h : c.startCompletion matcher editor = some (ret, c1)) :
    ∀ op ∈ c1._quickFixes, ∃ doc, editor.semanticInfo.doc = some doc ∧
      op._document = some doc ∧ editor.semanticInfo.revision = editor.revision := by
  have hvac : ∀ (x : Int),
      some (x, ({ _editor := true, _quickFixes := c._quickFixes } : CPPQuickFixCollector))
        = some (ret, c1) →
      ∀ op ∈ c1._quickFixes, ∃ doc, editor.semanticInfo.doc = some doc ∧
        op._document = some doc ∧ editor.semanticInfo.revision = editor.revision := by
    intro x hx op hop
    simp only [Option.some.injEq, Prod.mk.injEq] at hx
    rw [← hx.2, hclean] at hop
    simp at hop
  unfold CPPQuickFixCollector.startCompletion at h
  simp only at h
  split at h
  · exact hvac _ h
  · rename_i hrev
    have hrev2 : editor.semanticInfo.revision = editor.revision := by
      simpa using hrev
    split at h
    · rename_i doc hdoc
      split at h
      · exact hvac _ h
      · split at h
        · simp at h
        · rename_i matchedOps hmatched
          have hdocs := CPPQuickFixCollector.matchCandidates_document matcher doc editor _ _
            [] matchedOps (by simp) hmatched
          cases hback : matchedOps.back with
          | none =>
            rw [hback] at h
            simp only at h
            split at h
            · exact hvac _ h
            · exact hvac _ h
          | some value =>
            rw [hback] at h
            simp only at h
            have hval : ∀ op ∈ value, op._document = some doc := by
              unfold QMap.back at hback
              obtain ⟨e, he, rfl⟩ := Option.map_eq_some'.1 hback
              exact hdocs e (List.mem_of_getLast?_eq_some he)
            have hfin : ∀ (x : Int),
                some (x, ({ _editor := true, _quickFixes := value } : CPPQuickFixCollector))
                  = some (ret, c1) →
                ∀ op ∈ c1._quickFixes, ∃ doc, editor.semanticInfo.doc = some doc ∧
                  op._document = some doc ∧
                  editor.semanticInfo.revision = editor.revision := by
              intro x hx op hop
              simp only [Option.some.injEq, Prod.mk.injEq] at hx
              rw [← hx.2] at hop
              exact ⟨doc, hdoc, hval op hop, hrev2⟩
            split at h
            · exact hfin _ h
            · exact hfin _ h
    · exact hvac _ h

/-! ## Facts about the structural matcher -/

theorem bindChild_eq_of (c pc b : Option AST)
    (ih : ∀ a ∈ c.toList, ∀ p b1, bindPattern a p = some b1 → b1 = a)
    (h : bindChild c pc = some b) : b = c := by
  cases pc with
  | none =>
    cases c <;> simp only [bindChild, Option.some.injEq] at h <;> exact h.symm
  | some p =>
    cases c with
    | none => simp [bindChild] at h
    | some a =>
      simp only [bindChild] at h
      split at h
      · rename_i p1 hp1
        simp only [Option.some.injEq] at h
        rw [← h, ih a (by simp) p p1 hp1]
      · simp at h

theorem bindElements_eq_of (l : List AST) :
    ∀ (pl b : List AST), (∀ a ∈ l, ∀ p b1, bindPattern a p = some b1 → b1 = a) →
      bindElements l pl = some b → b = l := by
  induction l with
  | nil =>
    intro pl b _ h
    cases pl <;> simp [bindElements] at h
    exact h
  | cons a as ih =>
    intro pl b hall h
    cases pl with
    | nil => simp [bindElements] at h
    | cons p ps =>
      simp only [bindElements] at h
      split at h
      · rename_i p1 ps1 hp1 hps1
        simp only [Option.some.injEq] at h
        rw [← h, hall a (List.mem_cons_self _ _) p p1 hp1,
          ih ps ps1 (fun x hx => hall x (List.mem_cons_of_mem _ hx)) hps1]
      · simp at h

theorem bindList_eq_of (l pl b : List AST)
    (hall : ∀ a ∈ l, ∀ p b1, bindPattern a p = some b1 → b1 = a)
    (h : bindList l pl = some b) : b = l := by
  cases pl with
  | nil =>
    cases l <;> simp only [bindList, Option.some.injEq] at h <;> exact h.symm
  | cons p ps =>
    cases l with
    | nil => simp [bindList] at h
    | cons a as =>
      simp only [bindList] at h
      split at h
      · rename_i p1 ps1 hp1 hps1
        simp only [Option.some.injEq] at h
        rw [← h, hall a (List.mem_cons_self _ _) p p1 hp1,
          bindElements_eq_of as ps ps1 (fun x hx => hall x (List.mem_cons_of_mem _ hx)) hps1]
      · simp at h

/-- A pattern bound to a node is that node: every wildcard has taken the child of the
node, every token the token of the node. -/
theorem bindPattern_eq (n : AST) : ∀ p b, bindPattern n p = some b → b = n := by
  induction n using AST.induction_aux with
  | h n ih =>
    intro p b h
    have hc : ∀ (c : Option AST), (∀ a ∈ c.toList, a ∈ n.children) →
        ∀ pc b1, bindChild c pc = some b1 → b1 = c :=
      fun c hsub pc b1 hb => bindChild_eq_of c pc b1 (fun a ha => ih a (hsub a ha)) hb
    have hl : ∀ (l : List AST), (∀ a ∈ l, a ∈ n.children) →
        ∀ pl b1, bindList l pl = some b1 → b1 = l :=
      fun l hsub pl b1 hb => bindList_eq_of l pl b1 (fun a ha => ih a (hsub a ha)) hb
    cases n <;> cases p <;> simp only [bindPattern] at h <;>
      try contradiction
    all_goals
      repeat' (split at h)
    all_goals
      first
        | (cases h; done)
        | (simp only [Option.some.injEq] at h
           subst h
           congr 1 <;>
             first
               | (refine hc _ ?_ _ _ (by assumption)
                  intro a ha
                  simp only [AST.children, List.mem_append]
                  tauto)
               | (refine hl _ ?_ _ _ (by assumption)
                  intro a ha
                  simp only [AST.children, List.mem_append]
                  tauto))

theorem structuralMatcher_cases (n p : AST) :
    (bindPattern n p = some n ∧ structuralMatcher n p = (true, n)) ∨
      (bindPattern n p = none ∧ structuralMatcher n p = (false, p)) := by
  unfold structuralMatcher
  cases h : bindPattern n p with
  | none => right; exact ⟨rfl, rfl⟩
  | some b =>
    left
    have hb := bindPattern_eq n p b h
    subst hb
    exact ⟨rfl, rfl⟩

theorem bindChild_unary (c : Option AST) :
    (∃ o e, c = some (.UnaryExpression o e) ∧
        bindChild c (some mk.UnaryExpression) = some c) ∨
      ((∀ o e, c ≠ some (.UnaryExpression o e)) ∧
        bindChild c (some mk.UnaryExpression) = none) := by
  cases c with
  | none => right; exact ⟨fun o e h => (nomatch h), rfl⟩
  | some a =>
    cases a with
    | UnaryExpression o e =>
      left
      refine ⟨o, e, rfl, ?_⟩
      cases e <;> rfl
    | _ =>
      right
      exact ⟨fun o e h => (nomatch h), rfl⟩

theorem bindPattern_negations (l r : Option AST) (o : Nat) :
    (∃ lo le ro re, l = some (.UnaryExpression lo le) ∧ r = some (.UnaryExpression ro re) ∧
        bindPattern (.BinaryExpression l o r)
          (mk.BinaryExpression mk.UnaryExpression mk.UnaryExpression)
          = some (.BinaryExpression l o r)) ∨
      ((¬ ∃ lo le ro re, l = some (.UnaryExpression lo le) ∧
          r = some (.UnaryExpression ro re)) ∧
        bindPattern (.BinaryExpression l o r)
          (mk.BinaryExpression mk.UnaryExpression mk.UnaryExpression) = none) := by
  simp only [mk.BinaryExpression, bindPattern]
  rcases bindChild_unary l with ⟨lo, le, hl, hbl⟩ | ⟨hl, hbl⟩
  · rcases bindChild_unary r with ⟨ro, re, hr, hbr⟩ | ⟨hr, hbr⟩
    · left
      exact ⟨lo, le, ro, re, hl, hr, by rw [hbl, hbr]⟩
    · right
      refine ⟨?_, by rw [hbl, hbr]⟩
      rintro ⟨lo1, le1, ro1, re1, -, h2⟩
      exact hr ro1 re1 h2
  · right
    refine ⟨?_, by rw [hbl]⟩
    rintro ⟨lo1, le1, ro1, re1, h1, -⟩
    exact hl lo1 le1 h1

theorem bindChild_condition (c : Option AST) (pts : List AST) (pd : Option AST)
    (b : Option AST) (h : bindChild c (some (.Condition pts pd)) = some b) :
    ∃ ts d, c = some (.Condition ts d) := by
  cases c with
  | none => exact nomatch h
  | some a =>
    cases a with
    | Condition ts d => exact ⟨ts, d, rfl⟩
    | _ => simp [bindChild, bindPattern] at h

theorem bindPattern_condition (n p b : AST) (pts : List AST) (pd : Option AST)
    (hp : p.condition = some (.Condition pts pd)) (h : bindPattern n p = some b) :
    ∃ ts d, n.condition = some (.Condition ts d) := by
  cases p <;> simp only [AST.condition] at hp <;> try (cases hp; done)
  all_goals
    subst hp
    cases n <;> simp only [bindPattern] at h <;> try contradiction
    all_goals
      repeat' (split at h)
      all_goals
        first
          | (cases h; done)
          | (rename_i h1 _
             exact bindChild_condition _ pts pd _ h1)
          | (rename_i h1 _ _
             exact bindChild_condition _ pts pd _ h1)

theorem RewriteLogicalAndOp.findExpression_spec (path : List AST) :
    ∀ k, k ≤ path.length →
      (∃ j e, j < k ∧ path[j]? = some e ∧ e.asBinaryExpression = some e ∧
          (∀ i n, j < i → i < k → path[i]? = some n → n.asBinaryExpression = none) ∧
          RewriteLogicalAndOp.findExpression path k = some ((j : Int), some e)) ∨
        ((∀ i n, i < k → path[i]? = some n → n.asBinaryExpression = none) ∧
          RewriteLogicalAndOp.findExpression path k = some (-1, none)) := by
  intro k
  induction k with
  | zero =>
    intro _
    right
    exact ⟨fun i n hi => absurd hi (Nat.not_lt_zero i), rfl⟩
  | succ k ih =>
    intro hk
    have hlt : k < path.length := hk
    have hget : path[k]? = some path[k] := List.getElem?_eq_getElem hlt
    unfold RewriteLogicalAndOp.findExpression
    rw [hget]
    simp only
    cases has : (path[k]).asBinaryExpression with
    | some e =>
      left
      have he : e = path[k] := by
        cases hn : path[k] <;> rw [hn] at has <;>
          simp only [AST.asBinaryExpression, Option.some.injEq] at has <;>
          first | exact has.symm | contradiction
      subst he
      refine ⟨k, path[k], Nat.lt_succ_self k, hget, has, ?_, rfl⟩
      intro i n h1 h2 _
      omega
    | none =>
      simp only
      rcases ih (Nat.le_of_lt hlt) with ⟨j, e, hj, hje, hee, hnone, hfind⟩ | ⟨hnone, hfind⟩
      · left
        refine ⟨j, e, Nat.lt_succ_of_lt hj, hje, hee, ?_, hfind⟩
        intro i n h1 h2 hin
        by_cases hik : i = k
        · subst hik
          rw [hget] at hin
          simp only [Option.some.injEq] at hin
          rw [← hin]; exact has
        · exact hnone i n h1 (by omega) hin
      · right
        refine ⟨?_, hfind⟩
        intro i n h2 hin
        by_cases hik : i = k
        · subst hik
          rw [hget] at hin
          simp only [Option.some.injEq] at hin
          rw [← hin]; exact has
        · exact hnone i n (by omega) hin

theorem AST.asBinaryExpression_eq_self (e : AST) (h : e.asBinaryExpression.isSome = true) :
    e.asBinaryExpression = some e ∧ ∃ l o r, e = .BinaryExpression l o r := by
  cases e <;> simp only [AST.asBinaryExpression, Option.isSome] at h <;>
    first
      | (cases h; done)
      | exact ⟨rfl, _, _, _, rfl⟩

theorem RewriteLogicalAndOp.rewrite_match_found (doc : Document) (tc : TextCursor)
    (self : RewriteLogicalAndOp) (path : List AST) (j : Nat) (e : AST)
    (hfind : RewriteLogicalAndOp.findExpression path path.length = some ((j : Int), some e))
    (hbin : e.asBinaryExpression.isSome = true) :
    (RewriteLogicalAndOp.applies doc tc e ∧
        RewriteLogicalAndOp.match_ doc tc structuralMatcher self path
          = some ((j : Int),
              { left := e.left_expression, right := e.right_expression, pattern := some e })) ∨
      (¬ RewriteLogicalAndOp.applies doc tc e ∧
        ∃ self1, RewriteLogicalAndOp.match_ doc tc structuralMatcher self path
          = some (-1, self1)) := by
  obtain ⟨-, l, o, r, rfl⟩ := AST.asBinaryExpression_eq_self e hbin
  unfold RewriteLogicalAndOp.match_
  rw [hfind]
  simp only [AST.binary_op_token]
  by_cases hcur : QuickFixOperation.isCursorOn doc tc o = true
  · simp only [hcur, Bool.not_true, Bool.false_eq_true, if_false]
    rcases bindPattern_negations l r o with ⟨lo, le, ro, re, hl, hr, hb⟩ | ⟨hno, hb⟩
    · have hm : structuralMatcher (.BinaryExpression l o r)
          (mk.BinaryExpression mk.UnaryExpression mk.UnaryExpression)
          = (true, .BinaryExpression l o r) := by
        unfold structuralMatcher; rw [hb]
      rw [hm]
      subst hl hr
      simp only [AST.binary_op_token, AST.left_expression, AST.right_expression,
        Option.map_some', Option.getD_some, AST.unary_op_token, Bool.true_and]
      by_cases hk : (doc.tokenAt o).kind = Kind.T_AMPER_AMPER ∧
          (doc.tokenAt lo).kind = Kind.T_EXCLAIM ∧ (doc.tokenAt ro).kind = Kind.T_EXCLAIM
      · left
        obtain ⟨h1, h2, h3⟩ := hk
        refine ⟨⟨hcur, h1, lo, le, ro, re, rfl, rfl, h2, h3⟩, ?_⟩
        simp [Token.is, h1, h2, h3]
      · right
        refine ⟨?_, ?_⟩
        · rintro ⟨-, h1, lo1, le1, ro1, re1, hl1, hr1, h2, h3⟩
          simp only [AST.left_expression, AST.right_expression, Option.some.injEq,
            AST.UnaryExpression.injEq] at hl1 hr1
          obtain ⟨rfl, -⟩ := hl1
          obtain ⟨rfl, -⟩ := hr1
          exact hk ⟨h1, h2, h3⟩
        · have hf : ((doc.tokenAt o).is Kind.T_AMPER_AMPER &&
              (doc.tokenAt lo).is Kind.T_EXCLAIM && (doc.tokenAt ro).is Kind.T_EXCLAIM)
              = false := by
            simp only [Token.is, Bool.and_eq_false_iff, decide_eq_false_iff_not]
            by_contra hcon
            push_neg at hcon
            exact hk ⟨hcon.1.1, hcon.1.2, hcon.2⟩
          simp only [hf, Bool.false_eq_true, if_false]
          exact ⟨_, rfl⟩
    · have hm : structuralMatcher (.BinaryExpression l o r)
          (mk.BinaryExpression mk.UnaryExpression mk.UnaryExpression)
          = (false, mk.BinaryExpression mk.UnaryExpression mk.UnaryExpression) := by
        unfold structuralMatcher; rw [hb]
      rw [hm]
      right
      refine ⟨?_, ?_⟩
      · rintro ⟨-, -, lo1, le1, ro1, re1, hl1, hr1, -, -⟩
        exact hno ⟨lo1, le1, ro1, re1, hl1, hr1⟩
      · simp only [Bool.false_and, Bool.false_eq_true, if_false]
        exact ⟨_, rfl⟩
  · right
    refine ⟨fun h => hcur h.1, ?_⟩
    simp only [hcur, Bool.not_false, if_true]
    exact ⟨_, rfl⟩

/-! ## The tree locator -/

/-- C1: for every tree and every query position, the chain returned by `ASTPath` consists
of exactly those occurrences of nodes for which the node itself and each of its ancestors
passes the inclusion test of `preVisit` (first token above 0, last token after the first,
position at or after the start of the first token and strictly before the end of the token
`lastToken - 1`), and it lists them in pre-order. -/
theorem ASTPath_run_eq_included_occurrences (doc : Document) (cursor : TextCursor) :
    ASTPath.run doc cursor
      = ((occurrencesOpt doc.ast).filter (fun c => decide (∀ n ∈ c,
            spanContains doc (cursor.blockNumber + 1) (cursor.columnNumber + 1) n))).filterMap
          List.getLast? := by
  rw [ASTPath.run_eq_acceptOpt]
  cases h : doc.ast with
  | none => simp [ASTPath.acceptOpt, occurrencesOpt]
  | some t =>
    simp only [ASTPath.acceptOpt, occurrencesOpt]
    rw [ASTPath.accept_eq_select]
    unfold selectOccurrences
    congr 1
    apply List.filter_congr
    intro c _
    rw [Bool.eq_iff_iff]
    simp only [List.all_eq_true, decide_eq_true_eq, ASTPath.preVisit_iff]

/-- C2, as stated, fails: in the chain for the position of `a` in `a * b;` the type
specifier `a` of the declaration reading is followed by the expression statement of the
expression reading, which it does not contain. -/
theorem ASTPath_chain_not_nested_example :
    ¬ List.Chain' AST.isAncestorOf (ASTPath.run mulDocument (exampleCursor 0)) := by
  have h : ASTPath.run mulDocument (exampleCursor 0)
      = [mulStatement, mulDeclaration, .Other 1 [1] [], mulExpression,
          .BinaryExpression (some (.Other 4 [1] [])) 2 (some (.Other 4 [3] [])),
          .Other 4 [1] []] := by rfl
  rw [h]
  intro hc
  have h2 := hc.tail.tail.rel_head
  simp [AST.isAncestorOf, AST.children] at h2

/-- C2, amended: when no node of the tree has two children that both pass the inclusion
test at the query position, the chain returned by `ASTPath` starts at the root of the tree
and every node in it is the parent of the node that follows it. -/
theorem ASTPath_chain_nested_of_exclusive (doc : Document) (cursor : TextCursor)
    (hex : ∀ m ∈ nodesOpt doc.ast,
      (m.children.filter
        (ASTPath.preVisit doc (cursor.blockNumber + 1) (cursor.columnNumber + 1))).length ≤ 1) :
    List.Chain' (fun a b => b ∈ a.children) (ASTPath.run doc cursor) ∧
      ∀ n, (ASTPath.run doc cursor).head? = some n → doc.ast = some n := by
  rw [ASTPath.run_eq_acceptOpt]
  cases h : doc.ast with
  | none => simp [ASTPath.acceptOpt]
  | some t =>
    rw [h] at hex
    simp only [ASTPath.acceptOpt]
    refine ⟨ASTPath.accept_chain_of_exclusive doc _ _ t hex, ?_⟩
    intro n hn
    rcases ASTPath.accept_head doc (cursor.blockNumber + 1) (cursor.columnNumber + 1) t
      with h0 | ⟨rest, h1⟩
    · rw [h0] at hn; simp at hn
    · rw [h1] at hn
      simp only [List.head?_cons, Option.some.injEq] at hn
      rw [hn]

/-- Witness of `ASTPath_chain_nested_of_exclusive`: the position of `&&` in
`if (!a && !b) { x(); }`, which the if-statement and its condition contain. -/
theorem ASTPath_chain_nested_of_exclusive_witness :
    (∀ m ∈ nodesOpt ifAndDocument.ast,
      (m.children.filter (ASTPath.preVisit ifAndDocument ((exampleCursor 7).blockNumber + 1)
        ((exampleCursor 7).columnNumber + 1))).length ≤ 1) ∧
    (List.Chain' (fun a b => b ∈ a.children) (ASTPath.run ifAndDocument (exampleCursor 7)) ∧
      ∀ n, (ASTPath.run ifAndDocument (exampleCursor 7)).head? = some n →
        ifAndDocument.ast = some n) :=
  ⟨by decide, ASTPath_chain_nested_of_exclusive ifAndDocument (exampleCursor 7) (by decide)⟩

/-- C3: when the query position lies outside the token span of every node of the tree,
`ASTPath` returns the empty chain. -/
theorem ASTPath_run_nil_of_outside (doc : Document) (cursor : TextCursor)
    (hout : ∀ n ∈ nodesOpt doc.ast,
      ¬ spanContains doc (cursor.blockNumber + 1) (cursor.columnNumber + 1) n) :
    ASTPath.run doc cursor = [] := by
  rw [ASTPath.run_eq_acceptOpt]
  cases h : doc.ast with
  | none => simp [ASTPath.acceptOpt]
  | some t =>
    rw [h] at hout
    simp only [ASTPath.acceptOpt]
    apply ASTPath.accept_of_not_preVisit
    have hroot := hout t (AST.mem_nodes_self t)
    rw [← ASTPath.preVisit_iff] at hroot
    simpa using hroot

/-- Witness of `ASTPath_run_nil_of_outside`: the position after the text `a`. -/
theorem ASTPath_run_nil_of_outside_witness :
    (∀ n ∈ nodesOpt nameDocument.ast,
      ¬ spanContains nameDocument ((exampleCursor 1).blockNumber + 1)
        ((exampleCursor 1).columnNumber + 1) n) ∧
    ASTPath.run nameDocument (exampleCursor 1) = [] :=
  ⟨by decide, ASTPath_run_nil_of_outside nameDocument (exampleCursor 1) (by decide)⟩

/-- C4, as stated, fails: the name `a` spans exactly one token (its last token is its
first token plus one) and is in the chain for the position of `a`. -/
theorem ASTPath_one_token_node_included :
    nameDocument.lastToken (.Other 4 [1] []) = nameDocument.firstToken (.Other 4 [1] []) + 1 ∧
    AST.Other 4 [1] [] ∈ ASTPath.run nameDocument (exampleCursor 0) := by
  constructor
  · decide
  · have h : ASTPath.run nameDocument (exampleCursor 0) = [.Other 4 [1] []] := by rfl
    rw [h]
    exact List.mem_singleton_self _

/-- C4, amended: a node without tokens (its last token is not after its first, or its
first token is token 0) never appears in the chain; a node of exactly one token passes the
inclusion test exactly when its first token is not token 0 and the position lies in that
token, from its start up to but excluding its end. -/
theorem ASTPath_skips_tokenless_nodes (doc : Document) (cursor : TextCursor) (n : AST) :
    ((doc.lastToken n ≤ doc.firstToken n ∨ doc.firstToken n = 0) →
      n ∉ ASTPath.run doc cursor) ∧
    (doc.lastToken n = doc.firstToken n + 1 →
      (ASTPath.preVisit doc (cursor.blockNumber + 1) (cursor.columnNumber + 1) n = true ↔
        0 < doc.firstToken n ∧
        ((doc.getTokenStartPosition (doc.firstToken n)).1 < cursor.blockNumber + 1 ∨
          ((doc.getTokenStartPosition (doc.firstToken n)).1 = cursor.blockNumber + 1 ∧
            (doc.getTokenStartPosition (doc.firstToken n)).2 ≤ cursor.columnNumber + 1)) ∧
        (cursor.blockNumber + 1 < (doc.getTokenEndPosition (doc.firstToken n)).1 ∨
          (cursor.blockNumber + 1 = (doc.getTokenEndPosition (doc.firstToken n)).1 ∧
            cursor.columnNumber + 1 < (doc.getTokenEndPosition (doc.firstToken n)).2)))) := by
  constructor
  · intro h hmem
    rw [ASTPath.run_eq_acceptOpt] at hmem
    cases hast : doc.ast with
    | none => rw [hast] at hmem; simp [ASTPath.acceptOpt] at hmem
    | some t =>
      rw [hast] at hmem
      simp only [ASTPath.acceptOpt] at hmem
      have hp := ASTPath.mem_accept_preVisit doc _ _ t n hmem
      rw [ASTPath.preVisit_iff] at hp
      obtain ⟨h1, h2, -, -⟩ := hp
      rcases h with h | h <;> omega
  · intro h
    rw [ASTPath.preVisit_iff]
    unfold spanContains
    rw [h]
    simp only [Nat.add_sub_cancel, Nat.lt_succ_self, true_and]

/-- Witness of `ASTPath_skips_tokenless_nodes`: a node without tokens below the name `a`
would not be listed, and the one-token name `a` passes the inclusion test at its start. -/
theorem ASTPath_skips_tokenless_nodes_witness :
    AST.Other 9 [] [] ∉ ASTPath.run nameDocument (exampleCursor 0) ∧
    ASTPath.preVisit nameDocument ((exampleCursor 0).blockNumber + 1)
      ((exampleCursor 0).columnNumber + 1) (.Other 4 [1] []) = true :=
  ⟨(ASTPath_skips_tokenless_nodes nameDocument (exampleCursor 0) (.Other 9 [] [])).1
      (by decide),
    ((ASTPath_skips_tokenless_nodes nameDocument (exampleCursor 0) (.Other 4 [1] [])).2
      (by decide)).2 (by decide)⟩

/-! ## The collector -/

/-- C5: for every non-empty chain on a fresh collector (no fixes retained), after
`startCompletion` the offered list consists of exactly those registered operations whose
`match` returned the greatest priority among all operations that matched, in registration
order.  `results` lists what the `match` of each registered operation returned. -/
theorem startCompletion_offers_greatest_priority (matcher : ASTMatcher)
    (c : CPPQuickFixCollector) (editor : CPPEditor) (doc : Document)
    (results : List (Int × QuickFixOperation))
    (hfresh : c._quickFixes = [])
    (hrev : editor.semanticInfo.revision = editor.revision)
    (hdoc : editor.semanticInfo.doc = some doc)
    (hpath : (ASTPath.run doc editor.textCursor).isEmpty = false)
    (hres : List.Forall₂
      (fun op r => (op.prepare doc editor).match_ matcher
        (ASTPath.run doc editor.textCursor) = some r)
      CPPQuickFixCollector.candidates results) :
    ∃ ret c1, c.startCompletion matcher editor = some (ret, c1) ∧
      c1._quickFixes
        = (results.filter (fun r => decide (r.1 ≠ -1 ∧
              ∀ q ∈ results, q.1 ≠ -1 → q.1 ≤ r.1))).map Prod.snd := by
  have hm := CPPQuickFixCollector.matchCandidates_eq matcher doc editor
    (ASTPath.run doc editor.textCursor) _ results hres []
  have hfin : ∀ (self : CPPQuickFixCollector) (L : List QuickFixOperation),
      self._quickFixes = L →
      ∃ ret c1, (if (! self._quickFixes.isEmpty) = true then some (editor.position, self)
          else some (-1, self)) = some (ret, c1) ∧ c1._quickFixes = L := by
    intro self L hL
    split_ifs
    · exact ⟨_, _, rfl, hL⟩
    · exact ⟨_, _, rfl, hL⟩
  unfold CPPQuickFixCollector.startCompletion
  simp only [hrev, ne_eq, not_true_eq_false, if_false, hdoc, hpath, Bool.false_eq_true, hm]
  apply hfin
  rw [QMap.back_build]
  by_cases hemp : (results.filter (fun r => decide (r.1 ≠ -1))).isEmpty = true
  · have hnil : results.filter (fun r => decide (r.1 ≠ -1)) = [] := List.isEmpty_iff.1 hemp
    have hall := List.filter_eq_nil_iff.1 hnil
    have hrhs : results.filter (fun r => decide (r.1 ≠ -1 ∧
        ∀ q ∈ results, q.1 ≠ -1 → q.1 ≤ r.1)) = [] := by
      rw [List.filter_eq_nil_iff]
      intro r hr
      have := hall r hr
      simp only [decide_eq_true_eq] at this ⊢
      exact fun h => this h.1
    rw [if_pos hemp, hrhs]
    exact hfresh
  · rw [if_neg hemp, QMap.filter_greatest_of_matched results _ rfl]

/-- Witness of `startCompletion_offers_greatest_priority`: the request on
`if (!a && !b) { x(); }` with the cursor before `&&`. -/
theorem startCompletion_offers_greatest_priority_witness :
    ∃ ret c1, freshCollector.startCompletion structuralMatcher ifAndEditor = some (ret, c1) ∧
      c1._quickFixes
        = (ifAndResults.filter (fun r => decide (r.1 ≠ -1 ∧
              ∀ q ∈ ifAndResults, q.1 ≠ -1 → q.1 ≤ r.1))).map Prod.snd :=
  startCompletion_offers_greatest_priority structuralMatcher freshCollector ifAndEditor
    ifAndDocument ifAndResults rfl rfl rfl rfl
    (List.forall₂_filterMap_of_isSome _ _ (by decide))

/-- C6, as stated, fails: on the collector that retains the two fixes of an earlier
request on `if (!a && !b) { x(); }`, a request made after an edit of the buffer that
the semantic information has not caught up with returns -1, yet the two retained fixes
stay in the list and `completions` offers them. -/
theorem startCompletion_stale_keeps_retained_fixes :
    staleEditor.semanticInfo.revision ≠ staleEditor.revision ∧
      (retainingCollector.startCompletion structuralMatcher staleEditor).map
          (fun r => (r.1, r.2.completions []))
        = some (-1, [⟨"Rewrite condition using ||", 0⟩, ⟨"Split if statement", 1⟩]) := by
  constructor
  · decide
  · decide

/-- C6, amended: whenever the revision of the semantic information differs from the
revision of the editor's document, `startCompletion` returns -1 and adds no fix: the list
of fixes is what it was before the call, empty on a collector that retained none (a fresh
collector, or one after `cleanup`).  The result does not depend on the tree, the cursor or
the matcher: no `match` is evaluated. -/
theorem startCompletion_stale (matcher : ASTMatcher) (c : CPPQuickFixCollector)
    (editor : CPPEditor) (hstale : editor.semanticInfo.revision ≠ editor.revision) :
    c.startCompletion matcher editor
        = some (-1, { _editor := true, _quickFixes := c._quickFixes }) ∧
      (c._quickFixes = [] →
        c.startCompletion matcher editor = some (-1, { _editor := true, _quickFixes := [] })) := by
  have h : c.startCompletion matcher editor
      = some (-1, { _editor := true, _quickFixes := c._quickFixes }) := by
    unfold CPPQuickFixCollector.startCompletion
    simp only [ne_eq, hstale, not_false_eq_true, if_true]
  refine ⟨h, fun hq => ?_⟩
  rw [h, hq]

/-- Witness of `startCompletion_stale`: the buffer of `if (!a && !b) { x(); }` edited after
the last parse. -/
theorem startCompletion_stale_witness :
    freshCollector.startCompletion structuralMatcher staleEditor
      = some (-1, { _editor := true, _quickFixes := [] }) :=
  (startCompletion_stale structuralMatcher freshCollector staleEditor (by decide)).2 rfl

/-- C7, as stated, fails: on a collector that retains the two fixes of an earlier request,
a request on the text `a`, where no registered operation matches, returns the position 0
instead of -1 and leaves the two retained fixes in the list of offered actions. -/
theorem startCompletion_no_match_keeps_retained_fixes :
    noOperationMatches structuralMatcher nameDocument2 nameEditor
        (ASTPath.run nameDocument2 nameEditor.textCursor) ∧
      (retainingCollector.startCompletion structuralMatcher nameEditor).map
          (fun r => (r.1, r.2._quickFixes.map QuickFixOperation.description))
        = some (0, ["Rewrite condition using ||", "Split if statement"]) := by
  constructor
  · unfold noOperationMatches
    decide
  · decide

/-- C7, amended: for every state of the collector that retains no fixes (a fresh collector,
or one after `cleanup`), if no registered operation matches the current chain then
`startCompletion` returns -1 and the list of offered actions is empty. -/
theorem startCompletion_no_match_of_clean (matcher : ASTMatcher) (c : CPPQuickFixCollector)
    (editor : CPPEditor) (doc : Document)
    (hclean : c._quickFixes = [])
    (hdoc : editor.semanticInfo.doc = some doc)
    (hno : noOperationMatches matcher doc editor (ASTPath.run doc editor.textCursor)) :
    c.startCompletion matcher editor = some (-1, { _editor := true, _quickFixes := [] }) := by
  have hm := CPPQuickFixCollector.matchCandidates_none matcher doc editor
    (ASTPath.run doc editor.textCursor) CPPQuickFixCollector.candidates hno []
  unfold CPPQuickFixCollector.startCompletion
  simp only [hdoc, hm, QMap.back, List.getLast?_nil, Option.map_none', hclean,
    List.isEmpty_nil, Bool.not_true, Bool.false_eq_true, if_false]
  split_ifs <;> rfl

/-- Witness of `startCompletion_no_match_of_clean`: a request on the text `a`. -/
theorem startCompletion_no_match_of_clean_witness :
    freshCollector.startCompletion structuralMatcher nameEditor
      = some (-1, { _editor := true, _quickFixes := [] }) :=
  startCompletion_no_match_of_clean structuralMatcher freshCollector nameEditor nameDocument2
    rfl rfl (by unfold noOperationMatches; decide)

/-- What `createChangeSet()` leaves untouched: the fields of the class, the document and
the text cursor. -/
theorem QuickFixOperation.createChangeSet_keeps (op r : QuickFixOperation)
    (h : op.createChangeSet = some r) :
    r.fields = op.fields ∧ r._document = op._document ∧ r._textCursor = op._textCursor := by
  unfold QuickFixOperation.createChangeSet at h
  split at h
  · simp only [Option.map_eq_some'] at h
    obtain ⟨e, _, rfl⟩ := h
    exact ⟨rfl, rfl, rfl⟩
  · simp at h

/-- What `applyChangeSet()` leaves untouched: the fields of the class, the document, the
top-level node and the change set. -/
theorem QuickFixOperation.applyChangeSet_keeps (op r : QuickFixOperation)
    (h : op.applyChangeSet = some r) :
    r.fields = op.fields ∧ r._document = op._document ∧
      r._topLevelNode = op._topLevelNode ∧ r._changeSet = op._changeSet := by
  unfold QuickFixOperation.applyChangeSet at h
  split at h
  · simp at h
  · split at h
    · simp at h
    · simp only [Option.map_eq_some'] at h
      obtain ⟨e, _, rfl⟩ := h
      exact ⟨rfl, rfl, rfl, rfl⟩

/-- The operation `perform` returns is the one it was given, as far as the fields of the
class and the document go. -/
theorem CPPQuickFixCollector.perform_keeps (self : CPPQuickFixCollector) (editor : CPPEditor)
    (op r : QuickFixOperation) (h : self.perform editor op = some r) :
    r.fields = op.fields ∧ r._document = op._document := by
  unfold CPPQuickFixCollector.perform at h
  split at h
  · simp only at h
    cases h1 : QuickFixOperation.createChangeSet
        { op with _textCursor := some editor.textCursor } with
    | none => rw [h1] at h; simp at h
    | some op1 =>
      rw [h1] at h
      obtain ⟨a1, a2, _⟩ := QuickFixOperation.createChangeSet_keeps _ _ h1
      obtain ⟨b1, b2, _⟩ := QuickFixOperation.applyChangeSet_keeps _ _ h
      exact ⟨b1.trans a1, b2.trans a2⟩
  · simp at h

/-- The collector after cleanup retains no fixes, so the amended C7 applies to it. -/
theorem cleanup_quickFixes (c : CPPQuickFixCollector) : c.cleanup._quickFixes = [] := rfl

/-- C8, as stated, fails: after a request on `if (!a && !b) { x(); }` at revision 1 and
an edit of the buffer, `complete` applies the first offered operation, matched against the
document of revision 1, to the buffer at revision 2. -/
theorem complete_applies_operation_after_bufferEdit :
    (Session.run structuralMatcher { editor := ifAndEditor, collector := freshCollector }
        [.startCompletion, .bufferEdit, .complete 0]).map
      (fun r => r.2.map (fun a =>
        (a.1.description, a.1._document.map Document.revision, a.2)))
      = some [("Rewrite condition using ||", some 1, 2)] := by
  decide

/-- C8, amended: `complete` compares no revisions; the comparison is made when fixes are
collected.  When `startCompletion` runs on a collector without retained fixes and
`complete` follows with no edit of the buffer in between, every operation `complete`
applies was matched against a document whose revision is the current revision of the
buffer (the document of the semantic information carrying the revision of that
information). -/
theorem complete_after_startCompletion_is_current (matcher : ASTMatcher) (s s1 : Session)
    (index : Int) (applied : List (QuickFixOperation × Nat))
    (hclean : s.collector._quickFixes = [])
    (hinfo : ∀ d, s.editor.semanticInfo.doc = some d →
      d.revision = s.editor.semanticInfo.revision)
    (hrun : Session.run matcher s [.startCompletion, .complete index] = some (s1, applied)) :
    ∀ a ∈ applied, a.1._document.map Document.revision = some a.2 := by
  simp only [Session.run, Session.step] at hrun
  cases hstart : s.collector.startCompletion matcher s.editor with
  | none => rw [hstart] at hrun; simp at hrun
  | some r =>
    obtain ⟨ret, c1⟩ := r
    rw [hstart] at hrun
    simp only [Option.map_some'] at hrun
    have hdocs := CPPQuickFixCollector.startCompletion_documents matcher s.collector c1
      s.editor ret hclean hstart
    cases hcomp : c1.complete s.editor index with
    | none => rw [hcomp] at hrun; simp at hrun
    | some ops =>
      rw [hcomp] at hrun
      simp only [Option.map_some', List.nil_append, List.append_nil, Option.some.injEq,
        Prod.mk.injEq] at hrun
      intro a ha
      rw [← hrun.2] at ha
      obtain ⟨op, hop, rfl⟩ := List.mem_map.1 ha
      simp only
      unfold CPPQuickFixCollector.complete at hcomp
      split at hcomp
      · split at hcomp
        · simp at hcomp
        · split at hcomp
          · simp at hcomp
          · rename_i quickFix hq
            simp only [Option.map_eq_some'] at hcomp
            obtain ⟨r, hr, hops⟩ := hcomp
            rw [← hops] at hop
            simp only [List.mem_singleton] at hop
            obtain ⟨doc, hd1, hd2, hrev⟩ := hdocs quickFix (List.getElem?_mem hq)
            rw [hop, (CPPQuickFixCollector.perform_keeps _ _ _ _ hr).2]
            simp only [hd2, Option.map_some', Option.some.injEq]
            rw [hinfo doc hd1, hrev]
      · simp only [Option.some.injEq] at hcomp
        rw [← hcomp] at hop
        simp at hop

/-- Witness of `complete_after_startCompletion_is_current`: the request on
`if (!a && !b) { x(); }` followed at once by the completion of its first item; the
operation applied was matched against the document of the buffer's revision. -/
theorem complete_after_startCompletion_is_current_witness :
    ifAndApplied.1._document.map Document.revision = some ifAndApplied.2 :=
  complete_after_startCompletion_is_current structuralMatcher
    { editor := ifAndEditor, collector := freshCollector } ifAndCompletion.1 0
    ifAndCompletion.2 rfl (by intro d hd; cases hd; rfl) rfl ifAndApplied
    (List.Mem.head [])

/-! ## The rules -/

/-- Every priority a rule returns is the sentinel -1 or the index of a node of the chain
that is of the anchor class of the rule (the part of C9 that holds whenever `match`
returns). -/
theorem match_priority_valid (matcher : ASTMatcher) (op op1 : QuickFixOperation)
    (path : List AST) (r : Int) (h : op.match_ matcher path = some (r, op1)) :
    validPriority op.fields path r :=
  QuickFixOperation.operation_match_valid matcher op op1 path r h

/-- C9 at the failing input: for the incomplete text `if (x)` with the cursor on `if`,
the chain is not empty and `AddBracesToIfOp::match` returns nothing, neither -1 nor an
index: it dereferences the null body of the if-statement. -/
theorem addBraces_match_fails_without_body :
    (ASTPath.run noBodyDocument (exampleCursor 0)).isEmpty = false ∧
      (AddBracesToIfOp.match_ noBodyDocument (exampleCursor 0) { _statement := none }
        (ASTPath.run noBodyDocument (exampleCursor 0))).isNone = true := by
  decide

/-- C10: calling `match` twice on the same operation object with an unchanged chain,
cursor and document returns the same priority, whatever fields the first call left
behind. -/
theorem match_twice_same_priority (matcher : ASTMatcher) (op op1 : QuickFixOperation)
    (path : List AST) (r : Int) (h : op.match_ matcher path = some (r, op1)) :
    (op1.match_ matcher path).map Prod.fst = some r := by
  obtain ⟨hcls, hdoc, htc⟩ := QuickFixOperation.match_shape matcher op op1 path r h
  rw [QuickFixOperation.operation_match_fields matcher op1 op path hcls hdoc htc, h]
  rfl

/-- Witness of `match_twice_same_priority`: the rule rewrite-logical-and on
`if (!a && !b) { x(); }` with the cursor before `&&` returns priority 1, twice. -/
theorem match_twice_same_priority_witness :
    (ifAndRewriteResult.2.match_ structuralMatcher
        (ASTPath.run ifAndDocument ifAndEditor.textCursor)).map Prod.fst = some 1 :=
  match_twice_same_priority structuralMatcher ifAndRewriteOp ifAndRewriteResult.2
    (ASTPath.run ifAndDocument ifAndEditor.textCursor) 1 rfl

/-! ## Rule rewrite-logical-and -/

/-- C11: with the structural matcher, `RewriteLogicalAndOp::match` always returns; it
returns the index of the innermost binary expression of the chain iff the cursor is on the
operator token of that expression, the token is `&&` and both operands are unary
expressions whose operator token is `!`; otherwise, and on a chain without a binary
expression, it returns -1. -/
theorem rewriteLogicalAnd_match_iff (doc : Document) (tc : TextCursor)
    (self : RewriteLogicalAndOp) (path : List AST) :
    ∃ r self1, RewriteLogicalAndOp.match_ doc tc structuralMatcher self path = some (r, self1) ∧
      ((∀ (i : Nat) (n : AST), path[i]? = some n → n.asBinaryExpression = none) → r = -1) ∧
      (∀ (j : Nat) (e : AST), path[j]? = some e → e.asBinaryExpression.isSome = true →
        (∀ (i : Nat) (n : AST), j < i → path[i]? = some n → n.asBinaryExpression = none) →
        (r = (j : Int) ↔ RewriteLogicalAndOp.applies doc tc e) ∧ (r = (j : Int) ∨ r = -1)) := by
  rcases RewriteLogicalAndOp.findExpression_spec path path.length (Nat.le_refl _) with
    ⟨j0, e0, hj0, hje0, hee0, hnone0, hfind⟩ | ⟨hnone0, hfind⟩
  · have hbin0 : e0.asBinaryExpression.isSome = true := by rw [hee0]; rfl
    have huniq : ∀ (j : Nat) (e : AST), path[j]? = some e → e.asBinaryExpression.isSome = true →
        (∀ (i : Nat) (n : AST), j < i → path[i]? = some n → n.asBinaryExpression = none) →
        j = j0 ∧ e = e0 := by
      intro j e hje hbin hnone
      have hjlt : j < path.length := (List.getElem?_eq_some.1 hje).1
      have hjeq : j = j0 := by
        rcases Nat.lt_trichotomy j j0 with h | h | h
        · have := hnone j0 e0 h hje0
          rw [hee0] at this; cases this
        · exact h
        · have := hnone0 j e h hjlt hje
          rw [this] at hbin; cases hbin
      subst hjeq
      rw [hje0] at hje
      exact ⟨rfl, (Option.some.inj hje).symm⟩
    rcases RewriteLogicalAndOp.rewrite_match_found doc tc self path j0 e0 hfind hbin0 with
      ⟨happ, hm⟩ | ⟨happ, self1, hm⟩
    · refine ⟨_, _, hm, ?_, ?_⟩
      · intro hall
        have := hall j0 e0 hje0
        rw [hee0] at this; cases this
      · intro j e hje hbin hnone
        obtain ⟨rfl, rfl⟩ := huniq j e hje hbin hnone
        exact ⟨⟨fun _ => happ, fun _ => rfl⟩, Or.inl rfl⟩
    · refine ⟨_, _, hm, fun _ => rfl, ?_⟩
      intro j e hje hbin hnone
      obtain ⟨rfl, rfl⟩ := huniq j e hje hbin hnone
      refine ⟨⟨fun h => ?_, fun h => absurd h happ⟩, Or.inr rfl⟩
      have : (0 : Int) ≤ (j : Int) := Int.natCast_nonneg j
      omega
  · have hm : RewriteLogicalAndOp.match_ doc tc structuralMatcher self path = some (-1, self) := by
      unfold RewriteLogicalAndOp.match_
      rw [hfind]
    refine ⟨_, _, hm, fun _ => rfl, ?_⟩
    intro j e hje hbin _
    have hjlt : j < path.length := (List.getElem?_eq_some.1 hje).1
    have := hnone0 j e hjlt hje
    rw [this] at hbin; cases hbin

/-- Witness of `rewriteLogicalAnd_match_iff`: on `if (!a && !b) { x(); }` with the cursor
before `&&` the rule applies to the condition, the innermost binary expression, at index 1
of the chain. -/
theorem rewriteLogicalAnd_match_iff_witness :
    RewriteLogicalAndOp.applies ifAndDocument (exampleCursorIn ifAndText 7) ifAndCondition := by
  obtain ⟨r, self1, hm, -, h⟩ := rewriteLogicalAnd_match_iff ifAndDocument
    (exampleCursorIn ifAndText 7) ⟨none, none, none⟩
    (ASTPath.run ifAndDocument (exampleCursorIn ifAndText 7))
  have hr : r = 1 := by
    have h1 : (RewriteLogicalAndOp.match_ ifAndDocument (exampleCursorIn ifAndText 7)
        structuralMatcher ⟨none, none, none⟩
        (ASTPath.run ifAndDocument (exampleCursorIn ifAndText 7))).map Prod.fst = some 1 := by
      decide
    rw [hm] at h1
    simpa using h1
  exact ((h 1 ifAndCondition rfl rfl (by
    intro i n hi hn
    have h2 : ASTPath.run ifAndDocument (exampleCursorIn ifAndText 7)
        = [ifAndStatement, ifAndCondition] := rfl
    rw [h2] at hn
    have hlt : i < 2 := (List.getElem?_eq_some.1 hn).1
    omega)).1).1 hr

theorem RewriteLogicalAndOp.rewrite_match_success (doc : Document) (tc : TextCursor)
    (self self1 : RewriteLogicalAndOp) (path : List AST) (r : Int)
    (hmatch : RewriteLogicalAndOp.match_ doc tc structuralMatcher self path = some (r, self1))
    (hr : r ≠ -1) :
    ∃ lo le o ro re, path[r.toNat]?
        = some (.BinaryExpression (some (.UnaryExpression lo le)) o
            (some (.UnaryExpression ro re))) ∧
      self1 = { left := some (.UnaryExpression lo le), right := some (.UnaryExpression ro re),
                pattern := some (.BinaryExpression (some (.UnaryExpression lo le)) o
                  (some (.UnaryExpression ro re))) } := by
  rcases RewriteLogicalAndOp.findExpression_spec path path.length (Nat.le_refl _) with
    ⟨j0, e0, hj0, hje0, hee0, hnone0, hfind⟩ | ⟨hnone0, hfind⟩
  · have hbin0 : e0.asBinaryExpression.isSome = true := by rw [hee0]; rfl
    rcases RewriteLogicalAndOp.rewrite_match_found doc tc self path j0 e0 hfind hbin0 with
      ⟨happ, hm⟩ | ⟨happ, self2, hm⟩
    · rw [hm] at hmatch
      simp only [Option.some.injEq, Prod.mk.injEq] at hmatch
      obtain ⟨hr1, hs1⟩ := hmatch
      obtain ⟨-, -, lo, le, ro, re, hl, hrr, -, -⟩ := happ
      obtain ⟨-, l, o, r0, rfl⟩ := AST.asBinaryExpression_eq_self e0 hbin0
      simp only [AST.left_expression, AST.right_expression] at hl hrr
      subst hl hrr
      refine ⟨lo, le, o, ro, re, ?_, ?_⟩
      · rw [← hr1]; simpa using hje0
      · rw [← hs1]; rfl
    · rw [hm] at hmatch
      simp only [Option.some.injEq, Prod.mk.injEq] at hmatch
      exact absurd hmatch.1.symm hr
  · have hm : RewriteLogicalAndOp.match_ doc tc structuralMatcher self path = some (-1, self) := by
      unfold RewriteLogicalAndOp.match_
      rw [hfind]
    rw [hm] at hmatch
    simp only [Option.some.injEq, Prod.mk.injEq] at hmatch
    exact absurd hmatch.1.symm hr

/-- C12: after a successful `RewriteLogicalAndOp::match` on `!a && !b`, `createChangeSet`
designates the binary expression as top-level node and records exactly four edits, in
offsets of the original text: the operator token replaced by `||`, the left `!` token by
`!(`, the right `!` token by the empty string, and `)` inserted at the end of the binary
expression (each token ending no earlier than it starts).  Applied simultaneously to
`if (!a && !b) { x(); }` the four edits give `if (!(a || b)) { x(); }`. -/
theorem rewriteLogicalAnd_createChangeSet_edits :
    (∀ (doc : Document) (tc : TextCursor) (self self1 : RewriteLogicalAndOp) (path : List AST)
        (r : Int),
      RewriteLogicalAndOp.match_ doc tc structuralMatcher self path = some (r, self1) →
      r ≠ -1 →
      ∃ lo le o ro re, path[r.toNat]?
          = some (.BinaryExpression (some (.UnaryExpression lo le)) o
              (some (.UnaryExpression ro re))) ∧
        (QuickFixOperation.startOf doc tc o ≤ QuickFixOperation.endOf doc tc o →
          QuickFixOperation.startOf doc tc lo ≤ QuickFixOperation.endOf doc tc lo →
          QuickFixOperation.startOf doc tc ro ≤ QuickFixOperation.endOf doc tc ro →
          RewriteLogicalAndOp.createChangeSet doc tc self1 EditState.initial
            = some
              { _topLevelNode := some (.BinaryExpression (some (.UnaryExpression lo le)) o
                  (some (.UnaryExpression ro re))),
                _changeSet :=
                  { m_replaceList :=
                      [⟨QuickFixOperation.startOf doc tc o,
                          toInt32 (QuickFixOperation.endOf doc tc o
                            - QuickFixOperation.startOf doc tc o),
                          "||"⟩,
                       ⟨QuickFixOperation.startOf doc tc lo,
                          toInt32 (QuickFixOperation.endOf doc tc lo
                            - QuickFixOperation.startOf doc tc lo),
                          "!("⟩,
                       ⟨QuickFixOperation.startOf doc tc ro,
                          toInt32 (QuickFixOperation.endOf doc tc ro
                            - QuickFixOperation.startOf doc tc ro),
                          ""⟩,
                       ⟨QuickFixOperation.endOfAST doc tc
                          (.BinaryExpression (some (.UnaryExpression lo le)) o
                            (some (.UnaryExpression ro re))), 0, ")"⟩],
                    m_moveList := [] } })) ∧
    ((RewriteLogicalAndOp.match_ ifAndDocument (exampleCursorIn ifAndText 7) structuralMatcher
        ⟨none, none, none⟩ (ASTPath.run ifAndDocument (exampleCursorIn ifAndText 7))).bind
      (fun m => (RewriteLogicalAndOp.createChangeSet ifAndDocument (exampleCursorIn ifAndText 7)
        m.2 EditState.initial).bind (fun s => s._changeSet.apply ifAndText)))
      = some "if (!(a || b)) \x7b x(); \x7d" := by
  constructor
  · intro doc tc self self1 path r hmatch hr
    obtain ⟨lo, le, o, ro, re, hp, hs⟩ :=
      RewriteLogicalAndOp.rewrite_match_success doc tc self self1 path r hmatch hr
    refine ⟨lo, le, o, ro, re, hp, ?_⟩
    intro h1 h2 h3
    subst hs
    simp only [RewriteLogicalAndOp.createChangeSet, QuickFixOperation.setTopLevelNode,
      QuickFixOperation.replaceToken, QuickFixOperation.replace, QuickFixOperation.insert,
      AST.binary_op_token, AST.unary_op_token, ge_iff_le, h1, h2, h3, if_true, le_refl,
      ChangeSet.replace, EditState.initial, List.nil_append, List.cons_append, sub_self,
      toInt32_zero]
  · decide

/-- Witness of `rewriteLogicalAnd_createChangeSet_edits`: on `if (!a && !b) { x(); }` with
the cursor before `&&` the match succeeds and the four recorded edits are `||` over
offsets 7..9, `!(` over 4..5, the empty string over 10..11 and `)` at offset 12. -/
theorem rewriteLogicalAnd_createChangeSet_edits_witness :
    RewriteLogicalAndOp.createChangeSet ifAndDocument (exampleCursorIn ifAndText 7)
        ifAndMatched.2 EditState.initial
      = some { _topLevelNode := some ifAndCondition,
               _changeSet := { m_replaceList := [⟨7, 2, "||"⟩, ⟨4, 1, "!("⟩, ⟨10, 1, ""⟩,
                                 ⟨12, 0, ")"⟩],
                               m_moveList := [] } } := by
  obtain ⟨lo, le, o, ro, re, hp, hcs⟩ := rewriteLogicalAnd_createChangeSet_edits.1 ifAndDocument
    (exampleCursorIn ifAndText 7) ⟨none, none, none⟩ ifAndMatched.2
    (ASTPath.run ifAndDocument (exampleCursorIn ifAndText 7)) 1 rfl (by decide)
  have hpath : (ASTPath.run ifAndDocument (exampleCursorIn ifAndText 7))[(1 : Int).toNat]?
      = some ifAndCondition := rfl
  rw [hpath] at hp
  simp only [ifAndCondition, Option.some.injEq, AST.BinaryExpression.injEq,
    AST.UnaryExpression.injEq] at hp
  obtain ⟨⟨hlo, hle⟩, ho, hro, hre⟩ := hp
  subst hlo hle ho hro hre
  exact hcs (by decide) (by decide) (by decide)

/-! ## Rule split-simple-declaration -/

theorem AST.asSimpleDeclaration_eq_some (n d : AST) (h : n.asSimpleDeclaration = some d) :
    d = n ∧ ∃ q ds dl s, n = .SimpleDeclaration q ds dl s := by
  cases n <;> simp only [AST.asSimpleDeclaration, Option.some.injEq] at h <;>
    first
      | contradiction
      | exact ⟨h.symm, _, _, _, _, rfl⟩

theorem AST.asCoreDeclarator_eq_some (n c : AST) (h : n.asCoreDeclarator = some c) :
    c = n := by
  cases n <;> simp only [AST.asCoreDeclarator, Option.some.injEq] at h <;>
    first
      | contradiction
      | exact h.symm

theorem SplitSimpleDeclarationOp.splitDecl_loop_spec (doc : Document) (tc : TextCursor)
    (path : List AST) (self : SplitSimpleDeclarationOp) :
    ∀ (k : Nat) (core : Option AST) (r : Int) (self1 : SplitSimpleDeclarationOp),
      (∀ c, core = some c → ∃ i : Nat, k ≤ i ∧ path[i]? = some c ∧
        c.asCoreDeclarator = some c) →
      SplitSimpleDeclarationOp.loop doc tc path self k core = some (r, self1) →
      r = -1 ∨ ∃ (j : Nat) (d : AST), r = (j : Int) ∧ j < k ∧ path[j]? = some d ∧
        d.asSimpleDeclaration = some d ∧
        SplitSimpleDeclarationOp.checkDeclaration d = true ∧
        self1.declaration = some d ∧
        (cursorOnSpecifiers doc tc d ∨
          ∃ (i : Nat) (c : AST), j < i ∧ path[i]? = some c ∧ c.asCoreDeclarator = some c ∧
            QuickFixOperation.isCursorOnAST doc tc c = true) := by
  intro k
  induction k with
  | zero =>
    intro core r self1 _ h
    simp only [SplitSimpleDeclarationOp.loop, Option.some.injEq, Prod.mk.injEq] at h
    left; exact h.1.symm
  | succ k ih =>
    intro core r self1 hcore h
    unfold SplitSimpleDeclarationOp.loop at h
    split at h
    · simp at h
    · rename_i node hnode
      split at h
      · rename_i coreDecl hcd
        have hself := AST.asCoreDeclarator_eq_some node coreDecl hcd
        subst hself
        rcases ih _ _ _ (fun c hc => by
            simp only [Option.some.injEq] at hc
            subst hc
            exact ⟨k, Nat.le_refl _, hnode, hcd⟩) h with h1 | ⟨j, d, h1, h2, h3⟩
        · left; exact h1
        · right; exact ⟨j, d, h1, Nat.lt_succ_of_lt h2, h3⟩
      · split at h
        · rename_i simpleDecl hdecl
          obtain ⟨hself, -⟩ := AST.asSimpleDeclaration_eq_some node simpleDecl hdecl
          subst hself
          split at h
          · rename_i hcheck
            simp only at h
            split at h
            · rename_i hcur
              simp only [Option.some.injEq, Prod.mk.injEq] at h
              right
              refine ⟨k, simpleDecl, h.1.symm, Nat.lt_succ_self _, hnode, hdecl, hcheck, ?_,
                Or.inl ?_⟩
              · rw [← h.2]
              · simp only [ge_iff_le, Bool.and_eq_true, decide_eq_true_eq] at hcur
                exact hcur
            · split at h
              · rename_i c
                split at h
                · rename_i hon
                  simp only [Option.some.injEq, Prod.mk.injEq] at h
                  obtain ⟨i, hi, hpi, hci⟩ := hcore c rfl
                  right
                  refine ⟨k, simpleDecl, h.1.symm, Nat.lt_succ_self _, hnode, hdecl, hcheck, ?_,
                    Or.inr ⟨i, c, hi, hpi, hci, hon⟩⟩
                  rw [← h.2]
                · simp only [Option.some.injEq, Prod.mk.injEq] at h
                  left; exact h.1.symm
              · simp only [Option.some.injEq, Prod.mk.injEq] at h
                left; exact h.1.symm
          · simp only [Option.some.injEq, Prod.mk.injEq] at h
            left; exact h.1.symm
        · rcases ih _ _ _ (fun c hc => by
            obtain ⟨i, hi, hpi, hci⟩ := hcore c hc
            exact ⟨i, Nat.le_of_succ_le hi, hpi, hci⟩) h with h1 | ⟨j, d, h1, h2, h3⟩
          · left; exact h1
          · right; exact ⟨j, d, h1, Nat.lt_succ_of_lt h2, h3⟩

theorem SplitSimpleDeclarationOp.splitDecl_match_spec (doc : Document) (tc : TextCursor)
    (self self1 : SplitSimpleDeclarationOp) (path : List AST) (r : Int)
    (h : SplitSimpleDeclarationOp.match_ doc tc self path = some (r, self1)) (hr : r ≠ -1) :
    ∃ d : AST, path[r.toNat]? = some d ∧ d.asSimpleDeclaration = some d ∧
      SplitSimpleDeclarationOp.checkDeclaration d = true ∧ self1.declaration = some d ∧
      (cursorOnSpecifiers doc tc d ∨
        ∃ (i : Nat) (c : AST), r.toNat < i ∧ path[i]? = some c ∧ c.asCoreDeclarator = some c ∧
          QuickFixOperation.isCursorOnAST doc tc c = true) := by
  unfold SplitSimpleDeclarationOp.match_ at h
  rcases SplitSimpleDeclarationOp.splitDecl_loop_spec doc tc path self _ _ _ _
      (fun c hc => by cases hc) h with h1 | ⟨j, d, h1, -, h3⟩
  · exact absurd h1 hr
  · subst h1
    exact ⟨d, by simpa using h3.1, h3.2.1, h3.2.2.1, h3.2.2.2.1, by simpa using h3.2.2.2.2⟩

theorem SplitSimpleDeclarationOp.checkDeclaration_spec (q : Nat) (ds dl : List AST) (s : Nat) :
    SplitSimpleDeclarationOp.checkDeclaration (.SimpleDeclaration q ds dl s) = true ↔
      s ≠ 0 ∧ ds ≠ [] ∧
        (∀ sp ∈ ds, sp.asEnumSpecifier = none ∧ sp.asClassSpecifier = none) ∧
        2 ≤ dl.length := by
  simp only [SplitSimpleDeclarationOp.checkDeclaration, AST.semicolon_token,
    AST.decl_specifier_list, AST.declarator_list]
  constructor
  · intro h
    split at h
    · contradiction
    · rename_i hs
      split at h
      · contradiction
      · rename_i hds
        split at h
        · contradiction
        · rename_i hany
          split at h
          · contradiction
          · rename_i hdl
            split at h
            · contradiction
            · rename_i hdl2
              refine ⟨by simpa using hs, by simpa using hds, ?_, ?_⟩
              · intro sp hsp
                simp only [List.any_eq_true, Bool.or_eq_true, not_exists, not_and,
                  not_or] at hany
                have := hany sp hsp
                simpa using this
              · cases dl with
                | nil => simp at hdl
                | cons a t =>
                  cases t with
                  | nil => simp at hdl2
                  | cons b t => simp
  · rintro ⟨hs, hds, hsp, hdl⟩
    have h1 : (s == 0) = false := by simpa using hs
    have h2 : ds.isEmpty = false := by simpa using hds
    have h3 : (ds.any fun specifier =>
        specifier.asEnumSpecifier.isSome || specifier.asClassSpecifier.isSome) = false := by
      rw [Bool.eq_false_iff]
      intro hany
      simp only [List.any_eq_true, Bool.or_eq_true] at hany
      obtain ⟨sp, hmem, hor⟩ := hany
      obtain ⟨he, hc⟩ := hsp sp hmem
      rw [he, hc] at hor
      simp at hor
    obtain ⟨a, b, t, rfl⟩ : ∃ a b t, dl = a :: b :: t := by
      cases dl with
      | nil => simp at hdl
      | cons a t =>
        cases t with
        | nil => simp at hdl
        | cons b t => exact ⟨a, b, t, rfl⟩
    simp [h1, h2, h3]

/-- C13: `SplitSimpleDeclarationOp::checkDeclaration` accepts a simple declaration iff it
has a semicolon token, a non-empty specifier list none of whose specifiers is an enum
specifier or a class specifier, and at least two declarators; and when `match` returns an
index other than -1, the node of the chain at that index is a simple declaration that
`checkDeclaration` accepts. -/
theorem splitSimpleDeclaration_checkDeclaration_iff :
    (∀ (q : Nat) (ds dl : List AST) (s : Nat),
      SplitSimpleDeclarationOp.checkDeclaration (.SimpleDeclaration q ds dl s) = true ↔
        s ≠ 0 ∧ ds ≠ [] ∧
          (∀ sp ∈ ds, sp.asEnumSpecifier = none ∧ sp.asClassSpecifier = none) ∧
          2 ≤ dl.length) ∧
    (∀ (doc : Document) (tc : TextCursor) (self self1 : SplitSimpleDeclarationOp)
        (path : List AST) (r : Int),
      SplitSimpleDeclarationOp.match_ doc tc self path = some (r, self1) → r ≠ -1 →
      ∃ d : AST, path[r.toNat]? = some d ∧ d.asSimpleDeclaration = some d ∧
        SplitSimpleDeclarationOp.checkDeclaration d = true) := by
  constructor
  · exact SplitSimpleDeclarationOp.checkDeclaration_spec
  · intro doc tc self self1 path r h hr
    obtain ⟨d, h1, h2, h3, -⟩ :=
      SplitSimpleDeclarationOp.splitDecl_match_spec doc tc self self1 path r h hr
    exact ⟨d, h1, h2, h3⟩

/-- Witness of `splitSimpleDeclaration_checkDeclaration_iff`: on `int a, b;` with the
cursor on `int` the match returns index 0, where the chain holds the declaration, which
`checkDeclaration` accepts. -/
theorem splitSimpleDeclaration_checkDeclaration_iff_witness :
    ∃ d : AST, (ASTPath.run declDocument (exampleCursorIn declText 1))[(0 : Int).toNat]?
        = some d ∧ d.asSimpleDeclaration = some d ∧
      SplitSimpleDeclarationOp.checkDeclaration d = true :=
  splitSimpleDeclaration_checkDeclaration_iff.2 declDocument (exampleCursorIn declText 1)
    ⟨none⟩ ⟨some declStatement⟩ (ASTPath.run declDocument (exampleCursorIn declText 1)) 0
    rfl (by decide)

/-- C14, counterexample: on `int a, b;` with the cursor on `b`, the core name of the second
declarator, `SplitSimpleDeclarationOp::match` returns the index 0 of the declaration,
although the cursor is neither on the specifier `int` nor on the core name `a` of the
first declarator. -/
theorem splitSimpleDeclaration_second_declarator_matches :
    (SplitSimpleDeclarationOp.match_ declDocument (exampleCursorIn declText 7) ⟨none⟩
        (ASTPath.run declDocument (exampleCursorIn declText 7))).map Prod.fst = some 0 ∧
      ¬ cursorOnSpecifiers declDocument (exampleCursorIn declText 7) declStatement ∧
      (declStatement.declarator_list.head?.bind AST.core_declarator).map
        (QuickFixOperation.isCursorOnAST declDocument (exampleCursorIn declText 7))
        = some false := by
  refine ⟨by decide, ?_, by decide⟩
  unfold cursorOnSpecifiers
  decide

/-- C14, amended: when `SplitSimpleDeclarationOp::match` returns an index other than -1,
the node at that index is a simple declaration and the start of the selection is on its
specifiers or on a core declarator that lies deeper in the chain; that core declarator
may belong to any declarator of the declaration, not only to the first. -/
theorem splitSimpleDeclaration_match_cursor (doc : Document) (tc : TextCursor)
    (self self1 : SplitSimpleDeclarationOp) (path : List AST) (r : Int)
    (h : SplitSimpleDeclarationOp.match_ doc tc self path = some (r, self1)) (hr : r ≠ -1) :
    ∃ d : AST, path[r.toNat]? = some d ∧ d.asSimpleDeclaration = some d ∧
      (cursorOnSpecifiers doc tc d ∨
        ∃ (i : Nat) (c : AST), r.toNat < i ∧ path[i]? = some c ∧ c.asCoreDeclarator = some c ∧
          QuickFixOperation.isCursorOnAST doc tc c = true) := by
  obtain ⟨d, h1, h2, -, -, h5⟩ :=
    SplitSimpleDeclarationOp.splitDecl_match_spec doc tc self self1 path r h hr
  exact ⟨d, h1, h2, h5⟩

/-- Witness of `splitSimpleDeclaration_match_cursor`: on `int a, b;` with the cursor on
`b` the hypotheses hold with index 0. -/
theorem splitSimpleDeclaration_match_cursor_witness :
    ∃ d : AST, (ASTPath.run declDocument (exampleCursorIn declText 7))[(0 : Int).toNat]?
        = some d ∧ d.asSimpleDeclaration = some d ∧
      (cursorOnSpecifiers declDocument (exampleCursorIn declText 7) d ∨
        ∃ (i : Nat) (c : AST), (0 : Int).toNat < i ∧
          (ASTPath.run declDocument (exampleCursorIn declText 7))[i]? = some c ∧
          c.asCoreDeclarator = some c ∧
          QuickFixOperation.isCursorOnAST declDocument (exampleCursorIn declText 7) c = true) :=
  splitSimpleDeclaration_match_cursor declDocument (exampleCursorIn declText 7)
    ⟨none⟩ ⟨some declStatement⟩ (ASTPath.run declDocument (exampleCursorIn declText 7)) 0
    rfl (by decide)

theorem foldl_append_init (l : List String) :
    ∀ a : String, l.foldl (fun r s => r ++ s) a = a ++ l.foldl (fun r s => r ++ s) "" := by
  induction l with
  | nil => intro a; simp
  | cons b t ih =>
    intro a
    simp only [List.foldl_cons]
    rw [ih (a ++ b), ih ("" ++ b), String.empty_append, String.append_assoc]

theorem SplitSimpleDeclarationOp.declarationsText_eq_join (doc : Document) (tc : TextCursor)
    (declSpecifiers : String) (l : List AST) :
    SplitSimpleDeclarationOp.declarationsText doc tc declSpecifiers l
      = String.join (l.map fun d =>
          "\n" ++ declSpecifiers ++ " " ++ QuickFixOperation.textOfAST doc tc d ++ ";") := by
  induction l with
  | nil => rfl
  | cons d t ih =>
    simp only [SplitSimpleDeclarationOp.declarationsText, List.map_cons, String.join,
      List.foldl_cons]
    rw [foldl_append_init, String.empty_append, ih]
    rfl

/-- C15: after a successful `SplitSimpleDeclarationOp::match` the node at the returned
index is a declaration with specifiers `ds` and declarators `d1, d2, ...` (at least two),
and `createChangeSet` records, with the declaration as top-level node, exactly one
replacement by the empty string of the range from the end of `d1` to the start of the
semicolon (provided that range is not reversed) and one insertion at the end of the
semicolon of the concatenation, over the declarators after the first in order, of
newline + specifier text + space + declarator text + `;`.  On `int a, b;` the two edits
applied together give `int a;` newline `int b;`. -/
theorem splitSimpleDeclaration_createChangeSet_edits :
    (∀ (doc : Document) (tc : TextCursor) (self self1 : SplitSimpleDeclarationOp)
        (path : List AST) (r : Int),
      SplitSimpleDeclarationOp.match_ doc tc self path = some (r, self1) → r ≠ -1 →
      ∃ q ds d1 d2 rest s,
        path[r.toNat]? = some (.SimpleDeclaration q ds (d1 :: d2 :: rest) s) ∧
        (QuickFixOperation.endOfAST doc tc d1 ≤ QuickFixOperation.startOf doc tc s →
          SplitSimpleDeclarationOp.createChangeSet doc tc self1 EditState.initial
            = some
              { _topLevelNode := some (.SimpleDeclaration q ds (d1 :: d2 :: rest) s),
                _changeSet :=
                  { m_replaceList :=
                      [⟨QuickFixOperation.endOfAST doc tc d1,
                          toInt32 (QuickFixOperation.startOf doc tc s
                            - QuickFixOperation.endOfAST doc tc d1), ""⟩,
                       ⟨QuickFixOperation.endOf doc tc s, 0,
                          String.join ((d2 :: rest).map fun d =>
                            "\n" ++ QuickFixOperation.textOf tc
                                (QuickFixOperation.startOf doc tc (doc.listFirstToken ds))
                                (QuickFixOperation.endOf doc tc
                                  (pred32 (doc.listLastToken ds)))
                              ++ " " ++ QuickFixOperation.textOfAST doc tc d ++ ";")⟩],
                    m_moveList := [] } })) ∧
    ((SplitSimpleDeclarationOp.match_ declDocument (exampleCursorIn declText 4) ⟨none⟩
        (ASTPath.run declDocument (exampleCursorIn declText 4))).bind
      (fun m => (SplitSimpleDeclarationOp.createChangeSet declDocument
        (exampleCursorIn declText 4) m.2 EditState.initial).bind
          (fun s => s._changeSet.apply declText)))
      = some "int a;\nint b;" := by
  constructor
  · intro doc tc self self1 path r hmatch hr
    obtain ⟨d, hp, hd, hcheck, hself, -⟩ :=
      SplitSimpleDeclarationOp.splitDecl_match_spec doc tc self self1 path r hmatch hr
    obtain ⟨-, q, ds, dl, s, rfl⟩ := AST.asSimpleDeclaration_eq_some d d hd
    obtain ⟨-, hds, -, hdl⟩ := (SplitSimpleDeclarationOp.checkDeclaration_spec q ds dl s).1 hcheck
    obtain ⟨d1, d2, rest, rfl⟩ : ∃ a b t, dl = a :: b :: t := by
      cases dl with
      | nil => simp at hdl
      | cons a t =>
        cases t with
        | nil => simp at hdl
        | cons b t => exact ⟨a, b, t, rfl⟩
    refine ⟨q, ds, d1, d2, rest, s, hp, ?_⟩
    intro hle
    have hds2 : ds.isEmpty = false := by simpa using hds
    unfold SplitSimpleDeclarationOp.createChangeSet
    rw [hself]
    simp only [AST.decl_specifier_list, AST.declarator_list, AST.semicolon_token, hds2,
      Bool.false_eq_true, if_false, QuickFixOperation.setTopLevelNode,
      QuickFixOperation.replace, QuickFixOperation.insert, ge_iff_le, hle, if_true, le_refl,
      ChangeSet.replace, EditState.initial, List.nil_append, List.cons_append, sub_self,
      toInt32_zero, SplitSimpleDeclarationOp.declarationsText_eq_join]
  · decide

/-- Witness of `splitSimpleDeclaration_createChangeSet_edits`: on `int a, b;` with the
cursor on `a` the match succeeds and the two recorded edits are the deletion of offsets
5..8 and the insertion of newline + `int b;` at offset 9. -/
theorem splitSimpleDeclaration_createChangeSet_edits_witness :
    SplitSimpleDeclarationOp.createChangeSet declDocument (exampleCursorIn declText 4)
        ⟨some declStatement⟩ EditState.initial
      = some { _topLevelNode := some declStatement,
               _changeSet := { m_replaceList := [⟨5, 3, ""⟩, ⟨9, 0, "\nint b;"⟩],
                               m_moveList := [] } } := by
  obtain ⟨q, ds, d1, d2, rest, s, hp, hcs⟩ :=
    splitSimpleDeclaration_createChangeSet_edits.1 declDocument
      (exampleCursorIn declText 4) ⟨none⟩ ⟨some declStatement⟩
      (ASTPath.run declDocument (exampleCursorIn declText 4)) 0 rfl (by decide)
  have hpath : (ASTPath.run declDocument (exampleCursorIn declText 4))[(0 : Int).toNat]?
      = some declStatement := rfl
  rw [hpath] at hp
  simp only [declStatement, Option.some.injEq, AST.SimpleDeclaration.injEq,
    List.cons.injEq] at hp
  obtain ⟨hq, hds, ⟨hd1, hd2, hrest⟩, hs⟩ := hp
  subst hq hds hd1 hd2 hrest hs
  exact hcs (by decide)

/-! ## Rule add-braces-to-if -/

theorem AST.asIfStatement_eq_some (n d : AST) (h : n.asIfStatement = some d) : d = n := by
  cases n <;> simp only [AST.asIfStatement, Option.some.injEq] at h <;>
    first
      | contradiction
      | exact h.symm

theorem isSome_false_eq_none {α : Type} (o : Option α) (h : o.isSome = false) : o = none := by
  cases o with
  | none => rfl
  | some a => cases h

theorem AddBracesToIfOp.addBraces_loop_spec (doc : Document) (tc : TextCursor)
    (path : List AST) (self : AddBracesToIfOp) :
    ∀ (k : Nat) (r : Int) (self1 : AddBracesToIfOp),
      AddBracesToIfOp.loop doc tc path self k = some (r, self1) →
      r = -1 ∨ ∃ (j : Nat) (n s : AST), r = (j : Int) ∧ j < k ∧ path[j]? = some n ∧
        n.asIfStatement = some n ∧ n.statement = some s ∧ s.asCompoundStatement = none ∧
        self1._statement = some s ∧ QuickFixOperation.isCursorOnAST doc tc s = true := by
  intro k
  induction k with
  | zero =>
    intro r self1 h
    simp only [AddBracesToIfOp.loop, Option.some.injEq, Prod.mk.injEq] at h
    left; exact h.1.symm
  | succ k ih =>
    intro r self1 h
    unfold AddBracesToIfOp.loop at h
    split at h
    · simp at h
    · rename_i node hnode
      split at h
      · rcases ih _ _ h with h1 | ⟨j, n, s, h1, h2, h3⟩
        · left; exact h1
        · right; exact ⟨j, n, s, h1, Nat.lt_succ_of_lt h2, h3⟩
      · rename_i ifStatement hif
        have hself := AST.asIfStatement_eq_some node ifStatement hif
        subst hself
        split at h
        · simp at h
        · rename_i statement hst
          split at h
          · rename_i hcond
            simp only [Option.some.injEq, Prod.mk.injEq] at h
            simp only [Bool.and_eq_true, Bool.not_eq_true'] at hcond
            right
            refine ⟨k, ifStatement, statement, h.1.symm, Nat.lt_succ_self _, hnode, hif, hst,
              isSome_false_eq_none _ hcond.2, ?_, hcond.1⟩
            rw [← h.2]
          · rcases ih _ _ h with h1 | ⟨j, n, s, h1, h2, h3⟩
            · left; exact h1
            · right; exact ⟨j, n, s, h1, Nat.lt_succ_of_lt h2, h3⟩

theorem AddBracesToIfOp.addBraces_match_spec (doc : Document) (tc : TextCursor)
    (self self1 : AddBracesToIfOp) (path : List AST) (r : Int)
    (h : AddBracesToIfOp.match_ doc tc self path = some (r, self1)) (hr : r ≠ -1) :
    ∃ n s : AST, path[r.toNat]? = some n ∧ n.asIfStatement = some n ∧ n.statement = some s ∧
      s.asCompoundStatement = none ∧ self1._statement = some s ∧
      (QuickFixOperation.isCursorOn doc tc n.if_token = true ∨
        QuickFixOperation.isCursorOnAST doc tc s = true) := by
  have hloop : AddBracesToIfOp.loop doc tc path self path.length = some (r, self1) →
      ∃ n s : AST, path[r.toNat]? = some n ∧ n.asIfStatement = some n ∧
        n.statement = some s ∧ s.asCompoundStatement = none ∧ self1._statement = some s ∧
        (QuickFixOperation.isCursorOn doc tc n.if_token = true ∨
          QuickFixOperation.isCursorOnAST doc tc s = true) := by
    intro h
    rcases AddBracesToIfOp.addBraces_loop_spec doc tc path self _ _ _ h with
      h1 | ⟨j, n, s, h1, -, h3, h4, h5, h6, h7, h8⟩
    · exact absurd h1 hr
    · subst h1
      exact ⟨n, s, by simpa using h3, h4, h5, h6, h7, Or.inr h8⟩
  unfold AddBracesToIfOp.match_ at h
  split at h
  · simp at h
  · rename_i last hlast
    split at h
    · exact hloop h
    · rename_i ifStatement hif
      have hself := AST.asIfStatement_eq_some last ifStatement hif
      subst hself
      split at h
      · rename_i hon
        split at h
        · simp at h
        · rename_i statement hst
          split at h
          · rename_i hnc
            simp only [Option.some.injEq, Prod.mk.injEq] at h
            simp only [Bool.not_eq_true'] at hnc
            refine ⟨ifStatement, statement, ?_, hif, hst, isSome_false_eq_none _ hnc, ?_, Or.inl hon⟩
            · rw [← h.1, ← hlast, List.getLast?_eq_getElem?]
              congr 1
              have hne : path ≠ [] := by
                intro hnil
                rw [hnil] at hlast
                simp at hlast
              have hpos : 0 < path.length := List.length_pos.mpr hne
              omega
            · rw [← h.2]
          · exact hloop h
      · exact hloop h

/-- C16: if `AddBracesToIfOp::match` returns an index other than -1, then the node of the
chain at that index is an if-statement whose body is not a compound statement, the body is
stored in `_statement`, and the start of the selection is on the `if` token or on the
body; hence the returned index is never that of an if-statement whose body is a compound
statement. -/
theorem addBracesToIf_match_anchor (doc : Document) (tc : TextCursor)
    (self self1 : AddBracesToIfOp) (path : List AST) (r : Int)
    (h : AddBracesToIfOp.match_ doc tc self path = some (r, self1)) (hr : r ≠ -1) :
    (∃ n s : AST, path[r.toNat]? = some n ∧ n.asIfStatement = some n ∧
      n.statement = some s ∧ s.asCompoundStatement = none ∧ self1._statement = some s ∧
      (QuickFixOperation.isCursorOn doc tc n.if_token = true ∨
        QuickFixOperation.isCursorOnAST doc tc s = true)) ∧
    (∀ (n b : AST), path[r.toNat]? = some n → n.statement = some b →
      b.asCompoundStatement = none) := by
  obtain ⟨n, s, h1, h2, h3, h4, h5, h6⟩ :=
    AddBracesToIfOp.addBraces_match_spec doc tc self self1 path r h hr
  refine ⟨⟨n, s, h1, h2, h3, h4, h5, h6⟩, ?_⟩
  intro n1 b hn1 hb
  rw [h1] at hn1
  simp only [Option.some.injEq] at hn1
  subst hn1
  rw [h3] at hb
  simp only [Option.some.injEq] at hb
  subst hb
  exact h4

/-- Witness of `addBracesToIf_match_anchor`: on the two-line example with the cursor on
`if` the match returns index 0, where the chain holds the if-statement whose body
`foo();` is not a compound statement. -/
theorem addBracesToIf_match_anchor_witness :
    (∃ n s : AST, (ASTPath.run ifFooDocument (ifFooCursor 0 0))[(0 : Int).toNat]? = some n ∧
      n.asIfStatement = some n ∧ n.statement = some s ∧ s.asCompoundStatement = none ∧
      (⟨some ifFooBody⟩ : AddBracesToIfOp)._statement = some s ∧
      (QuickFixOperation.isCursorOn ifFooDocument (ifFooCursor 0 0) n.if_token = true ∨
        QuickFixOperation.isCursorOnAST ifFooDocument (ifFooCursor 0 0) s = true)) ∧
    (∀ (n b : AST), (ASTPath.run ifFooDocument (ifFooCursor 0 0))[(0 : Int).toNat]? = some n →
      n.statement = some b → b.asCompoundStatement = none) :=
  addBracesToIf_match_anchor ifFooDocument (ifFooCursor 0 0) ⟨none⟩ ⟨some ifFooBody⟩
    (ASTPath.run ifFooDocument (ifFooCursor 0 0)) 0 rfl (by decide)

/-- C17, counterexample: for the two-line source `if (x)` / `  foo();` with the cursor
immediately before `x`, the chain of the locator is the if-statement and the name `x`, and
`AddBracesToIfOp::match` returns the sentinel -1: the cursor is neither on the `if` token
nor on the body. -/
theorem addBracesToIf_cursor_in_condition_no_match :
    ASTPath.run ifFooDocument (ifFooCursor 0 4) = [ifFooStatement, .Other 4 [3] []] ∧
    (AddBracesToIfOp.match_ ifFooDocument (ifFooCursor 0 4) ⟨none⟩
      (ASTPath.run ifFooDocument (ifFooCursor 0 4))).map Prod.fst = some (-1) ∧
    QuickFixOperation.isCursorOn ifFooDocument (ifFooCursor 0 4) ifFooStatement.if_token = false ∧
    QuickFixOperation.isCursorOnAST ifFooDocument (ifFooCursor 0 4) ifFooBody = false := by
  refine ⟨rfl, by decide, by decide, by decide⟩

/-- C17, amended: for the two-line source `if (x)` / `  foo();`, `AddBracesToIfOp::match`
on the chain of the locator returns the index 0 of the if-statement, the first node of the
chain, exactly when the cursor is at one of the offsets 0 to 2 (on the `if` keyword, its
end included) or 9 to 14 (in the body `foo();`, from its start to before its `;` ends);
at every other offset up to 14 (after `if`, in the condition, at the end of the first line
and in the indentation of the second) it returns the sentinel -1; at offset 15, the end of
the text, the chain of the locator is empty and `match` has no result. -/
theorem addBracesToIf_fires_on_if_or_body :
    (∀ c : Nat, c ≤ 6 →
      (AddBracesToIfOp.match_ ifFooDocument (ifFooCursor 0 c) ⟨none⟩
          (ASTPath.run ifFooDocument (ifFooCursor 0 c))).map Prod.fst
        = some (if c ≤ 2 then 0 else -1) ∧
      (ASTPath.run ifFooDocument (ifFooCursor 0 c))[0]? = some ifFooStatement) ∧
    (∀ c : Nat, c ≤ 7 →
      (AddBracesToIfOp.match_ ifFooDocument (ifFooCursor 1 c) ⟨none⟩
          (ASTPath.run ifFooDocument (ifFooCursor 1 c))).map Prod.fst
        = some (if 2 ≤ c then 0 else -1) ∧
      (ASTPath.run ifFooDocument (ifFooCursor 1 c))[0]? = some ifFooStatement) ∧
    ASTPath.run ifFooDocument (ifFooCursor 1 8) = [] ∧
    AddBracesToIfOp.match_ ifFooDocument (ifFooCursor 1 8) ⟨none⟩
      (ASTPath.run ifFooDocument (ifFooCursor 1 8)) = none ∧
    ifFooText.length = 15 ∧
    (ifFooCursor 0 0).selectionStart = 0 ∧ (ifFooCursor 0 6).selectionStart = 6 ∧
    (ifFooCursor 1 0).selectionStart = 7 ∧ (ifFooCursor 1 8).selectionStart = 15 := by
  refine ⟨?_, ?_, rfl, rfl, by decide, rfl, rfl, rfl, rfl⟩
  · intro c hc
    interval_cases c <;> exact ⟨by decide, rfl⟩
  · intro c hc
    interval_cases c <;> exact ⟨by decide, rfl⟩

/-- Witness of `addBracesToIf_fires_on_if_or_body`: with the cursor inside `foo`, at column
3 of the second line (offset 10), `match` returns the index 0. -/
theorem addBracesToIf_fires_on_if_or_body_witness :
    (3 : Nat) ≤ 7 ∧
      (AddBracesToIfOp.match_ ifFooDocument (ifFooCursor 1 3) ⟨none⟩
          (ASTPath.run ifFooDocument (ifFooCursor 1 3))).map Prod.fst = some 0 :=
  ⟨by decide, (addBracesToIf_fires_on_if_or_body.2.1 3 (by decide)).1⟩

/-- C18: after a successful `AddBracesToIfOp::match`, the node at the returned index has a
body `s` and `createChangeSet` records, with `s` as top-level node, exactly two
insertions: space + `{` at the end of the token before the first token of `s`, and
newline + `}` at the end of the last token of `s`.  In the two-line example `if (x)` /
`  foo();` the token before the body is the closing parenthesis of the condition, and the
two insertions applied together give `if (x) {` / `  foo();` / `}`. -/
theorem addBracesToIf_createChangeSet_edits :
    (∀ (doc : Document) (tc : TextCursor) (self self1 : AddBracesToIfOp) (path : List AST)
        (r : Int),
      AddBracesToIfOp.match_ doc tc self path = some (r, self1) → r ≠ -1 →
      ∃ n s : AST, path[r.toNat]? = some n ∧ n.asIfStatement = some n ∧
        n.statement = some s ∧
        AddBracesToIfOp.createChangeSet doc tc self1 EditState.initial
          = some
            { _topLevelNode := some s,
              _changeSet :=
                { m_replaceList :=
                    [⟨QuickFixOperation.endOf doc tc (pred32 (doc.firstToken s)), 0, " \x7b"⟩,
                     ⟨QuickFixOperation.endOf doc tc (pred32 (doc.lastToken s)), 0, "\n\x7d"⟩],
                  m_moveList := [] } }) ∧
    (pred32 (ifFooDocument.firstToken ifFooBody) = 4 ∧
      ifFooStatement = .IfStatement 1 2 (some (.Other 4 [3] [])) 4 (some ifFooBody) 0 none ∧
      ((AddBracesToIfOp.match_ ifFooDocument (ifFooCursor 0 0) ⟨none⟩
          (ASTPath.run ifFooDocument (ifFooCursor 0 0))).bind
        (fun m => (AddBracesToIfOp.createChangeSet ifFooDocument (ifFooCursor 0 0) m.2
          EditState.initial).bind (fun s => s._changeSet.apply ifFooText)))
        = some "if (x) \x7b\n  foo();\n\x7d") := by
  constructor
  · intro doc tc self self1 path r hmatch hr
    obtain ⟨n, s, h1, h2, h3, -, h5, -⟩ :=
      AddBracesToIfOp.addBraces_match_spec doc tc self self1 path r hmatch hr
    refine ⟨n, s, h1, h2, h3, ?_⟩
    unfold AddBracesToIfOp.createChangeSet
    rw [h5]
    simp only [QuickFixOperation.setTopLevelNode, QuickFixOperation.insert,
      QuickFixOperation.replace, ge_iff_le, le_refl, if_true, ChangeSet.replace,
      EditState.initial, List.nil_append, List.cons_append, sub_self,
      toInt32_zero]
  · exact ⟨by decide, rfl, by decide⟩

/-- Witness of `addBracesToIf_createChangeSet_edits`: in the two-line example with the
cursor on `if` the match succeeds and the recorded edits are the insertion of space + `{`
at offset 6 and of newline + `}` at offset 15. -/
theorem addBracesToIf_createChangeSet_edits_witness :
    AddBracesToIfOp.createChangeSet ifFooDocument (ifFooCursor 0 0) ⟨some ifFooBody⟩
        EditState.initial
      = some { _topLevelNode := some ifFooBody,
               _changeSet := { m_replaceList := [⟨6, 0, " \x7b"⟩, ⟨15, 0, "\n\x7d"⟩],
                               m_moveList := [] } } := by
  obtain ⟨n, s, hp, -, hs, hcs⟩ :=
    addBracesToIf_createChangeSet_edits.1 ifFooDocument (ifFooCursor 0 0) ⟨none⟩
      ⟨some ifFooBody⟩ (ASTPath.run ifFooDocument (ifFooCursor 0 0)) 0 rfl (by decide)
  have hpath : (ASTPath.run ifFooDocument (ifFooCursor 0 0))[(0 : Int).toNat]?
      = some ifFooStatement := rfl
  rw [hpath] at hp
  simp only [Option.some.injEq] at hp
  subst hp
  simp only [ifFooStatement, AST.statement, Option.some.injEq] at hs
  subst hs
  exact hcs

/-! ## Rules move-declaration-out-of-if and move-declaration-out-of-while -/

theorem AST.asWhileStatement_eq_some (n d : AST) (h : n.asWhileStatement = some d) :
    d = n := by
  cases n <;> simp only [AST.asWhileStatement, Option.some.injEq] at h <;>
    first
      | contradiction
      | exact h.symm

theorem MoveDeclarationOutOfIfOp.moveIf_loop_spec (doc : Document) (tc : TextCursor)
    (path : List AST) :
    ∀ (k : Nat) (pattern : AST) (core : Option AST) (r : Int)
      (self1 : MoveDeclarationOutOfIfOp),
      (∃ pts pd, pattern.condition = some (.Condition pts pd)) →
      MoveDeclarationOutOfIfOp.loop doc tc structuralMatcher path k pattern core
        = some (r, self1) →
      r = -1 ∨ ∃ (j : Nat) (n : AST) (ts : List AST) (d c : AST), r = (j : Int) ∧ j < k ∧
        path[j]? = some n ∧ n.asIfStatement = some n ∧
        n.condition = some (.Condition ts (some d)) ∧ d.core_declarator = some c ∧
        QuickFixOperation.isCursorOnAST doc tc c = true ∧
        self1 = { condition := n.condition, pattern := some n, core := some c } := by
  intro k
  induction k with
  | zero =>
    intro pattern core r self1 _ h
    simp only [MoveDeclarationOutOfIfOp.loop, Option.some.injEq, Prod.mk.injEq] at h
    left; exact h.1.symm
  | succ k ih =>
    intro pattern core r self1 hpat h
    have hstep : ∀ (p : AST) (c0 : Option AST),
        (∃ pts pd, p.condition = some (.Condition pts pd)) →
        MoveDeclarationOutOfIfOp.loop doc tc structuralMatcher path k p c0
          = some (r, self1) →
        r = -1 ∨ ∃ (j : Nat) (n : AST) (ts : List AST) (d c : AST), r = (j : Int) ∧
          j < k + 1 ∧ path[j]? = some n ∧ n.asIfStatement = some n ∧
          n.condition = some (.Condition ts (some d)) ∧ d.core_declarator = some c ∧
          QuickFixOperation.isCursorOnAST doc tc c = true ∧
          self1 = { condition := n.condition, pattern := some n, core := some c } := by
      intro p c0 hp hl
      rcases ih p c0 r self1 hp hl with h1 | ⟨j, n, ts, d, c, h1, h2, h3⟩
      · left; exact h1
      · right; exact ⟨j, n, ts, d, c, h1, Nat.lt_succ_of_lt h2, h3⟩
    unfold MoveDeclarationOutOfIfOp.loop at h
    split at h
    · simp at h
    · rename_i node hnode
      split at h
      · exact hstep _ _ hpat h
      · rename_i statement hif
        have hself := AST.asIfStatement_eq_some node statement hif
        subst hself
        obtain ⟨pts, pd, hpc⟩ := hpat
        rcases structuralMatcher_cases statement pattern with ⟨hb, hm⟩ | ⟨-, hm⟩
        · obtain ⟨ts, od, hcond⟩ := bindPattern_condition statement pattern statement pts pd hpc hb
          rw [hm] at h
          simp only [if_true] at h
          rw [hcond] at h
          simp only [Option.bind_some, AST.declarator] at h
          split at h
          · exact hstep _ _ ⟨ts, od, hcond⟩ h
          · rename_i declarator hdecl
            subst hdecl
            split at h
            · simp only [Option.some.injEq, Prod.mk.injEq] at h
              left; exact h.1.symm
            · rename_i coreNode hcore
              split at h
              · rename_i hon
                simp only [Option.some.injEq, Prod.mk.injEq] at h
                right
                refine ⟨k, statement, ts, declarator, coreNode, h.1.symm, Nat.lt_succ_self _,
                  hnode, hif, hcond, hcore, hon, ?_⟩
                rw [← h.2, hcond, hcore]
              · exact hstep _ _ ⟨ts, some declarator, hcond⟩ h
        · rw [hm] at h
          simp only [Bool.false_eq_true, if_false] at h
          exact hstep _ _ ⟨pts, pd, hpc⟩ h

theorem MoveDeclarationOutOfWhileOp.moveWhile_loop_spec (doc : Document) (tc : TextCursor)
    (path : List AST) :
    ∀ (k : Nat) (pattern : AST) (core : Option AST) (r : Int)
      (self1 : MoveDeclarationOutOfWhileOp),
      (∃ pts pd, pattern.condition = some (.Condition pts pd)) →
      MoveDeclarationOutOfWhileOp.loop doc tc structuralMatcher path k pattern core
        = some (r, self1) →
      r = -1 ∨ ∃ (j : Nat) (n : AST) (ts : List AST) (d c : AST), r = (j : Int) ∧ j < k ∧
        path[j]? = some n ∧ n.asWhileStatement = some n ∧
        n.condition = some (.Condition ts (some d)) ∧ d.core_declarator = some c ∧
        d.equals_token ≠ 0 ∧ d.initializer ≠ none ∧
        QuickFixOperation.isCursorOnAST doc tc c = true ∧
        self1 = { condition := n.condition, pattern := some n, core := some c } := by
  intro k
  induction k with
  | zero =>
    intro pattern core r self1 _ h
    simp only [MoveDeclarationOutOfWhileOp.loop, Option.some.injEq, Prod.mk.injEq] at h
    left; exact h.1.symm
  | succ k ih =>
    intro pattern core r self1 hpat h
    have hstep : ∀ (p : AST) (c0 : Option AST),
        (∃ pts pd, p.condition = some (.Condition pts pd)) →
        MoveDeclarationOutOfWhileOp.loop doc tc structuralMatcher path k p c0
          = some (r, self1) →
        r = -1 ∨ ∃ (j : Nat) (n : AST) (ts : List AST) (d c : AST), r = (j : Int) ∧
          j < k + 1 ∧ path[j]? = some n ∧ n.asWhileStatement = some n ∧
          n.condition = some (.Condition ts (some d)) ∧ d.core_declarator = some c ∧
          d.equals_token ≠ 0 ∧ d.initializer ≠ none ∧
          QuickFixOperation.isCursorOnAST doc tc c = true ∧
          self1 = { condition := n.condition, pattern := some n, core := some c } := by
      intro p c0 hp hl
      rcases ih p c0 r self1 hp hl with h1 | ⟨j, n, ts, d, c, h1, h2, h3⟩
      · left; exact h1
      · right; exact ⟨j, n, ts, d, c, h1, Nat.lt_succ_of_lt h2, h3⟩
    unfold MoveDeclarationOutOfWhileOp.loop at h
    split at h
    · simp at h
    · rename_i node hnode
      split at h
      · exact hstep _ _ hpat h
      · rename_i statement hwhile
        have hself := AST.asWhileStatement_eq_some node statement hwhile
        subst hself
        obtain ⟨pts, pd, hpc⟩ := hpat
        rcases structuralMatcher_cases statement pattern with ⟨hb, hm⟩ | ⟨-, hm⟩
        · obtain ⟨ts, od, hcond⟩ := bindPattern_condition statement pattern statement pts pd hpc hb
          rw [hm] at h
          simp only [if_true] at h
          rw [hcond] at h
          simp only [Option.bind_some, AST.declarator] at h
          split at h
          · exact hstep _ _ ⟨ts, od, hcond⟩ h
          · rename_i declarator hdecl
            subst hdecl
            split at h
            · simp only [Option.some.injEq, Prod.mk.injEq] at h
              left; exact h.1.symm
            · rename_i coreNode hcore
              split at h
              · simp only [Option.some.injEq, Prod.mk.injEq] at h
                left; exact h.1.symm
              · rename_i heq
                split at h
                · simp only [Option.some.injEq, Prod.mk.injEq] at h
                  left; exact h.1.symm
                · rename_i hinit
                  split at h
                  · rename_i hon
                    simp only [Option.some.injEq, Prod.mk.injEq] at h
                    right
                    refine ⟨k, statement, ts, declarator, coreNode, h.1.symm,
                      Nat.lt_succ_self _, hnode, hwhile, hcond, hcore, by simpa using heq,
                      ?_, hon, ?_⟩
                    · intro hnone
                      rw [hnone] at hinit
                      exact hinit rfl
                    · rw [← h.2, hcond, hcore]
                  · exact hstep _ _ ⟨ts, some declarator, hcond⟩ h
        · rw [hm] at h
          simp only [Bool.false_eq_true, if_false] at h
          exact hstep _ _ ⟨pts, pd, hpc⟩ h

theorem MoveDeclarationOutOfIfOp.moveIf_match_spec (doc : Document) (tc : TextCursor)
    (self self1 : MoveDeclarationOutOfIfOp) (path : List AST) (r : Int)
    (h : MoveDeclarationOutOfIfOp.match_ doc tc structuralMatcher self path = some (r, self1))
    (hr : r ≠ -1) :
    ∃ (n : AST) (ts : List AST) (d c : AST), path[r.toNat]? = some n ∧
      n.asIfStatement = some n ∧ n.condition = some (.Condition ts (some d)) ∧
      d.core_declarator = some c ∧ QuickFixOperation.isCursorOnAST doc tc c = true ∧
      self1 = { condition := n.condition, pattern := some n, core := some c } := by
  unfold MoveDeclarationOutOfIfOp.match_ at h
  rcases MoveDeclarationOutOfIfOp.moveIf_loop_spec doc tc path path.length
      (mk.IfStatement mk.Condition) self.core r self1 ⟨[], none, rfl⟩ h with
    h1 | ⟨j, n, ts, d, c, h1, -, h3, h4⟩
  · exact absurd h1 hr
  · subst h1
    exact ⟨n, ts, d, c, by simpa using h3, h4⟩

theorem MoveDeclarationOutOfWhileOp.moveWhile_match_spec (doc : Document) (tc : TextCursor)
    (self self1 : MoveDeclarationOutOfWhileOp) (path : List AST) (r : Int)
    (h : MoveDeclarationOutOfWhileOp.match_ doc tc structuralMatcher self path
      = some (r, self1))
    (hr : r ≠ -1) :
    ∃ (n : AST) (ts : List AST) (d c : AST), path[r.toNat]? = some n ∧
      n.asWhileStatement = some n ∧ n.condition = some (.Condition ts (some d)) ∧
      d.core_declarator = some c ∧ d.equals_token ≠ 0 ∧ d.initializer ≠ none ∧
      QuickFixOperation.isCursorOnAST doc tc c = true ∧
      self1 = { condition := n.condition, pattern := some n, core := some c } := by
  unfold MoveDeclarationOutOfWhileOp.match_ at h
  rcases MoveDeclarationOutOfWhileOp.moveWhile_loop_spec doc tc path path.length
      (mk.WhileStatement mk.Condition) self.core r self1 ⟨[], none, rfl⟩ h with h1 | ⟨j, n, ts, d, c, h1, -, h3, h4⟩
  · exact absurd h1 hr
  · subst h1
    exact ⟨n, ts, d, c, by simpa using h3, h4⟩

/-- C19, counterexample: on `if (Type name) { }`, whose condition declares `name` without
an equals token and without an initializer, `MoveDeclarationOutOfIfOp::match` with the
cursor on `name` returns the index 0 of the if-statement. -/
theorem moveDeclarationOutOfIf_matches_without_initializer :
    (MoveDeclarationOutOfIfOp.match_ noInitDocument (exampleCursor 9) structuralMatcher
        ⟨none, none, none⟩ (ASTPath.run noInitDocument (exampleCursor 9))).map Prod.fst
      = some 0 ∧
    (ASTPath.run noInitDocument (exampleCursor 9))[0]? = some noInitStatement ∧
    ((noInitStatement.condition.bind AST.declarator).map
      fun d => (d.equals_token, d.initializer.isSome)) = some (0, false) := by
  refine ⟨by decide, rfl, by decide⟩

/-- C19, amended: with the structural matcher, when `MoveDeclarationOutOfWhileOp::match`
returns an index other than -1 the node at that index is a while-statement whose
condition is a declaration with a declarator that has a core declarator, an equals token
and an initializer, and the start of the selection is on the core declarator; when
`MoveDeclarationOutOfIfOp::match` returns an index other than -1 the node at that index
is an if-statement whose condition is a declaration with a declarator that has a core
declarator, and the start of the selection is on it (no initializer is required). -/
theorem moveDeclaration_match_condition (doc : Document) (tc : TextCursor) (path : List AST)
    (r : Int) (hr : r ≠ -1) :
    (∀ (self self1 : MoveDeclarationOutOfWhileOp),
      MoveDeclarationOutOfWhileOp.match_ doc tc structuralMatcher self path = some (r, self1) →
      ∃ (n : AST) (ts : List AST) (d c : AST), path[r.toNat]? = some n ∧
        n.asWhileStatement = some n ∧ n.condition = some (.Condition ts (some d)) ∧
        d.core_declarator = some c ∧ d.equals_token ≠ 0 ∧ d.initializer ≠ none ∧
        QuickFixOperation.isCursorOnAST doc tc c = true) ∧
    (∀ (self self1 : MoveDeclarationOutOfIfOp),
      MoveDeclarationOutOfIfOp.match_ doc tc structuralMatcher self path = some (r, self1) →
      ∃ (n : AST) (ts : List AST) (d c : AST), path[r.toNat]? = some n ∧
        n.asIfStatement = some n ∧ n.condition = some (.Condition ts (some d)) ∧
        d.core_declarator = some c ∧ QuickFixOperation.isCursorOnAST doc tc c = true) := by
  constructor
  · intro self self1 h
    obtain ⟨n, ts, d, c, h1, h2, h3, h4, h5, h6, h7, -⟩ :=
      MoveDeclarationOutOfWhileOp.moveWhile_match_spec doc tc self self1 path r h hr
    exact ⟨n, ts, d, c, h1, h2, h3, h4, h5, h6, h7⟩
  · intro self self1 h
    obtain ⟨n, ts, d, c, h1, h2, h3, h4, h5, -⟩ :=
      MoveDeclarationOutOfIfOp.moveIf_match_spec doc tc self self1 path r h hr
    exact ⟨n, ts, d, c, h1, h2, h3, h4, h5⟩

/-- Witness of `moveDeclaration_match_condition`: on
`while (Type name = foo()) { use(name); }` and on `if (Type name = foo()) { use(name); }`
with the cursor on `name` the rules return index 0, and the chain holds there a statement
whose condition declares `name`, for the while-statement with an initializer. -/
theorem moveDeclaration_match_condition_witness :
    (∃ (n : AST) (ts : List AST) (d c : AST),
      (ASTPath.run moveWhileDocument (exampleCursorIn moveWhileText 12))[(0 : Int).toNat]?
        = some n ∧
      n.asWhileStatement = some n ∧ n.condition = some (.Condition ts (some d)) ∧
      d.core_declarator = some c ∧ d.equals_token ≠ 0 ∧ d.initializer ≠ none ∧
      QuickFixOperation.isCursorOnAST moveWhileDocument (exampleCursorIn moveWhileText 12) c
        = true) ∧
    (∃ (n : AST) (ts : List AST) (d c : AST),
      (ASTPath.run moveIfDocument (exampleCursorIn moveIfText 9))[(0 : Int).toNat]?
        = some n ∧
      n.asIfStatement = some n ∧ n.condition = some (.Condition ts (some d)) ∧
      d.core_declarator = some c ∧
      QuickFixOperation.isCursorOnAST moveIfDocument (exampleCursorIn moveIfText 9) c
        = true) :=
  ⟨(moveDeclaration_match_condition moveWhileDocument (exampleCursorIn moveWhileText 12)
      (ASTPath.run moveWhileDocument (exampleCursorIn moveWhileText 12)) 0 (by decide)).1
      ⟨none, none, none⟩ moveWhileMatched.2 rfl,
   (moveDeclaration_match_condition moveIfDocument (exampleCursorIn moveIfText 9)
      (ASTPath.run moveIfDocument (exampleCursorIn moveIfText 9)) 0 (by decide)).2
      ⟨none, none, none⟩ moveIfMatched.2 rfl⟩

/-- C20 at a failing input: on `if ( Type name = foo()) { use(name); }`, a blank after the
opening parenthesis, with the cursor on `name`, `MoveDeclarationOutOfIfOp::match` returns
index 0 and `createChangeSet` records three edits in offsets of the original text: the
insertion of the declaration text followed by `;` and a newline at offset 0, the insertion
of `name` at offset 4 (the end of the opening parenthesis), and the replacement of the
condition, offsets 5 to 22, by `name`.  The three edits start at different offsets and
their ranges are apart, so the text they give does not depend on the order in which they
are applied: written to the buffer they give `Type name = foo();` newline
`if (name name) { use(name); }`, a condition that names `name` twice, not the one read
`if (` + `name` + `)`. -/
theorem moveDeclarationOutOfIf_inserts_name_twice :
    moveIfSpacedMatched.1 = 0 ∧
    (MoveDeclarationOutOfIfOp.createChangeSet moveIfSpacedDocument
        (exampleCursorIn moveIfSpacedText 10) moveIfSpacedMatched.2 EditState.initial).map
        (fun s => (s._changeSet.m_replaceList, s._changeSet.m_moveList))
      = some ([⟨0, 0, "Type name = foo();\n"⟩, ⟨4, 0, "name"⟩, ⟨5, 17, "name"⟩], []) ∧
    (MoveDeclarationOutOfIfOp.createChangeSet moveIfSpacedDocument
        (exampleCursorIn moveIfSpacedText 10) moveIfSpacedMatched.2 EditState.initial).bind
        (fun s => s._changeSet.write moveIfSpacedText)
      = some "Type name = foo();\nif (name name) \x7b use(name); \x7d" ∧
    "Type name = foo()" ++ ";" ++ "\n" ++ "if (" ++ "name" ++ ") \x7b use(name); \x7d"
      ≠ "Type name = foo();\nif (name name) \x7b use(name); \x7d" := by
  refine ⟨by decide, by decide, by decide, by decide⟩

theorem AST.asBinaryExpression_eq_some (n d : AST) (h : n.asBinaryExpression = some d) :
    d = n := by
  cases n <;> simp only [AST.asBinaryExpression, Option.some.injEq] at h <;>
    first
      | contradiction
      | exact h.symm

/-! ## Rule split-if-statement -/

theorem SplitIfStatementOp.findIfStatement_spec (path : List AST) :
    ∀ k, k ≤ path.length →
      (∃ j s, j < k ∧ path[j]? = some s ∧ s.asIfStatement = some s ∧
          (∀ (i : Nat) (n : AST), j < i → i < k → path[i]? = some n → n.asIfStatement = none) ∧
          SplitIfStatementOp.findIfStatement path k = some ((j : Int), some s)) ∨
        ((∀ (i : Nat) (n : AST), i < k → path[i]? = some n → n.asIfStatement = none) ∧
          SplitIfStatementOp.findIfStatement path k = some (-1, none)) := by
  intro k
  induction k with
  | zero =>
    intro _
    right
    exact ⟨fun i n hi => absurd hi (Nat.not_lt_zero i), rfl⟩
  | succ k ih =>
    intro hk
    have hlt : k < path.length := hk
    have hget : path[k]? = some path[k] := List.getElem?_eq_getElem hlt
    unfold SplitIfStatementOp.findIfStatement
    rw [hget]
    simp only
    cases has : (path[k]).asIfStatement with
    | some e =>
      left
      have he : e = path[k] := AST.asIfStatement_eq_some _ _ has
      subst he
      refine ⟨k, path[k], Nat.lt_succ_self k, hget, has, ?_, rfl⟩
      intro i n h1 h2 _
      omega
    | none =>
      simp only
      rcases ih (Nat.le_of_lt hlt) with ⟨j, e, hj, hje, hee, hnone, hfind⟩ | ⟨hnone, hfind⟩
      · left
        refine ⟨j, e, Nat.lt_succ_of_lt hj, hje, hee, ?_, hfind⟩
        intro i n h1 h2 hin
        by_cases hik : i = k
        · subst hik
          rw [hget] at hin
          simp only [Option.some.injEq] at hin
          rw [← hin]; exact has
        · exact hnone i n h1 (by omega) hin
      · right
        refine ⟨?_, hfind⟩
        intro i n h2 hin
        by_cases hik : i = k
        · subst hik
          rw [hget] at hin
          simp only [Option.some.injEq] at hin
          rw [← hin]; exact has
        · exact hnone i n (by omega) hin

theorem SplitIfStatementOp.splitIf_loop_spec (doc : Document) (tc : TextCursor) :
    ∀ (rest : List AST) (index : Int) (self : SplitIfStatementOp) (r : Int)
      (self1 : SplitIfStatementOp),
      SplitIfStatementOp.loop doc tc rest index self = some (r, self1) →
      (∃ (t : Nat) (e : AST), r = index + (t : Int) ∧ rest[t]? = some e ∧
          e.asBinaryExpression = some e ∧
          QuickFixOperation.isCursorOn doc tc e.binary_op_token = true ∧
          self1 = { self with condition := some e } ∧
          (∀ k : Nat, k ≤ t → ∃ e1 : AST, rest[k]? = some e1 ∧
            e1.asBinaryExpression.isSome = true ∧
            ((doc.tokenAt e1.binary_op_token).kind = Kind.T_AMPER_AMPER ∨
              (doc.tokenAt e1.binary_op_token).kind = Kind.T_PIPE_PIPE)) ∧
          (∀ (k : Nat) (e1 : AST), k < t → rest[k]? = some e1 →
            QuickFixOperation.isCursorOn doc tc e1.binary_op_token = false)) ∨
        (r = -1 ∧ ∀ t : Nat,
          (∀ k : Nat, k ≤ t → ∃ e1 : AST, rest[k]? = some e1 ∧
            e1.asBinaryExpression.isSome = true ∧
            ((doc.tokenAt e1.binary_op_token).kind = Kind.T_AMPER_AMPER ∨
              (doc.tokenAt e1.binary_op_token).kind = Kind.T_PIPE_PIPE)) →
          ¬ ∃ e : AST, rest[t]? = some e ∧
            QuickFixOperation.isCursorOn doc tc e.binary_op_token = true) := by
  intro rest
  induction rest with
  | nil =>
    intro index self r self1 h
    simp only [SplitIfStatementOp.loop, Option.some.injEq, Prod.mk.injEq] at h
    right
    refine ⟨h.1.symm, ?_⟩
    rintro t - ⟨e, he, -⟩
    simp at he
  | cons node rest ih =>
    intro index self r self1 h
    unfold SplitIfStatementOp.loop at h
    simp only at h
    split at h
    · rename_i hbin
      simp only [Option.some.injEq, Prod.mk.injEq] at h
      right
      refine ⟨h.1.symm, ?_⟩
      intro t hall _
      obtain ⟨e1, he1, hb1, -⟩ := hall 0 (Nat.zero_le _)
      simp only [List.getElem?_cons_zero, Option.some.injEq] at he1
      subst he1
      rw [hbin] at hb1
      contradiction
    · rename_i cond hbin
      have hself : cond = node := (AST.asBinaryExpression_eq_some node cond hbin)
      subst hself
      split at h
      · rename_i hop
        have hop1 : (doc.tokenAt cond.binary_op_token).kind = Kind.T_AMPER_AMPER ∨
            (doc.tokenAt cond.binary_op_token).kind = Kind.T_PIPE_PIPE := by
          simpa [Token.is] using hop
        split at h
        · rename_i hon
          simp only [Option.some.injEq, Prod.mk.injEq] at h
          left
          refine ⟨0, cond, by simpa using h.1.symm, List.getElem?_cons_zero, hbin, hon, ?_, ?_, ?_⟩
          · rw [← h.2, hbin]
          · intro k hk
            have hk0 : k = 0 := by omega
            subst hk0
            exact ⟨cond, List.getElem?_cons_zero, by rw [hbin]; rfl, hop1⟩
          · intro k e1 hk
            omega
        · rename_i hoff
          have hoff1 : QuickFixOperation.isCursorOn doc tc cond.binary_op_token = false := by
            simpa using hoff
          rcases ih _ _ _ _ h with ⟨t, e, hr, het, heb, hon, hs1, hall, hnone⟩ | ⟨hr, hno⟩
          · left
            refine ⟨t + 1, e, ?_, by simpa using het, heb, hon, ?_, ?_, ?_⟩
            · rw [hr]; push_cast; ring
            · rw [hs1]
            · intro k hk
              cases k with
              | zero => exact ⟨cond, List.getElem?_cons_zero, by rw [hbin]; rfl, hop1⟩
              | succ k =>
                obtain ⟨e1, h1, h2⟩ := hall k (by omega)
                exact ⟨e1, by simpa using h1, h2⟩
            · intro k e1 hk hk1
              cases k with
              | zero =>
                simp only [List.getElem?_cons_zero, Option.some.injEq] at hk1
                subst hk1
                exact hoff1
              | succ k =>
                exact hnone k e1 (by omega) (by simpa using hk1)
          · right
            refine ⟨hr, ?_⟩
            intro t hall hex
            cases t with
            | zero =>
              obtain ⟨e, he, hon⟩ := hex
              simp only [List.getElem?_cons_zero, Option.some.injEq] at he
              subst he
              rw [hoff1] at hon
              contradiction
            | succ t =>
              refine hno t ?_ ?_
              · intro k hk
                obtain ⟨e1, h1, h2⟩ := hall (k + 1) (by omega)
                exact ⟨e1, by simpa using h1, h2⟩
              · obtain ⟨e, he, hon⟩ := hex
                exact ⟨e, by simpa using he, hon⟩
      · rename_i hop
        simp only [Option.some.injEq, Prod.mk.injEq] at h
        right
        refine ⟨h.1.symm, ?_⟩
        intro t hall _
        obtain ⟨e1, he1, -, hk1⟩ := hall 0 (Nat.zero_le _)
        simp only [List.getElem?_cons_zero, Option.some.injEq] at he1
        subst he1
        apply hop
        simpa [Token.is] using hk1
theorem SplitIfStatementOp.splitIf_loop_total (doc : Document) (tc : TextCursor) :
    ∀ (rest : List AST) (index : Int) (self : SplitIfStatementOp),
      ∃ r self1, SplitIfStatementOp.loop doc tc rest index self = some (r, self1) := by
  intro rest
  induction rest with
  | nil => intro index self; exact ⟨_, _, rfl⟩
  | cons node rest ih =>
    intro index self
    unfold SplitIfStatementOp.loop
    simp only
    split
    · exact ⟨_, _, rfl⟩
    · split
      · split
        · exact ⟨_, _, rfl⟩
        · exact ih _ _
      · exact ⟨_, _, rfl⟩

theorem SplitIfStatementOp.splitIf_match_found (doc : Document) (tc : TextCursor)
    (self : SplitIfStatementOp) (path : List AST) (j : Nat) (s : AST)
    (hfind : SplitIfStatementOp.findIfStatement path path.length = some ((j : Int), some s)) :
    ∃ r self1, SplitIfStatementOp.match_ doc tc self path = some (r, self1) ∧
      ((∃ (i : Nat) (e : AST), r = (i : Int) ∧ SplitIfStatementOp.anchors doc tc path j i ∧
          path[i]? = some e ∧ e.asBinaryExpression = some e ∧
          self1 = { condition := some e, pattern := some s }) ∨
        (r = -1 ∧ ∀ i : Nat, ¬ SplitIfStatementOp.anchors doc tc path j i)) := by
  have hm : SplitIfStatementOp.match_ doc tc self path
      = SplitIfStatementOp.loop doc tc (path.drop (j + 1)) ((j : Int) + 1)
          { self with pattern := some s } := by
    unfold SplitIfStatementOp.match_
    rw [hfind]
    simp only
    congr 2
  obtain ⟨r, self1, hl⟩ := SplitIfStatementOp.splitIf_loop_total doc tc (path.drop (j + 1))
    ((j : Int) + 1) { self with pattern := some s }
  refine ⟨r, self1, hm.trans hl, ?_⟩
  rcases SplitIfStatementOp.splitIf_loop_spec doc tc _ _ _ _ _ hl with
    ⟨t, e, hr, het, heb, hon, hs1, hall, hnone⟩ | ⟨hr, hno⟩
  · left
    refine ⟨j + 1 + t, e, by rw [hr]; push_cast; ring, ⟨by omega, ?_, ?_, ?_⟩, ?_, heb, ?_⟩
    · intro k hk1 hk2
      obtain ⟨e1, h1, h2⟩ := hall (k - (j + 1)) (by omega)
      rw [List.getElem?_drop] at h1
      have hk : j + 1 + (k - (j + 1)) = k := by omega
      rw [hk] at h1
      exact ⟨e1, h1, h2⟩
    · rw [List.getElem?_drop] at het
      exact ⟨e, het, hon⟩
    · intro k e1 hk1 hk2 hke
      refine hnone (k - (j + 1)) e1 (by omega) ?_
      rw [List.getElem?_drop]
      have hk : j + 1 + (k - (j + 1)) = k := by omega
      rw [hk]
      exact hke
    · rw [List.getElem?_drop] at het
      exact het
    · rw [hs1]
  · right
    refine ⟨hr, ?_⟩
    rintro i ⟨hji, hall, ⟨e, hie, hon⟩, -⟩
    refine hno (i - (j + 1)) ?_ ⟨e, ?_, hon⟩
    · intro k hk
      obtain ⟨e1, h1, h2⟩ := hall (j + 1 + k) (by omega) (by omega)
      exact ⟨e1, by rw [List.getElem?_drop]; exact h1, h2⟩
    · rw [List.getElem?_drop]
      have hk : j + 1 + (i - (j + 1)) = i := by omega
      rw [hk]
      exact hie

theorem SplitIfStatementOp.anchors_unique (doc : Document) (tc : TextCursor)
    (path : List AST) (j i1 i2 : Nat) (h1 : SplitIfStatementOp.anchors doc tc path j i1)
    (h2 : SplitIfStatementOp.anchors doc tc path j i2) : i1 = i2 := by
  obtain ⟨hj1, -, ⟨e1, he1, hon1⟩, hoff1⟩ := h1
  obtain ⟨hj2, -, ⟨e2, he2, hon2⟩, hoff2⟩ := h2
  rcases Nat.lt_trichotomy i1 i2 with h | h | h
  · have := hoff2 i1 e1 hj1 h he1
    rw [this] at hon1
    contradiction
  · exact h
  · have := hoff1 i2 e2 hj2 h he2
    rw [this] at hon2
    contradiction

/-- C22: `SplitIfStatementOp::match` always returns.  On a chain without an if-statement it
returns -1.  With `j` the index of the innermost if-statement of the chain, it returns the
index `i` iff `j < i`, every node at `j+1..i` is a binary expression whose operator token
is `&&` or `||`, the cursor is on the operator token of the node at `i` and on the operator
token of no node at `j+1..i-1`; when no index has that property it returns -1. -/
theorem splitIfStatement_match_iff (doc : Document) (tc : TextCursor)
    (self : SplitIfStatementOp) (path : List AST) :
    ∃ r self1, SplitIfStatementOp.match_ doc tc self path = some (r, self1) ∧
      ((∀ (i : Nat) (n : AST), path[i]? = some n → n.asIfStatement = none) → r = -1) ∧
      (∀ (j : Nat) (s : AST), path[j]? = some s → s.asIfStatement.isSome = true →
        (∀ (i : Nat) (n : AST), j < i → path[i]? = some n → n.asIfStatement = none) →
        (∀ i : Nat, r = (i : Int) ↔ SplitIfStatementOp.anchors doc tc path j i) ∧
        (r = -1 ∨ ∃ i : Nat, r = (i : Int) ∧ SplitIfStatementOp.anchors doc tc path j i)) := by
  rcases SplitIfStatementOp.findIfStatement_spec path path.length (Nat.le_refl _) with
    ⟨j0, s0, hj0, hjs0, hss0, hnone0, hfind⟩ | ⟨hnone0, hfind⟩
  · obtain ⟨r, self1, hm, hcases⟩ :=
      SplitIfStatementOp.splitIf_match_found doc tc self path j0 s0 hfind
    refine ⟨r, self1, hm, ?_, ?_⟩
    · intro hno
      have := hno j0 s0 hjs0
      rw [hss0] at this
      contradiction
    · intro j s hjs hsif hinner
      have hjj : j = j0 := by
        rcases Nat.lt_trichotomy j j0 with h | h | h
        · have := hinner j0 s0 h hjs0
          rw [hss0] at this
          contradiction
        · exact h
        · have hlt : j < path.length := (List.getElem?_eq_some.1 hjs).1
          have := hnone0 j s h hlt hjs
          rw [this] at hsif
          contradiction
      subst hjj
      rcases hcases with ⟨i, e, hr, hanch, -⟩ | ⟨hr, hno⟩
      · refine ⟨?_, Or.inr ⟨i, hr, hanch⟩⟩
        intro i1
        constructor
        · intro hr1
          have : i1 = i := by
            rw [hr] at hr1
            exact_mod_cast hr1.symm
          rw [this]
          exact hanch
        · intro h1
          rw [hr, SplitIfStatementOp.anchors_unique doc tc path j i1 i h1 hanch]
      · refine ⟨?_, Or.inl hr⟩
        intro i1
        constructor
        · intro hr1
          rw [hr] at hr1
          omega
        · intro h1
          exact absurd h1 (hno i1)
  · have hm : SplitIfStatementOp.match_ doc tc self path
        = some (-1, { self with pattern := none }) := by
      unfold SplitIfStatementOp.match_
      rw [hfind]
    refine ⟨-1, _, hm, fun _ => rfl, ?_⟩
    intro j s hjs hsif _
    have hlt : j < path.length := (List.getElem?_eq_some.1 hjs).1
    have := hnone0 j s hlt hjs
    rw [this] at hsif
    contradiction

/-- Witness of `splitIfStatement_match_iff`: on `if (a && b) { y(); }` with the cursor
before `&&` the if-statement is at index 0 of the chain and the rule anchors at index 1,
the condition `a && b`. -/
theorem splitIfStatement_match_iff_witness :
    SplitIfStatementOp.anchors splitAndDocument (exampleCursorIn splitAndText 6)
      (ASTPath.run splitAndDocument (exampleCursorIn splitAndText 6)) 0 1 := by
  obtain ⟨r, self1, hm, -, h⟩ := splitIfStatement_match_iff splitAndDocument
    (exampleCursorIn splitAndText 6) ⟨none, none⟩
    (ASTPath.run splitAndDocument (exampleCursorIn splitAndText 6))
  have hr : r = ((1 : Nat) : Int) := by
    have h1 : (SplitIfStatementOp.match_ splitAndDocument (exampleCursorIn splitAndText 6)
        ⟨none, none⟩
        (ASTPath.run splitAndDocument (exampleCursorIn splitAndText 6))).map Prod.fst
        = some 1 := by
      decide
    rw [hm] at h1
    simpa using h1
  exact ((h 0 splitAndStatement rfl rfl (by
    intro i n hi hn
    have h2 : ASTPath.run splitAndDocument (exampleCursorIn splitAndText 6)
        = [splitAndStatement, splitAndCondition] := rfl
    rw [h2] at hn
    have hlt : i < 2 := (List.getElem?_eq_some.1 hn).1
    have hi1 : i = 1 := by omega
    subst hi1
    simp only [List.getElem?_cons_succ, List.getElem?_cons_zero, Option.some.injEq] at hn
    rw [← hn]
    rfl)).1 1).1 hr

theorem SplitIfStatementOp.splitIf_match_spec (doc : Document) (tc : TextCursor)
    (self self1 : SplitIfStatementOp) (path : List AST) (r : Int)
    (h : SplitIfStatementOp.match_ doc tc self path = some (r, self1)) (hr : r ≠ -1) :
    ∃ (j : Nat) (s e : AST), path[j]? = some s ∧ s.asIfStatement = some s ∧
      (∀ (i : Nat) (n : AST), j < i → path[i]? = some n → n.asIfStatement = none) ∧
      j < r.toNat ∧ path[r.toNat]? = some e ∧ e.asBinaryExpression = some e ∧
      ((doc.tokenAt e.binary_op_token).kind = Kind.T_AMPER_AMPER ∨
        (doc.tokenAt e.binary_op_token).kind = Kind.T_PIPE_PIPE) ∧
      QuickFixOperation.isCursorOn doc tc e.binary_op_token = true ∧
      self1 = { condition := some e, pattern := some s } := by
  rcases SplitIfStatementOp.findIfStatement_spec path path.length (Nat.le_refl _) with
    ⟨j0, s0, hj0, hjs0, hss0, hnone0, hfind⟩ | ⟨hnone0, hfind⟩
  · obtain ⟨r1, self2, hm, hcases⟩ :=
      SplitIfStatementOp.splitIf_match_found doc tc self path j0 s0 hfind
    rw [hm] at h
    simp only [Option.some.injEq, Prod.mk.injEq] at h
    obtain ⟨hr1, hs1⟩ := h
    subst hr1 hs1
    rcases hcases with ⟨i, e, hri, hanch, hie, heb, hself⟩ | ⟨hri, -⟩
    · subst hri
      obtain ⟨hji, hall, ⟨e1, hie1, hon⟩, -⟩ := hanch
      rw [hie] at hie1
      simp only [Option.some.injEq] at hie1
      subst hie1
      obtain ⟨e2, hie2, -, hkind⟩ := hall i hji (Nat.le_refl _)
      rw [hie] at hie2
      simp only [Option.some.injEq] at hie2
      subst hie2
      refine ⟨j0, s0, e, hjs0, hss0, ?_, by simpa using hji, by simpa using hie, heb, hkind,
        hon, hself⟩
      intro i1 n h1 h2
      exact hnone0 i1 n h1 (List.getElem?_eq_some.1 h2).1 h2
    · exact absurd hri hr
  · have hm : SplitIfStatementOp.match_ doc tc self path
        = some (-1, { self with pattern := none }) := by
      unfold SplitIfStatementOp.match_
      rw [hfind]
    rw [hm] at h
    simp only [Option.some.injEq, Prod.mk.injEq] at h
    exact absurd h.1.symm hr

/-- C23: after a successful `SplitIfStatementOp::match` the fields are the if-statement `s`
and the binary expression `e` at the returned index.  When the operator token of `e` is
`&&`, with operands `L` and `R` and the body `B` of `s`, `createChangeSet` records, with
`s` as top-level node: the replacement by the empty string of the range from the end of
`L` to the start of the closing parenthesis (provided that range is not reversed), the
insertion at the end of the closing parenthesis of space + `{` + newline + `if (` + the
text from the start of `R` to the end of the token before the closing parenthesis + `)`,
and the insertion of newline + `}` at the end of `B`.  On `if (a && b) { y(); }` the three
edits applied together give `if (a) {` / `if (b) { y(); }` / `}`. -/
theorem splitIfStatement_and_createChangeSet_edits :
    (∀ (doc : Document) (tc : TextCursor) (self self1 : SplitIfStatementOp) (path : List AST)
        (r : Int),
      SplitIfStatementOp.match_ doc tc self path = some (r, self1) → r ≠ -1 →
      ∃ s e : AST, self1 = { condition := some e, pattern := some s } ∧
        s.asIfStatement = some s ∧ path[r.toNat]? = some e ∧
        e.asBinaryExpression = some e ∧
        ∀ L R B : AST, e.left_expression = some L → e.right_expression = some R →
          s.statement = some B →
          (doc.tokenAt e.binary_op_token).kind = Kind.T_AMPER_AMPER →
          QuickFixOperation.endOfAST doc tc L ≤ QuickFixOperation.startOf doc tc s.rparen_token →
          SplitIfStatementOp.createChangeSet doc tc self1 EditState.initial
            = some
              { _topLevelNode := some s,
                _changeSet :=
                  { m_replaceList :=
                      [⟨QuickFixOperation.endOfAST doc tc L,
                          toInt32 (QuickFixOperation.startOf doc tc s.rparen_token
                            - QuickFixOperation.endOfAST doc tc L), ""⟩,
                       ⟨QuickFixOperation.endOf doc tc s.rparen_token, 0,
                          " \x7b\nif (" ++ QuickFixOperation.textOf tc
                              (QuickFixOperation.startOfAST doc tc R)
                              (QuickFixOperation.endOf doc tc (pred32 s.rparen_token))
                            ++ ")"⟩,
                       ⟨QuickFixOperation.endOfAST doc tc B, 0, "\n\x7d"⟩],
                    m_moveList := [] } }) ∧
    ((SplitIfStatementOp.createChangeSet splitAndDocument (exampleCursorIn splitAndText 6)
        splitAndMatched.2 EditState.initial).bind (fun s => s._changeSet.apply splitAndText))
      = some "if (a) \x7b\nif (b) \x7b y(); \x7d\n\x7d" := by
  constructor
  · intro doc tc self self1 path r hmatch hr
    obtain ⟨j, s, e, -, hsif, -, -, hre, heb, -, -, hself⟩ :=
      SplitIfStatementOp.splitIf_match_spec doc tc self self1 path r hmatch hr
    refine ⟨s, e, hself, hsif, hre, heb, ?_⟩
    intro L R B hL hR hB hkind hle
    subst hself
    have hk : (doc.tokenAt e.binary_op_token).is Kind.T_AMPER_AMPER = true := by
      simp [Token.is, hkind]
    simp only [SplitIfStatementOp.createChangeSet, hk, if_true,
      SplitIfStatementOp.splitAndCondition, hL, hR, hB, QuickFixOperation.setTopLevelNode,
      QuickFixOperation.replace, QuickFixOperation.insert, ge_iff_le, hle, le_refl,
      ChangeSet.replace, EditState.initial, List.nil_append, List.cons_append, sub_self,
      toInt32_zero]
  · decide

/-- Witness of `splitIfStatement_and_createChangeSet_edits`: on `if (a && b) { y(); }` with
the cursor before `&&` the match succeeds and the recorded edits are the deletion of
offsets 5..10, the insertion of space + `{` + newline + `if (b)` at offset 11 and the
insertion of newline + `}` at offset 20. -/
theorem splitIfStatement_and_createChangeSet_edits_witness :
    SplitIfStatementOp.createChangeSet splitAndDocument (exampleCursorIn splitAndText 6)
        splitAndMatched.2 EditState.initial
      = some { _topLevelNode := some splitAndStatement,
               _changeSet := { m_replaceList := [⟨5, 5, ""⟩, ⟨11, 0, " \x7b\nif (b)"⟩,
                                 ⟨20, 0, "\n\x7d"⟩],
                               m_moveList := [] } } := by
  obtain ⟨s, e, hs1, -, -, -, hcs⟩ :=
    splitIfStatement_and_createChangeSet_edits.1 splitAndDocument
      (exampleCursorIn splitAndText 6) ⟨none, none⟩ splitAndMatched.2
      (ASTPath.run splitAndDocument (exampleCursorIn splitAndText 6)) 1 rfl (by decide)
  have hfields : splitAndMatched.2
      = { condition := some splitAndCondition, pattern := some splitAndStatement } := rfl
  rw [hfields] at hs1
  simp only [SplitIfStatementOp.mk.injEq, Option.some.injEq] at hs1
  obtain ⟨he, hs⟩ := hs1
  subst he hs
  exact hcs (.Other 4 [3] []) (.Other 4 [5] [])
    (.CompoundStatement 7 [.Other 3 [11] [.Other 6 [9, 10] [.Other 4 [8] []]]] 12)
    rfl rfl rfl (by decide) (by decide)

/-- C24: after a successful `SplitIfStatementOp::match` with fields `s` and `e`, when the
operator token of `e` is `||`, with operands `L` and `R` and the body `B` of `s`,
`createChangeSet` records, with `s` as top-level node: the replacement by the empty string
of the range from the end of `L` to the start of the closing parenthesis (provided that
range is not reversed), and the insertion at the end of the if-statement of sep +
`else if (` + the text from the start of `R` to the end of the token before the closing
parenthesis + `)` + the text from the end of the closing parenthesis to the end of `B`,
where sep is one space when `B` is a compound statement and a newline otherwise.  Both
texts are what `selectedText()` returns, so a line break of the buffer inside the body
is recorded as the paragraph separator U+2029.  On the two-line example the recorded
insertion is newline + `else if (something_else)` + U+2029 + ` x;`, and the two edits
written to the buffer, where the separator starts a new line, give `if (something)` /
` x;` / `else if (something_else)` / ` x;`. -/
theorem splitIfStatement_or_createChangeSet_edits :
    (∀ (doc : Document) (tc : TextCursor) (self self1 : SplitIfStatementOp) (path : List AST)
        (r : Int),
      SplitIfStatementOp.match_ doc tc self path = some (r, self1) → r ≠ -1 →
      ∃ s e : AST, self1 = { condition := some e, pattern := some s } ∧
        s.asIfStatement = some s ∧ path[r.toNat]? = some e ∧
        e.asBinaryExpression = some e ∧
        ∀ L R B : AST, e.left_expression = some L → e.right_expression = some R →
          s.statement = some B →
          (doc.tokenAt e.binary_op_token).kind = Kind.T_PIPE_PIPE →
          QuickFixOperation.endOfAST doc tc L ≤ QuickFixOperation.startOf doc tc s.rparen_token →
          SplitIfStatementOp.createChangeSet doc tc self1 EditState.initial
            = some
              { _topLevelNode := some s,
                _changeSet :=
                  { m_replaceList :=
                      [⟨QuickFixOperation.endOfAST doc tc L,
                          toInt32 (QuickFixOperation.startOf doc tc s.rparen_token
                            - QuickFixOperation.endOfAST doc tc L), ""⟩,
                       ⟨QuickFixOperation.endOfAST doc tc s, 0,
                          (if B.asCompoundStatement.isSome then " " else "\n")
                            ++ "else if (" ++ QuickFixOperation.textOf tc
                              (QuickFixOperation.startOfAST doc tc R)
                              (QuickFixOperation.endOf doc tc (pred32 s.rparen_token))
                            ++ ")" ++ QuickFixOperation.textOf tc
                              (QuickFixOperation.endOf doc tc s.rparen_token)
                              (QuickFixOperation.endOfAST doc tc B)⟩],
                    m_moveList := [] } }) ∧
    ((SplitIfStatementOp.createChangeSet splitOrDocument (splitOrCursor 14)
          splitOrMatched.2 EditState.initial).map (fun s => s._changeSet.m_replaceList)
        = some [⟨13, 18, ""⟩, ⟨36, 0, "\nelse if (something_else)\u2029 x;"⟩] ∧
      (SplitIfStatementOp.createChangeSet splitOrDocument (splitOrCursor 14)
          splitOrMatched.2 EditState.initial).bind (fun s => s._changeSet.write splitOrText)
        = some "if (something)\n x;\nelse if (something_else)\n x;") := by
  constructor
  · intro doc tc self self1 path r hmatch hr
    obtain ⟨j, s, e, -, hsif, -, -, hre, heb, -, -, hself⟩ :=
      SplitIfStatementOp.splitIf_match_spec doc tc self self1 path r hmatch hr
    refine ⟨s, e, hself, hsif, hre, heb, ?_⟩
    intro L R B hL hR hB hkind hle
    subst hself
    have hk : (doc.tokenAt e.binary_op_token).is Kind.T_AMPER_AMPER = false := by
      simp [Token.is, hkind]
    simp only [SplitIfStatementOp.createChangeSet, hk, Bool.false_eq_true, if_false,
      SplitIfStatementOp.splitOrCondition, hL, hR, hB, QuickFixOperation.setTopLevelNode,
      QuickFixOperation.replace, QuickFixOperation.insert, ge_iff_le, hle, le_refl, if_true,
      ChangeSet.replace, EditState.initial, List.nil_append, List.cons_append, sub_self,
      toInt32_zero]
  · exact ⟨by decide, by decide⟩

/-- Witness of `splitIfStatement_or_createChangeSet_edits`: on the two-line example with
the cursor before `||` the match succeeds and the recorded edits are the deletion of
offsets 13..31 and the insertion of the else-if branch at offset 36, the line break of the
copied body being the paragraph separator U+2029. -/
theorem splitIfStatement_or_createChangeSet_edits_witness :
    SplitIfStatementOp.createChangeSet splitOrDocument (splitOrCursor 14)
        splitOrMatched.2 EditState.initial
      = some { _topLevelNode := some splitOrStatement,
               _changeSet := { m_replaceList := [⟨13, 18, ""⟩,
                                 ⟨36, 0, "\nelse if (something_else)\u2029 x;"⟩],
                               m_moveList := [] } } := by
  obtain ⟨s, e, hs1, -, -, -, hcs⟩ :=
    splitIfStatement_or_createChangeSet_edits.1 splitOrDocument
      (splitOrCursor 14) ⟨none, none⟩ splitOrMatched.2
      (ASTPath.run splitOrDocument (splitOrCursor 14)) 1 rfl (by decide)
  have hfields : splitOrMatched.2
      = { condition := some splitOrCondition, pattern := some splitOrStatement } := rfl
  rw [hfields] at hs1
  simp only [SplitIfStatementOp.mk.injEq, Option.some.injEq] at hs1
  obtain ⟨he, hs⟩ := hs1
  subst he hs
  exact hcs (.Other 4 [3] []) (.Other 4 [5] []) splitOrBody rfl rfl rfl (by decide) (by decide)

/-! ## Absent children -/

theorem RewriteLogicalAndOp.rewrite_match_total (doc : Document) (tc : TextCursor)
    (matcher : ASTMatcher) (self : RewriteLogicalAndOp) (path : List AST) :
    (RewriteLogicalAndOp.match_ doc tc matcher self path).isSome = true := by
  unfold RewriteLogicalAndOp.match_
  rcases RewriteLogicalAndOp.findExpression_spec path path.length (Nat.le_refl _) with
    ⟨j, e, -, -, -, -, hfind⟩ | ⟨-, hfind⟩
  · rw [hfind]
    simp only
    split
    · rfl
    · split <;> rfl
  · rw [hfind]
    rfl

theorem SplitIfStatementOp.splitIf_match_total (doc : Document) (tc : TextCursor)
    (self : SplitIfStatementOp) (path : List AST) :
    (SplitIfStatementOp.match_ doc tc self path).isSome = true := by
  rcases SplitIfStatementOp.findIfStatement_spec path path.length (Nat.le_refl _) with
    ⟨j, s, -, -, -, -, hfind⟩ | ⟨-, hfind⟩
  · obtain ⟨r, self1, hm, -⟩ := SplitIfStatementOp.splitIf_match_found doc tc self path j s hfind
    rw [hm]
    rfl
  · unfold SplitIfStatementOp.match_
    rw [hfind]
    rfl

theorem MoveDeclarationOutOfIfOp.moveIf_loop_total (doc : Document) (tc : TextCursor)
    (matcher : ASTMatcher) (path : List AST) :
    ∀ (k : Nat) (pattern : AST) (core : Option AST), k ≤ path.length →
      (MoveDeclarationOutOfIfOp.loop doc tc matcher path k pattern core).isSome = true := by
  intro k
  induction k with
  | zero => intro pattern core _; rfl
  | succ k ih =>
    intro pattern core hk
    have hlt : k < path.length := hk
    have hget : path[k]? = some path[k] := List.getElem?_eq_getElem hlt
    unfold MoveDeclarationOutOfIfOp.loop
    rw [hget]
    simp only
    split
    · exact ih _ _ (Nat.le_of_lt hlt)
    · split
      · split
        · exact ih _ _ (Nat.le_of_lt hlt)
        · split
          · rfl
          · split
            · rfl
            · exact ih _ _ (Nat.le_of_lt hlt)
      · exact ih _ _ (Nat.le_of_lt hlt)

theorem MoveDeclarationOutOfWhileOp.moveWhile_loop_total (doc : Document) (tc : TextCursor)
    (matcher : ASTMatcher) (path : List AST) :
    ∀ (k : Nat) (pattern : AST) (core : Option AST), k ≤ path.length →
      (MoveDeclarationOutOfWhileOp.loop doc tc matcher path k pattern core).isSome = true := by
  intro k
  induction k with
  | zero => intro pattern core _; rfl
  | succ k ih =>
    intro pattern core hk
    have hlt : k < path.length := hk
    have hget : path[k]? = some path[k] := List.getElem?_eq_getElem hlt
    unfold MoveDeclarationOutOfWhileOp.loop
    rw [hget]
    simp only
    split
    · exact ih _ _ (Nat.le_of_lt hlt)
    · split
      · split
        · exact ih _ _ (Nat.le_of_lt hlt)
        · split
          · rfl
          · split
            · rfl
            · split
              · rfl
              · split
                · rfl
                · exact ih _ _ (Nat.le_of_lt hlt)
      · exact ih _ _ (Nat.le_of_lt hlt)

theorem SplitSimpleDeclarationOp.splitDecl_loop_total (doc : Document) (tc : TextCursor)
    (path : List AST) (self : SplitSimpleDeclarationOp) :
    ∀ (k : Nat) (core : Option AST), k ≤ path.length →
      (SplitSimpleDeclarationOp.loop doc tc path self k core).isSome = true := by
  intro k
  induction k with
  | zero => intro core _; rfl
  | succ k ih =>
    intro core hk
    have hlt : k < path.length := hk
    have hget : path[k]? = some path[k] := List.getElem?_eq_getElem hlt
    unfold SplitSimpleDeclarationOp.loop
    rw [hget]
    simp only
    split
    · exact ih _ (Nat.le_of_lt hlt)
    · split
      · split
        · split
          · rfl
          · split
            · split <;> rfl
            · rfl
        · rfl
      · exact ih _ (Nat.le_of_lt hlt)

/-- C28 at a failing input: for the incomplete text `if (x)`, whose if-statement has no
body, with the cursor on `x`, the chain is the if-statement and the name `x`, and the loop
of `AddBracesToIfOp::match` evaluates `isCursorOn(ifStatement->statement)` on the null
body: the call returns nothing, neither -1 nor an index, and so does `startCompletion`.
The other five rules return a priority or -1 on every chain, for every matcher. -/
theorem addBraces_loop_dereferences_null_body :
    (ASTPath.run noBodyDocument (exampleCursor 4) = [noBodyStatement, .Other 4 [3] []] ∧
      (AddBracesToIfOp.match_ noBodyDocument (exampleCursor 4) { _statement := none }
        (ASTPath.run noBodyDocument (exampleCursor 4))).isNone = true ∧
      (CPPQuickFixCollector.startCompletion structuralMatcher freshCollector
        noBodyNameEditor).isNone = true) ∧
    (∀ (doc : Document) (tc : TextCursor) (matcher : ASTMatcher) (path : List AST),
      (∀ self, (RewriteLogicalAndOp.match_ doc tc matcher self path).isSome = true) ∧
      (∀ self, (SplitIfStatementOp.match_ doc tc self path).isSome = true) ∧
      (∀ self, (MoveDeclarationOutOfIfOp.match_ doc tc matcher self path).isSome = true) ∧
      (∀ self, (MoveDeclarationOutOfWhileOp.match_ doc tc matcher self path).isSome = true) ∧
      (∀ self, (SplitSimpleDeclarationOp.match_ doc tc self path).isSome = true)) := by
  refine ⟨⟨rfl, by decide, by decide⟩, ?_⟩
  intro doc tc matcher path
  refine ⟨fun self => RewriteLogicalAndOp.rewrite_match_total doc tc matcher self path,
    fun self => SplitIfStatementOp.splitIf_match_total doc tc self path,
    fun self => MoveDeclarationOutOfIfOp.moveIf_loop_total doc tc matcher path _ _ _
      (Nat.le_refl _),
    fun self => MoveDeclarationOutOfWhileOp.moveWhile_loop_total doc tc matcher path _ _ _
      (Nat.le_refl _),
    fun self => SplitSimpleDeclarationOp.splitDecl_loop_total doc tc path self _ _
      (Nat.le_refl _)⟩

/-! ## Change sets of the move-declaration rules, and the edit functions -/

/-- C21 at a failing input: on `while ( Type name = foo()) { use(name); }`, a blank after
the opening parenthesis, with the cursor on `name`, `MoveDeclarationOutOfWhileOp::match`
returns index 0 and `createChangeSet` records three edits in offsets of the original text:
the insertion of `Type name;` and a newline at offset 0, the insertion of `name` at offset
7 (the end of the opening parenthesis), and the replacement of the condition, offsets 8 to
25, by `(name = foo()) != 0`.  The three edits start at different offsets and their ranges
are apart, so the text they give does not depend on the order in which they are applied:
written to the buffer they give `Type name;` newline
`while (name (name = foo()) != 0) { use(name); }`, where the condition is not
`(name = foo()) != 0`. -/
theorem moveDeclarationOutOfWhile_inserts_name_twice :
    moveWhileSpacedMatched.1 = 0 ∧
    (MoveDeclarationOutOfWhileOp.createChangeSet moveWhileSpacedDocument
        (exampleCursorIn moveWhileSpacedText 13) moveWhileSpacedMatched.2
        EditState.initial).map
        (fun s => (s._changeSet.m_replaceList, s._changeSet.m_moveList))
      = some ([⟨0, 0, "Type name;\n"⟩, ⟨7, 0, "name"⟩, ⟨8, 17, "(name = foo()) != 0"⟩], []) ∧
    (MoveDeclarationOutOfWhileOp.createChangeSet moveWhileSpacedDocument
        (exampleCursorIn moveWhileSpacedText 13) moveWhileSpacedMatched.2
        EditState.initial).bind
        (fun s => s._changeSet.write moveWhileSpacedText)
      = some "Type name;\nwhile (name (name = foo()) != 0) \x7b use(name); \x7d" ∧
    "Type name;" ++ "\n" ++ "while (" ++ "(" ++ "name" ++ " = " ++ "foo()" ++ ") != 0"
        ++ ") \x7b use(name); \x7d"
      ≠ "Type name;\nwhile (name (name = foo()) != 0) \x7b use(name); \x7d" := by
  refine ⟨by decide, by decide, by decide, by decide⟩

/-! ## Source ranges of the recorded edits -/

/-- C26, counterexample: `replace(-2147483648, 2147483647, "x")` passes the guard
`end >= start` and records an edit whose length is the `int` difference -1, not
4294967295; `move` with the same range records the length -1 as well. -/
theorem quickFixOperation_length_wraps :
    QuickFixOperation.replace EditState.initial (-2147483648) 2147483647 "x"
        = { _topLevelNode := none,
            _changeSet := { m_replaceList := [⟨-2147483648, -1, "x"⟩], m_moveList := [] } } ∧
      QuickFixOperation.move EditState.initial (-2147483648) 2147483647 0
        = { _topLevelNode := none,
            _changeSet := { m_replaceList := [], m_moveList := [⟨-2147483648, -1, 0⟩] } } ∧
      (2147483647 : Int) - (-2147483648) = 4294967295 :=
  ⟨rfl, rfl, by decide⟩

/-- C26, amended: `QuickFixOperation::replace(start, end, text)` appends one edit at
`start` with the text when `end >= start` and leaves the state unchanged otherwise;
`move(start, end, to)` appends one move from `start` to `to` when `end > start` and leaves
the state unchanged otherwise; `insert(at, text)` always appends the replacement
(at, 0, text).  The length recorded is `end - start` computed in `int`; it is the
difference `end - start` itself whenever that difference lies in the range of `int`, as it
does for buffer offsets. -/
theorem quickFixOperation_edit_guards (self : EditState) (start end_ to_ at_ : Int)
    (text : String) :
    (end_ ≥ start →
      QuickFixOperation.replace self start end_ text
        = { self with _changeSet :=
              { self._changeSet with
                m_replaceList := self._changeSet.m_replaceList
                  ++ [⟨start, toInt32 (end_ - start), text⟩] } }) ∧
    (¬ end_ ≥ start → QuickFixOperation.replace self start end_ text = self) ∧
    (end_ > start →
      QuickFixOperation.move self start end_ to_
        = { self with _changeSet :=
              { self._changeSet with
                m_moveList := self._changeSet.m_moveList
                  ++ [⟨start, toInt32 (end_ - start), to_⟩] } }) ∧
    (¬ end_ > start → QuickFixOperation.move self start end_ to_ = self) ∧
    QuickFixOperation.insert self at_ text
      = { self with _changeSet :=
            { self._changeSet with
              m_replaceList := self._changeSet.m_replaceList ++ [⟨at_, 0, text⟩] } } ∧
    (-2147483648 ≤ end_ - start → end_ - start < 2147483648 →
      toInt32 (end_ - start) = end_ - start) ∧
    (0 ≤ start → start ≤ end_ → end_ < 2147483648 → toInt32 (end_ - start) = end_ - start) := by
  refine ⟨?_, ?_, ?_, ?_, ?_, ?_, ?_⟩
  · intro h
    simp only [QuickFixOperation.replace, h, if_true, ChangeSet.replace]
  · intro h
    simp only [QuickFixOperation.replace, h, if_false]
  · intro h
    simp only [QuickFixOperation.move, h, if_true, ChangeSet.move]
  · intro h
    simp only [QuickFixOperation.move, h, if_false]
  · simp only [QuickFixOperation.insert, QuickFixOperation.replace, ge_iff_le, le_refl,
      if_true, ChangeSet.replace, sub_self, toInt32_zero]
  · intro h0 h1
    unfold toInt32
    omega
  · intro h0 h1 h2
    unfold toInt32
    omega

/-- Witness of `quickFixOperation_edit_guards`: on the initial state, `replace(3, 5, "x")`
records the edit (3, 2, `x`) and `move(3, 5, 9)` the move (3, 2, 9). -/
theorem quickFixOperation_edit_guards_witness :
    QuickFixOperation.replace EditState.initial 3 5 "x"
        = { _topLevelNode := none,
            _changeSet := { m_replaceList := [⟨3, 2, "x"⟩], m_moveList := [] } } ∧
      QuickFixOperation.move EditState.initial 3 5 9
        = { _topLevelNode := none,
            _changeSet := { m_replaceList := [], m_moveList := [⟨3, 2, 9⟩] } } ∧
      toInt32 (5 - 3) = 5 - 3 :=
  ⟨(quickFixOperation_edit_guards EditState.initial 3 5 9 0 "x").1 (by decide),
   (quickFixOperation_edit_guards EditState.initial 3 5 9 0 "x").2.2.1 (by decide),
   (quickFixOperation_edit_guards EditState.initial 3 5 9 0 "x").2.2.2.2.2.2
     (by decide) (by decide) (by decide)⟩

/-! ## The items offered and the item completed -/

theorem CPPQuickFixCollector.completionsLoop_spec :
    ∀ (l : List QuickFixOperation) (i : Int) (items : List CompletionItem),
      (CPPQuickFixCollector.completionsLoop l i items).length = items.length + l.length ∧
      (CPPQuickFixCollector.completionsLoop l i items).take items.length = items ∧
      (∀ (k : Nat) (op : QuickFixOperation), l[k]? = some op →
        (CPPQuickFixCollector.completionsLoop l i items)[items.length + k]?
          = some { text := op.description, data := i + (k : Int) }) := by
  intro l
  induction l with
  | nil =>
    intro i items
    refine ⟨rfl, by simp [CPPQuickFixCollector.completionsLoop], ?_⟩
    intro k op h
    simp at h
  | cons op rest ih =>
    intro i items
    obtain ⟨h1, h2, h3⟩ := ih (i + 1) (items ++ [{ text := op.description, data := i }])
    simp only [CPPQuickFixCollector.completionsLoop]
    have htake : (CPPQuickFixCollector.completionsLoop rest (i + 1)
        (items ++ [{ text := op.description, data := i }])).take (items.length + 1)
        = items ++ [{ text := op.description, data := i }] := by
      simpa using h2
    refine ⟨?_, ?_, ?_⟩
    · rw [h1]
      simp only [List.length_append, List.length_cons, List.length_nil]
      omega
    · have := congrArg (List.take items.length) htake
      rw [List.take_take] at this
      simpa using this
    · intro k op1 hk
      cases k with
      | zero =>
        simp only [List.getElem?_cons_zero, Option.some.injEq] at hk
        subst hk
        have h4 := congrArg (fun l => l[items.length]?) htake
        simp only at h4
        rw [List.getElem?_take] at h4
        simp only [Nat.lt_succ_self, if_true] at h4
        simpa using h4
      | succ k =>
        simp only [List.getElem?_cons_succ] at hk
        have := h3 k op1 hk
        simp only [List.length_append, List.length_cons, List.length_nil] at this
        have hidx : items.length + (k + 1) = items.length + 0 + 1 + k := by omega
        rw [hidx, this]
        congr 2
        push_cast
        ring

/-- C27: `completions` leaves the items already in the list in place and appends one item
per retained fix, so exactly n items for n retained fixes; the item appended for the i-th
fix carries its description as text and `i` as data.  `complete` with the data `i` of an
offered item performs exactly the i-th retained operation, once `startCompletion` has set
the editor: the operation is given the text cursor of the editor, `createChangeSet()`
builds its change set and `applyChangeSet()` writes that change set to the buffer, so the
operation `complete` returns is that of the i-th fix, carries the change set
`createChangeSet()` built, and its buffer holds the text of the editor with that change
set written to it; where one of the two calls has no result `complete` has none.  With
data `>= n` it performs nothing. -/
theorem completions_and_complete (self : CPPQuickFixCollector) (editor : CPPEditor)
    (quickFixItems : List CompletionItem) :
    (self.completions quickFixItems).length
        = quickFixItems.length + self._quickFixes.length ∧
      (self.completions quickFixItems).take quickFixItems.length = quickFixItems ∧
      (∀ (i : Nat) (op : QuickFixOperation), self._quickFixes[i]? = some op →
        (self.completions quickFixItems)[quickFixItems.length + i]?
            = some { text := op.description, data := (i : Int) } ∧
          (self._editor = true →
            self.complete editor (i : Int)
                = ((QuickFixOperation.createChangeSet
                      { op with _textCursor := some editor.textCursor }).bind
                    QuickFixOperation.applyChangeSet).map (fun r => [r]) ∧
              ∀ ops, self.complete editor (i : Int) = some ops →
                ∃ built r,
                  QuickFixOperation.createChangeSet
                      { op with _textCursor := some editor.textCursor } = some built ∧
                    ops = [r] ∧ r.fields = op.fields ∧ r._document = op._document ∧
                    r._changeSet = built._changeSet ∧
                    r._textCursor.map TextCursor.documentText
                      = built._changeSet.write editor.textCursor.documentText)) ∧
      (∀ index : Int, (self._quickFixes.length : Int) ≤ index →
        self.complete editor index = some []) := by
  obtain ⟨h1, h2, h3⟩ :=
    CPPQuickFixCollector.completionsLoop_spec self._quickFixes 0 quickFixItems
  refine ⟨h1, h2, ?_, ?_⟩
  · intro i op hop
    refine ⟨by simpa [CPPQuickFixCollector.completions] using h3 i op hop, ?_⟩
    intro hed
    have hlt : i < self._quickFixes.length := (List.getElem?_eq_some.1 hop).1
    have hlt1 : (i : Int) < (self._quickFixes.length : Int) := by exact_mod_cast hlt
    have hnn : ¬ (i : Int) < 0 := by omega
    have hc : self.complete editor (i : Int)
        = ((QuickFixOperation.createChangeSet
              { op with _textCursor := some editor.textCursor }).bind
            QuickFixOperation.applyChangeSet).map (fun r => [r]) := by
      simp only [CPPQuickFixCollector.complete, hlt1, if_true, hnn, if_false, Int.toNat_ofNat,
        hop, CPPQuickFixCollector.perform, hed]
      cases QuickFixOperation.createChangeSet
        { op with _textCursor := some editor.textCursor } <;> rfl
    refine ⟨hc, ?_⟩
    intro ops hops
    rw [hc] at hops
    cases hb : QuickFixOperation.createChangeSet
        { op with _textCursor := some editor.textCursor } with
    | none => rw [hb] at hops; simp at hops
    | some built =>
      rw [hb] at hops
      simp only [Option.some_bind, Option.map_eq_some'] at hops
      obtain ⟨r, hr, rfl⟩ := hops
      obtain ⟨b1, b2, b3⟩ := QuickFixOperation.createChangeSet_keeps _ _ hb
      obtain ⟨a1, a2, _, a4⟩ := QuickFixOperation.applyChangeSet_keeps _ _ hr
      refine ⟨built, r, rfl, rfl, a1.trans b1, a2.trans b2, a4, ?_⟩
      unfold QuickFixOperation.applyChangeSet at hr
      rw [b3] at hr
      simp only at hr
      split at hr
      · simp at hr
      · simp only [Option.map_eq_some'] at hr
        obtain ⟨text, ht, rfl⟩ := hr
        simp only [Option.map_some', ht]
  · intro index hidx
    have hnlt : ¬ index < (self._quickFixes.length : Int) := by omega
    simp only [CPPQuickFixCollector.complete, hnlt, if_false]

/-- Witness of `completions_and_complete`: the collector that retains the two fixes
offered on `if (!a && !b) { x(); }` offers as first item `Rewrite condition using ||`
with data 0, and `complete` with data 0 performs that one operation: its change set is
built and written, and the buffer then reads `if (!(a || b)) { x(); }`. -/
theorem completions_and_complete_witness :
    (retainingCollector.completions [])[0 + 0]?
        = some { text := "Rewrite condition using ||", data := 0 } ∧
      (retainingCollector.complete ifAndEditor 0).map
        (fun ops => ops.map (fun r =>
          (r.description, r._changeSet.m_replaceList,
            r._textCursor.map TextCursor.documentText)))
        = some [("Rewrite condition using ||",
            [⟨7, 2, "||"⟩, ⟨4, 1, "!("⟩, ⟨10, 1, ""⟩, ⟨12, 0, ")"⟩],
            some "if (!(a || b)) \x7b x(); \x7d")] := by
  have hop : retainingCollector._quickFixes[0]?
      = some (retainingCollector._quickFixes[0]?.getD ifAndRewriteOp) := rfl
  obtain ⟨h1, h2⟩ := (completions_and_complete retainingCollector ifAndEditor []).2.2.1 0
    (retainingCollector._quickFixes[0]?.getD ifAndRewriteOp) hop
  refine ⟨?_, ?_⟩
  · simpa using h1.trans rfl
  · have h3 := (h2 rfl).1
    simp only [Nat.cast_zero] at h3
    rw [h3]
    decide

/-! ## Arguments of `VCSBaseEditorParameterWidget` -/

theorem foldl_append_flatten {α : Type} (f : α → List String) (l : List α) :
    ∀ init : List String,
      l.foldl (fun args m => args ++ f m) init = init ++ (l.map f).flatten := by
  induction l with
  | nil => intro init; simp
  | cons a t ih =>
    intro init
    simp only [List.foldl_cons, List.map_cons, List.flatten_cons]
    rw [ih, List.append_assoc]

theorem VCSBaseEditorParameterWidget.arguments_eq_flatten
    (self : VCSBaseEditorParameterWidget) :
    self.arguments
      = self.m_baseArguments ++ (self.m_optionMappings.map self.argumentsForOption).flatten := by
  unfold VCSBaseEditorParameterWidget.arguments
    VCSBaseEditorParameterWidget.optionMappings VCSBaseEditorParameterWidget.baseArguments
  exact foldl_append_flatten _ _ _

theorem VCSBaseEditorParameterWidget.expandTemplates_eq (optionName value : String) :
    ∀ (ts args : List String),
      VCSBaseEditorParameterWidget.expandTemplates optionName value ts args
        = args ++ ts.map (fun t =>
            QString.replace (QString.replace t "%\x7boption\x7d" optionName)
              "%\x7bvalue\x7d" value) := by
  intro ts
  induction ts with
  | nil => intro args; simp [VCSBaseEditorParameterWidget.expandTemplates]
  | cons t rest ih =>
    intro args
    simp only [VCSBaseEditorParameterWidget.expandTemplates, List.map_cons]
    rw [ih, List.append_assoc]
    rfl

/-- C29: `arguments()` returns the base arguments followed by the concatenation, in the
order of the list of mappings, of `argumentsForOption` of each mapping; `addToggleButton`
and `addComboBox` append their mapping at the end of that list, so that the arguments
after adding a widget are the arguments before followed by the contribution of the new
mapping; a checked toggle button contributes exactly its option name, an unchecked one
nothing. -/
theorem vcsArguments_in_order_of_mappings (self : VCSBaseEditorParameterWidget) :
    self.arguments
        = self.baseArguments ++ (self.optionMappings.map self.argumentsForOption).flatten ∧
      (∀ (m : OptionMapping),
        ({ self with m_optionMappings := self.m_optionMappings ++ [m] } :
            VCSBaseEditorParameterWidget).arguments
          = self.arguments ++ self.argumentsForOption m) ∧
      (∀ (option label toolTip : String),
        (self.addToggleButton option label toolTip).1.optionMappings
            = self.optionMappings ++ [⟨option, some (.QToolButton false)⟩] ∧
          (self.addToggleButton option label toolTip).1.arguments = self.arguments) ∧
      (∀ (option : String) (items : List ComboBoxItem),
        (self.addComboBox option items).1.optionMappings
            = self.optionMappings ++ [⟨option, some (self.addComboBox option items).2⟩] ∧
          (self.addComboBox option items).1.arguments
            = self.arguments
              ++ self.argumentsForOption ⟨option, some (self.addComboBox option items).2⟩) ∧
      (∀ o : String, self.argumentsForOption ⟨o, some (.QToolButton true)⟩ = [o]) ∧
      (∀ o : String, self.argumentsForOption ⟨o, some (.QToolButton false)⟩ = []) ∧
      exampleParameterWidget.arguments = ["diff", "-w", "--file=a.out"] := by
  have hadd : ∀ (m : OptionMapping),
      ({ self with m_optionMappings := self.m_optionMappings ++ [m] } :
          VCSBaseEditorParameterWidget).arguments
        = self.arguments ++ self.argumentsForOption m := by
    intro m
    rw [VCSBaseEditorParameterWidget.arguments_eq_flatten,
      VCSBaseEditorParameterWidget.arguments_eq_flatten]
    simp only [List.map_append, List.flatten_append, List.map_cons, List.map_nil,
      List.flatten_cons, List.flatten_nil, List.append_nil, List.append_assoc]
    rfl
  refine ⟨VCSBaseEditorParameterWidget.arguments_eq_flatten self, hadd, ?_, ?_,
    fun o => rfl, fun o => rfl, by decide⟩
  · intro option label toolTip
    refine ⟨rfl, ?_⟩
    have := hadd ⟨option, some (.QToolButton false)⟩
    simpa [VCSBaseEditorParameterWidget.addToggleButton,
      VCSBaseEditorParameterWidget.argumentsForOption] using this
  · intro option items
    exact ⟨rfl, hadd _⟩

/-- C30: for a combo-box mapping with option name `o` and current value `v`,
`argumentsForOption` returns one argument per template, in order: the template with every
occurrence of `%{option}` replaced by `o` and then every occurrence of `%{value}` replaced
by `v`.  With `o` = `--file` and `v` = `a.out` the template `%{option}=%{value}` gives
`--file=a.out`, the two templates `%{option}` and `%{value}` give the two arguments
`--file` and `a.out`, and each occurrence in a template is replaced. -/
theorem vcsArgumentsForOption_comboBox (self : VCSBaseEditorParameterWidget) (o : String)
    (items : List ComboBoxItem) (currentIndex : Int) :
    self.argumentsForOption ⟨o, some (.QComboBox items currentIndex)⟩
        = self.comboBoxOptionTemplate.map (fun t =>
            QString.replace (QString.replace t "%\x7boption\x7d" o) "%\x7bvalue\x7d"
              (QWidget.itemData items currentIndex)) ∧
      (self.argumentsForOption ⟨o, some (.QComboBox items currentIndex)⟩).length
        = self.comboBoxOptionTemplate.length ∧
      (VCSBaseEditorParameterWidget.new.setComboBoxOptionTemplate
          ["%\x7boption\x7d=%\x7bvalue\x7d"]).argumentsForOption
          ⟨"--file", some (.QComboBox [⟨"File", "a.out"⟩] 0)⟩ = ["--file=a.out"] ∧
      (VCSBaseEditorParameterWidget.new.setComboBoxOptionTemplate
          ["%\x7boption\x7d", "%\x7bvalue\x7d"]).argumentsForOption
          ⟨"--file", some (.QComboBox [⟨"File", "a.out"⟩] 0)⟩ = ["--file", "a.out"] ∧
      (VCSBaseEditorParameterWidget.new.setComboBoxOptionTemplate
          ["%\x7bvalue\x7d %\x7boption\x7d %\x7bvalue\x7d"]).argumentsForOption
          ⟨"--file", some (.QComboBox [⟨"File", "a.out"⟩] 0)⟩ = ["a.out --file a.out"] := by
  have h : self.argumentsForOption ⟨o, some (.QComboBox items currentIndex)⟩
      = self.comboBoxOptionTemplate.map (fun t =>
          QString.replace (QString.replace t "%\x7boption\x7d" o) "%\x7bvalue\x7d"
            (QWidget.itemData items currentIndex)) := by
    simp only [VCSBaseEditorParameterWidget.argumentsForOption,
      VCSBaseEditorParameterWidget.expandTemplates_eq, List.nil_append,
      VCSBaseEditorParameterWidget.comboBoxOptionTemplate]
  refine ⟨h, ?_, by decide, by decide, by decide⟩
  rw [h, List.length_map]

/-! ## The cursor test -/

/-- C31: `isCursorOn` of a token and of a node is true iff the start of the selection lies
in the closed interval from `startOf` to `endOf`; it reads the start of the selection and
the block positions of the buffer only, not the end of the selection.  On
`if (!a && !b) { x(); }`, whose `&&` token occupies the offsets 7..9, a cursor at offset 9,
right behind the token, is on it, a cursor at offset 10 is not, and a cursor at offset 6 is
not. -/
theorem isCursorOn_closed_interval (doc : Document) (tc : TextCursor) :
    (∀ tokenIndex : Nat,
      QuickFixOperation.isCursorOn doc tc tokenIndex = true ↔
        QuickFixOperation.startOf doc tc tokenIndex ≤ tc.selectionStart ∧
          tc.selectionStart ≤ QuickFixOperation.endOf doc tc tokenIndex) ∧
    (∀ ast : AST,
      QuickFixOperation.isCursorOnAST doc tc ast = true ↔
        QuickFixOperation.startOfAST doc tc ast ≤ tc.selectionStart ∧
          tc.selectionStart ≤ QuickFixOperation.endOfAST doc tc ast) ∧
    (∀ tc1 : TextCursor, tc1.selectionStart = tc.selectionStart →
      tc1.findBlockPosition = tc.findBlockPosition →
      (∀ tokenIndex : Nat, QuickFixOperation.isCursorOn doc tc1 tokenIndex
        = QuickFixOperation.isCursorOn doc tc tokenIndex) ∧
      (∀ ast : AST, QuickFixOperation.isCursorOnAST doc tc1 ast
        = QuickFixOperation.isCursorOnAST doc tc ast)) ∧
    (QuickFixOperation.startOf ifAndDocument (exampleCursor 9) 5 = 7 ∧
      QuickFixOperation.endOf ifAndDocument (exampleCursor 9) 5 = 9 ∧
      QuickFixOperation.isCursorOn ifAndDocument (exampleCursor 7) 5 = true ∧
      QuickFixOperation.isCursorOn ifAndDocument (exampleCursor 9) 5 = true ∧
      QuickFixOperation.isCursorOn ifAndDocument (exampleCursor 10) 5 = false ∧
      QuickFixOperation.isCursorOn ifAndDocument (exampleCursor 6) 5 = false) := by
  refine ⟨?_, ?_, ?_, by decide⟩
  · intro tokenIndex
    simp only [QuickFixOperation.isCursorOn, ge_iff_le, Bool.and_eq_true, decide_eq_true_eq]
    constructor
    · intro h
      by_contra hn
      simp [hn] at h
    · intro h
      simp [h]
  · intro ast
    simp only [QuickFixOperation.isCursorOnAST, ge_iff_le, Bool.and_eq_true,
      decide_eq_true_eq]
    constructor
    · intro h
      by_contra hn
      simp [hn] at h
    · intro h
      simp [h]
  · intro tc1 hsel hblock
    have hs : ∀ i : Nat, QuickFixOperation.startOf doc tc1 i
        = QuickFixOperation.startOf doc tc i := by
      intro i
      simp only [QuickFixOperation.startOf, hblock]
    have he : ∀ i : Nat, QuickFixOperation.endOf doc tc1 i
        = QuickFixOperation.endOf doc tc i := by
      intro i
      simp only [QuickFixOperation.endOf, hblock]
    refine ⟨?_, ?_⟩
    · intro i
      simp only [QuickFixOperation.isCursorOn, hs, he, hsel]
    · intro ast
      simp only [QuickFixOperation.isCursorOnAST, QuickFixOperation.startOfAST,
        QuickFixOperation.endOfAST, hs, he, hsel]

/-- Witness of `isCursorOn_closed_interval`: a selection that starts behind `&&` and
extends over three more characters is on the token as the cursor without selection is. -/
theorem isCursorOn_closed_interval_witness :
    QuickFixOperation.isCursorOn ifAndDocument { exampleCursor 9 with selectionEnd := 12 } 5
      = QuickFixOperation.isCursorOn ifAndDocument (exampleCursor 9) 5 :=
  ((isCursorOn_closed_interval ifAndDocument (exampleCursor 9)).2.2.1
    { exampleCursor 9 with selectionEnd := 12 } rfl rfl).1 5

/-! ## Mixed operators below an if-statement, and the default template -/

/-- C32 at a failing input: on `if (a || b && c) { y(); }` with the cursor before `&&`, the
chain is the if-statement, the condition `a || (b && c)` and the nested `b && c`;
`SplitIfStatementOp::match` passes the `||` expression, whose operator kind differs from
that of the anchor, and returns the index 2 of the nested `&&` expression.  The change set
then takes `c` as the split-off condition and gives `if (a || b) {` / `if (c) { y(); }` /
`}`, which groups the condition as `(a || b) && c`. -/
theorem splitIfStatement_matches_mixed_operators :
    ASTPath.run mixedDocument (exampleCursorIn mixedText 11)
        = [mixedStatement, mixedCondition, mixedInner] ∧
      mixedMatched.1 = 2 ∧
      (mixedDocument.tokenAt mixedCondition.binary_op_token).kind = Kind.T_PIPE_PIPE ∧
      (mixedDocument.tokenAt mixedInner.binary_op_token).kind = Kind.T_AMPER_AMPER ∧
      (SplitIfStatementOp.createChangeSet mixedDocument (exampleCursorIn mixedText 11)
          mixedMatched.2 EditState.initial).bind (fun s => s._changeSet.apply mixedText)
        = some "if (a || b) \x7b\nif (c) \x7b y(); \x7d\n\x7d" := by
  refine ⟨rfl, by decide, by decide, by decide, by decide⟩

/-- C34 at the failing input: the template installed by the constructor is the one string
`%1=%2`, which holds neither `%{option}` nor `%{value}`; so for every combo-box mapping of
a widget whose template was never set, whatever the option name and the current value,
`argumentsForOption` returns the single argument `%1=%2`, and for the option `--file` with
the value `a.out` not `--file=a.out`. -/
theorem vcsDefaultTemplate_not_substituted :
    VCSBaseEditorParameterWidget.new.comboBoxOptionTemplate = ["%1=%2"] ∧
      (∀ (o : String) (items : List ComboBoxItem) (currentIndex : Int),
        VCSBaseEditorParameterWidget.new.argumentsForOption
          ⟨o, some (.QComboBox items currentIndex)⟩ = ["%1=%2"]) ∧
      (VCSBaseEditorParameterWidget.new.addComboBox "--file" [⟨"File", "a.out"⟩]).1.arguments
        = ["%1=%2"] ∧
      (VCSBaseEditorParameterWidget.new.addComboBox "--file" [⟨"File", "a.out"⟩]).1.arguments
        ≠ ["--file=a.out"] := by
  refine ⟨rfl, ?_, by decide, by decide⟩
  intro o items currentIndex
  have h1 : ∀ after : String, QString.replace "%1=%2" "%\x7boption\x7d" after = "%1=%2" := by
    intro after
    simp [QString.replace, QString.replaceChars, List.isPrefixOf]
  have h2 : ∀ after : String, QString.replace "%1=%2" "%\x7bvalue\x7d" after = "%1=%2" := by
    intro after
    simp [QString.replace, QString.replaceChars, List.isPrefixOf]
  simp only [VCSBaseEditorParameterWidget.argumentsForOption,
    VCSBaseEditorParameterWidget.new, VCSBaseEditorParameterWidget.expandTemplates, h1, h2,
    List.nil_append]

/-! ## The chain handed to the rules -/

theorem CPPQuickFixCollector.matchCandidates_fails (matcher : ASTMatcher) (doc : Document)
    (editor : CPPEditor) (path : List AST) :
    ∀ (ops : List QuickFixOperation) (m : QMap QuickFixOperation),
      CPPQuickFixCollector.matchCandidates matcher doc editor path ops m = none →
      ∃ op ∈ ops, (op.prepare doc editor).match_ matcher path = none := by
  intro ops
  induction ops with
  | nil =>
    intro m h
    simp [CPPQuickFixCollector.matchCandidates] at h
  | cons op rest ih =>
    intro m h
    unfold CPPQuickFixCollector.matchCandidates at h
    cases hm : (op.prepare doc editor).match_ matcher path with
    | none => exact ⟨op, List.mem_cons_self _ _, hm⟩
    | some r =>
      rw [hm] at h
      simp only at h
      obtain ⟨op1, hmem, hop1⟩ := ih _ h
      exact ⟨op1, List.mem_cons_of_mem _ hmem, hop1⟩

theorem AddBracesToIfOp.addBraces_loop_none (doc : Document) (tc : TextCursor)
    (path : List AST) (self : AddBracesToIfOp) :
    ∀ k : Nat, k ≤ path.length → AddBracesToIfOp.loop doc tc path self k = none →
      ∃ n ∈ path, n.asIfStatement = some n ∧ n.statement = none := by
  intro k
  induction k with
  | zero =>
    intro _ h
    simp [AddBracesToIfOp.loop] at h
  | succ k ih =>
    intro hk h
    have hlt : k < path.length := hk
    have hget : path[k]? = some path[k] := List.getElem?_eq_getElem hlt
    unfold AddBracesToIfOp.loop at h
    rw [hget] at h
    simp only at h
    split at h
    · exact ih (Nat.le_of_lt hlt) h
    · rename_i ifStatement hif
      have hself := AST.asIfStatement_eq_some _ _ hif
      subst hself
      split at h
      · rename_i hst
        exact ⟨path[k], List.getElem_mem _, hif, hst⟩
      · split at h
        · simp at h
        · exact ih (Nat.le_of_lt hlt) h

theorem AddBracesToIfOp.addBraces_match_none (doc : Document) (tc : TextCursor)
    (self : AddBracesToIfOp) (path : List AST) (hne : path ≠ [])
    (h : AddBracesToIfOp.match_ doc tc self path = none) :
    ∃ n ∈ path, n.asIfStatement = some n ∧ n.statement = none := by
  have hloop := AddBracesToIfOp.addBraces_loop_none doc tc path self path.length
    (Nat.le_refl _)
  unfold AddBracesToIfOp.match_ at h
  split at h
  · rename_i hlast
    rw [List.getLast?_eq_none_iff] at hlast
    exact absurd hlast hne
  · rename_i last hlast
    split at h
    · exact hloop h
    · rename_i ifStatement hif
      have hself := AST.asIfStatement_eq_some _ _ hif
      subst hself
      split at h
      · split at h
        · rename_i hst
          exact ⟨ifStatement, List.mem_of_getLast?_eq_some hlast, hif, hst⟩
        · split at h
          · simp at h
          · exact hloop h
      · exact hloop h

theorem Option.map_eq_none_of {α β : Type} (f : α → β) (o : Option α)
    (h : o.map f = none) : o = none := by
  cases o with
  | none => rfl
  | some a => simp at h

/-- C33: when the locator returns the empty chain, `startCompletion` returns -1 at line
811, before any operation is created, and leaves the retained fixes as they were, whatever
the matcher.  On a non-empty chain the last element, which `AddBracesToIfOp::match` reads
at index `size - 1`, exists.  Hence a call of `startCompletion` that has no result has a
non-empty chain with an if-statement without body in it (the null dereference of
`AddBracesToIfOp::match`), and none fails by an access outside the chain. -/
theorem startCompletion_matches_only_nonempty_chain (matcher : ASTMatcher)
    (self : CPPQuickFixCollector) (editor : CPPEditor) :
    (∀ doc : Document, editor.semanticInfo.revision = editor.revision →
      editor.semanticInfo.doc = some doc → ASTPath.run doc editor.textCursor = [] →
      self.startCompletion matcher editor
        = some (-1, { _editor := true, _quickFixes := self._quickFixes })) ∧
    (∀ path : List AST, path ≠ [] → path.getLast?.isSome = true) ∧
    (self.startCompletion matcher editor = none →
      ∃ doc : Document, editor.semanticInfo.doc = some doc ∧
        ASTPath.run doc editor.textCursor ≠ [] ∧
        ∃ n ∈ ASTPath.run doc editor.textCursor, n.asIfStatement = some n ∧
          n.statement = none) := by
  refine ⟨?_, ?_, ?_⟩
  · intro doc hrev hdoc hpath
    unfold CPPQuickFixCollector.startCompletion
    simp only [ne_eq, hrev, not_true_eq_false, if_false, hdoc, hpath, List.isEmpty_nil,
      if_true]
  · intro path hne
    cases path with
    | nil => exact absurd rfl hne
    | cons a t => simp [List.getLast?_cons]
  · intro h
    unfold CPPQuickFixCollector.startCompletion at h
    simp only at h
    split at h
    · simp at h
    · split at h
      · rename_i doc hdoc
        split at h
        · simp at h
        · rename_i hne
          refine ⟨doc, hdoc, ?_, ?_⟩
          · intro hnil
            rw [hnil] at hne
            exact hne rfl
          · have hne1 : ASTPath.run doc editor.textCursor ≠ [] := by
              intro hnil
              rw [hnil] at hne
              exact hne rfl
            split at h
            · rename_i hmc
              obtain ⟨op, hmem, hop⟩ :=
                CPPQuickFixCollector.matchCandidates_fails matcher doc editor _ _ _ hmc
              simp only [CPPQuickFixCollector.candidates, List.mem_cons, List.mem_singleton,
                List.mem_nil_iff, or_false] at hmem
              rcases hmem with rfl | rfl | rfl | rfl | rfl | rfl
              · have ht := RewriteLogicalAndOp.rewrite_match_total doc editor.textCursor
                  matcher ⟨none, none, none⟩ (ASTPath.run doc editor.textCursor)
                have := Option.map_eq_none_of _ _ hop
                rw [this] at ht
                contradiction
              · have ht := SplitIfStatementOp.splitIf_match_total doc editor.textCursor
                  ⟨none, none⟩ (ASTPath.run doc editor.textCursor)
                have := Option.map_eq_none_of _ _ hop
                rw [this] at ht
                contradiction
              · have ht := MoveDeclarationOutOfIfOp.moveIf_loop_total doc editor.textCursor
                  matcher (ASTPath.run doc editor.textCursor) _
                  (mk.IfStatement mk.Condition) none (Nat.le_refl _)
                have := Option.map_eq_none_of _ _ hop
                unfold MoveDeclarationOutOfIfOp.match_ at this
                rw [this] at ht
                contradiction
              · have ht := MoveDeclarationOutOfWhileOp.moveWhile_loop_total doc
                  editor.textCursor matcher (ASTPath.run doc editor.textCursor) _
                  (mk.WhileStatement mk.Condition) none (Nat.le_refl _)
                have := Option.map_eq_none_of _ _ hop
                unfold MoveDeclarationOutOfWhileOp.match_ at this
                rw [this] at ht
                contradiction
              · have ht := SplitSimpleDeclarationOp.splitDecl_loop_total doc
                  editor.textCursor (ASTPath.run doc editor.textCursor) ⟨none⟩ _ none
                  (Nat.le_refl _)
                have := Option.map_eq_none_of _ _ hop
                unfold SplitSimpleDeclarationOp.match_ at this
                rw [this] at ht
                contradiction
              · have := Option.map_eq_none_of _ _ hop
                exact AddBracesToIfOp.addBraces_match_none doc editor.textCursor ⟨none⟩ _
                  hne1 this
            · split at h <;> simp at h
      · simp at h

/-- Witness of `startCompletion_matches_only_nonempty_chain`: with the cursor behind the
one-name text `a` the chain is empty and the request returns -1 on a collector without
retained fixes. -/
theorem startCompletion_matches_only_nonempty_chain_witness :
    freshCollector.startCompletion structuralMatcher outsideEditor
      = some (-1, { _editor := true, _quickFixes := [] }) :=
  (startCompletion_matches_only_nonempty_chain structuralMatcher freshCollector
    outsideEditor).1 nameDocument rfl rfl rfl

end CppQuickFix
